import Mathlib

/-!
# AI Defender: the simulation core, embedded in Lean

A shallow embedding of the game simulation of the repository (`utils.js`, `player.js`,
`asteroids.js`, `enemies.js`, `powerups.js`, `collision.js`, `game.js`) and of the score list
of `leaderboard.js`, together with theorems about them.

Conventions of the embedding.

* JavaScript numbers are rationals (`ℚ`); quantities that only ever hold integers
  (lives, score, health, point values, size tiers, population caps) are integers (`ℤ`).
* `Binary64.round` is the rounding of IEEE 754 binary64 arithmetic (to the nearest number of
  53 significant bits, ties to even, with the subnormal range), and `Binary64.sqrt` is the
  correctly rounded square root. They are applied to every operation of the invulnerability
  and power-up timers of `Player.update`, of `Utils.circleCollision`, of the difficulty
  multipliers and of the placement of the children in `Asteroid.break`; the other
  operations are written exact. The infinities and NaN are not modelled: the rounding has no
  largest exponent.
* Objects are records, methods are functions from the old record to the new one (paired with
  the returned value when there is one).
* A property that the constructor assigns once and nothing in the repository writes again is
  a constant (`Player.speed`) or a function of the property it was computed from
  (`Asteroid.radius` from `size`), not a record field.
* `Math.random()` results are passed in by the caller as values of `Draw`, one for every call
  site that influences the simulation; `Math.PI`, `Math.sin`, `Math.cos` and `Math.sqrt`
  are the fields of a `MathEnv`, except inside `Utils.circleCollision` where `Math.sqrt` is
  `Binary64.sqrt`.
* A loop that runs from the last index down and splices while it iterates is an index loop on
  a list where a theorem is about its visiting order (`scanDown`, the `bulletLoop`s,
  `EnemyManager.updateLoop`), and a `map` followed by a `filter` elsewhere.
* `Array.prototype.sort` is a stable sort.
* Canvas drawing, particle effects, DOM updates, local storage and the AI-facts banner do not
  feed back into the simulation and are left out.
-/

namespace AIDefender

/-! ## Numbers, random draws and library functions -/

/-- A result of `Math.random()`: a number in the half-open interval from 0 to 1. -/
abbrev Draw := {r : ℚ // 0 ≤ r ∧ r < 1}

/-- The library functions whose values are not rational functions of their arguments. -/
structure MathEnv where
  pi : ℚ
  sin : ℚ → ℚ
  cos : ℚ → ℚ
  sqrt : ℚ → ℚ

/-! ## Binary64 arithmetic -/

namespace Binary64

/-- The number of times a natural number can be halved before it drops below 2: the floor of
its binary logarithm, for a positive number. The first argument bounds the recursion. -/
def log2Nat : ℕ → ℕ → ℕ
  | 0, _ => 0
  | fuel + 1, n => if 2 ≤ n then log2Nat fuel (n / 2) + 1 else 0

/-- The binary exponent of a positive rational `x`: the integer `e` with
`2 ^ e ≤ x < 2 ^ (e + 1)`. -/
def exponent (x : ℚ) : ℤ :=
  let e : ℤ := (log2Nat x.num.natAbs x.num.natAbs : ℤ) - (log2Nat x.den x.den : ℤ)
  if (2 : ℚ) ^ e ≤ x then e else e - 1

/-- The spacing of the binary64 numbers around a positive `x`: 53 significant bits in the
normal range, and the fixed spacing `2 ^ (-1074)` below `2 ^ (-1022)`. -/
def quantum (x : ℚ) : ℚ := (2 : ℚ) ^ (Max.max (exponent x) (-1022) - 52)

/-- Rounding to the nearest integer, a tie going to the even neighbour. -/
def roundHalfEven (m : ℚ) : ℤ :=
  if m - ⌊m⌋ < 1 / 2 then ⌊m⌋
  else if 1 / 2 < m - ⌊m⌋ then ⌊m⌋ + 1
  else if ⌊m⌋ % 2 = 0 then ⌊m⌋ else ⌊m⌋ + 1

/-- Rounding of a non-negative rational to binary64. -/
def roundPos (x : ℚ) : ℚ := roundHalfEven (x / quantum x) * quantum x

/-- The result of a binary64 operation whose exact result is `x`: the nearest binary64 number,
a tie going to the one with an even significand. -/
def round (x : ℚ) : ℚ := if 0 ≤ x then roundPos x else -roundPos (-x)

/-- The loop of the integer square root: the bits of the root from bit `b - 1` down to bit 0,
above the partial root `r`. -/
def isqrtAux (n : ℕ) : ℕ → ℕ → ℕ
  | 0, r => r
  | b + 1, r =>
    if (r + 2 ^ b) * (r + 2 ^ b) ≤ n then isqrtAux n b (r + 2 ^ b) else isqrtAux n b r

/-- The integer square root: the largest `r` with `r * r ≤ n`. -/
def isqrt (n : ℕ) : ℕ := isqrtAux n (log2Nat n n / 2 + 1) 0

/-- `Math.sqrt` on a binary64 number that is not negative, as the square root operation of
IEEE 754: the binary64 number nearest to the real square root. -/
def sqrt (x : ℚ) : ℚ :=
  if x ≤ 0 then 0
  else
    let q : ℚ := (2 : ℚ) ^ (exponent x / 2 - 52)
    let y : ℚ := x / (q * q)
    let n : ℕ := isqrt ⌊y⌋₊
    let m : ℕ :=
      if y < n * n + n + 1 / 4 then n
      else if (n : ℚ) * n + n + 1 / 4 < y then n + 1
      else if n % 2 = 0 then n else n + 1
    m * q

/-- The value of a number that starts at `t` and to which the numbers of a list are added one
after the other with `+=`, every addition rounded. -/
def sumFrom (t : ℚ) (xs : List ℚ) : ℚ := xs.foldl (fun s x => round (s + x)) t

end Binary64

/-! ## Utilities (`utils.js`) -/

/-- The object literal `{x, y, radius}` handed to `Utils.circleCollision`. -/
structure Circle where
  x : ℚ
  y : ℚ
  radius : ℚ
deriving DecidableEq

namespace Utils

/-- `Utils.randomRange(min, max)`: `Math.floor(Math.random() * (max - min + 1)) + min`. -/
def randomRange (rand : Draw) (min max : ℚ) : ℚ :=
  (⌊rand.val * (max - min + 1)⌋ : ℤ) + min

/-- `Utils.clamp(value, min, max)`: `Math.min(Math.max(value, min), max)`. -/
def clamp (value min max : ℚ) : ℚ :=
  Min.min (Max.max value min) max

/-- `Utils.circleCollision(circle1, circle2)`: `Math.sqrt(dx * dx + dy * dy) < r1 + r2`, every
operation rounded to binary64. -/
def circleCollision (circle1 circle2 : Circle) : Bool :=
  let dx := Binary64.round (circle1.x - circle2.x)
  let dy := Binary64.round (circle1.y - circle2.y)
  let distance :=
    Binary64.sqrt (Binary64.round (Binary64.round (dx * dx) + Binary64.round (dy * dy)))
  decide (distance < Binary64.round (circle1.radius + circle2.radius))

end Utils

/-- The loop idiom `for (let i = n - 1; i >= 0; i--) { if (test(items[i])) { ...; break } }`
used by every collision pass: the index at which the loop stops, that is the first index,
counted down from `n - 1`, whose element passes the test, if there is one. -/
def scanDown {α : Type} (test : α → Bool) (items : List α) : ℕ → Option ℕ
  | 0 => none
  | i + 1 =>
    match items[i]? with
    | some item => if test item then some i else scanDown test items i
    | none => scanDown test items i

/-! ## Player (`player.js`) -/

/-- The three power-up kinds (`'rapidFire'`, `'tripleShot'`, `'shield'`). -/
inductive PowerUpType where
  | rapidFire
  | tripleShot
  | shield
deriving DecidableEq

/-- A player bullet, the object literal `{x, y, radius, color}` pushed by `Player.shoot`. -/
structure Bullet where
  x : ℚ
  y : ℚ
  radius : ℚ
  color : String
deriving DecidableEq

/-- The circle `{x: bullet.x, y: bullet.y, radius: bullet.radius}`. -/
def Bullet.circle (b : Bullet) : Circle := ⟨b.x, b.y, b.radius⟩

/-- The mutable properties of a `Player`; `powerUpType = none` is JavaScript `null`. -/
structure Player where
  x : ℚ
  y : ℚ
  width : ℚ
  height : ℚ
  lives : ℤ
  score : ℤ
  isInvulnerable : Bool
  invulnerabilityTime : ℚ
  shootCooldown : ℚ
  shootCooldownTime : ℚ
  powerUpTime : ℚ
  powerUpType : Option PowerUpType
  bullets : List Bullet
  bulletColor : String
  isMovingLeft : Bool
  isMovingRight : Bool
  isShooting : Bool
deriving DecidableEq

namespace Player

/-- `this.speed = 5`. -/
def speed : ℚ := 5

/-- `this.maxInvulnerabilityTime = 2000`. -/
def maxInvulnerabilityTime : ℚ := 2000

/-- `this.maxPowerUpTime = 10000`. -/
def maxPowerUpTime : ℚ := 10000

/-- `this.bulletSpeed = 8`. -/
def bulletSpeed : ℚ := 8

/-- `this.bulletSize = 3`. -/
def bulletSize : ℚ := 3

/-- The default bullet colour, the string the constructor, `update` and `takeDamage` assign. -/
def defaultBulletColor : String := "#4a90e2"

/-- `this.radius = Math.min(width, height) / 2`. -/
def radius (p : Player) : ℚ := Min.min p.width p.height / 2

/-- The circle `{x: player.x, y: player.y, radius: player.radius}` used by every collision
test against the player. -/
def circle (p : Player) : Circle := ⟨p.x, p.y, p.radius⟩

/-- `new Player(x, y, width, height)`. -/
def new (x y width height : ℚ) : Player where
  x := x
  y := y
  width := width
  height := height
  lives := 3
  score := 0
  isInvulnerable := false
  invulnerabilityTime := 0
  shootCooldown := 0
  shootCooldownTime := 300
  powerUpTime := 0
  powerUpType := none
  bullets := []
  bulletColor := defaultBulletColor
  isMovingLeft := false
  isMovingRight := false
  isShooting := false

/-- `Player.shoot()`. -/
def shoot (p : Player) : Player :=
  if p.shootCooldown ≤ 0 then
    let bullets :=
      if p.powerUpType = some PowerUpType.tripleShot then
        p.bullets ++
          [⟨p.x - 10, p.y - p.height / 2, bulletSize, "#9900ff"⟩,
           ⟨p.x, p.y - p.height / 2, bulletSize, "#9900ff"⟩,
           ⟨p.x + 10, p.y - p.height / 2, bulletSize, "#9900ff"⟩]
      else
        p.bullets ++ [⟨p.x, p.y - p.height / 2, bulletSize, p.bulletColor⟩]
    let cooldown :=
      if p.powerUpType = some PowerUpType.rapidFire then 100 else p.shootCooldownTime
    { p with bullets := bullets, shootCooldown := cooldown }
  else p

/-- The movement block of `Player.update`: both direction flags are applied, then the
position is clamped into the canvas. -/
def updateMovement (canvasWidth : ℚ) (p : Player) : Player :=
  let x1 := if p.isMovingLeft then p.x - speed else p.x
  let x2 := if p.isMovingRight then x1 + speed else x1
  { p with x := Utils.clamp x2 p.radius (canvasWidth - p.radius) }

/-- The invulnerability block of `Player.update`; `invulnerabilityTime += deltaTime` rounds to
binary64. -/
def updateInvulnerability (deltaTime : ℚ) (p : Player) : Player :=
  if p.isInvulnerable then
    if Binary64.round (p.invulnerabilityTime + deltaTime) ≥ maxInvulnerabilityTime then
      { p with isInvulnerable := false, invulnerabilityTime := 0 }
    else
      { p with invulnerabilityTime := Binary64.round (p.invulnerabilityTime + deltaTime) }
  else p

/-- The power-up block of `Player.update`; `powerUpTime += deltaTime` rounds to binary64. -/
def updatePowerUp (deltaTime : ℚ) (p : Player) : Player :=
  if p.powerUpType.isSome then
    if Binary64.round (p.powerUpTime + deltaTime) ≥ maxPowerUpTime then
      { p with powerUpType := none, powerUpTime := 0, shootCooldownTime := 300,
               bulletColor := defaultBulletColor }
    else
      { p with powerUpTime := Binary64.round (p.powerUpTime + deltaTime) }
  else p

/-- The cooldown block of `Player.update`. -/
def updateCooldown (deltaTime : ℚ) (p : Player) : Player :=
  if p.shootCooldown > 0 then { p with shootCooldown := p.shootCooldown - deltaTime } else p

/-- The automatic-shooting block of `Player.update`. -/
def updateAutoFire (p : Player) : Player :=
  if p.isShooting ∧ p.shootCooldown ≤ 0 then p.shoot else p

/-- The bullet loop of `Player.update`: every bullet moves up by `bulletSpeed`, and a bullet
whose lower edge has left the screen is spliced out. The loop runs from the last index down,
so a splice never moves a bullet that is still to be visited. -/
def updateBullets (p : Player) : Player :=
  let moved := p.bullets.map fun b => { b with y := b.y - bulletSpeed }
  { p with bullets := moved.filter fun b => !decide (b.y + b.radius < 0) }

/-- `Player.update(deltaTime, canvasWidth)`. -/
def update (deltaTime canvasWidth : ℚ) (p : Player) : Player :=
  updateBullets (updateAutoFire (updateCooldown deltaTime (updatePowerUp deltaTime
    (updateInvulnerability deltaTime (updateMovement canvasWidth p)))))

/-- `Player.applyPowerUp(type)`. -/
def applyPowerUp (type : PowerUpType) (p : Player) : Player :=
  let p1 := { p with powerUpType := some type, powerUpTime := 0 }
  match type with
  | PowerUpType.rapidFire => { p1 with shootCooldownTime := 100, bulletColor := "#ff9900" }
  | PowerUpType.tripleShot => { p1 with bulletColor := "#9900ff" }
  | PowerUpType.shield => { p1 with isInvulnerable := true, invulnerabilityTime := 0 }

/-- `Player.takeDamage()`: the returned flag and the player afterwards. -/
def takeDamage (p : Player) : Bool × Player :=
  if !p.isInvulnerable then
    (true, { p with lives := p.lives - 1, isInvulnerable := true, invulnerabilityTime := 0,
                    powerUpType := none, powerUpTime := 0, shootCooldownTime := 300,
                    bulletColor := defaultBulletColor })
  else (false, p)

/-- `Player.reset(x, y)`. -/
def reset (x y : ℚ) (p : Player) : Player :=
  { p with
    x := x
    y := y
    lives := 3
    score := 0
    isInvulnerable := false
    invulnerabilityTime := 0
    shootCooldown := 0
    powerUpType := none
    powerUpTime := 0
    bullets := []
    isMovingLeft := false
    isMovingRight := false
    isShooting := false }

end Player

/-! ## Asteroids (`asteroids.js`) -/

/-- The `Math.random()` results read by the `Asteroid` constructor, in source order. -/
structure AsteroidDraws where
  rotation : Draw
  spin : Draw
  angle : Draw

/-- The `Math.random()` results read for one child inside `Asteroid.break`: the angle of the
offset from the parent, then the draws of the child's constructor. -/
structure ChildDraws where
  angle : Draw
  ctor : AsteroidDraws

/-- The properties of an `Asteroid` other than `radius` and `points`, which the constructor
derives from `size` and which are never written again. -/
structure Asteroid where
  x : ℚ
  y : ℚ
  size : ℤ
  speed : ℚ
  rotation : ℚ
  spin : ℚ
  angle : ℚ
  velocityX : ℚ
  velocityY : ℚ
deriving DecidableEq

namespace Asteroid

/-- `this.radius`, as set by the constructor's `if (size === 1) ... else if (size === 2) ...
else ...`. -/
def radius (a : Asteroid) : ℚ :=
  if a.size = 1 then 15 else if a.size = 2 then 30 else 45

/-- `this.points`, set by the same conditional of the constructor. -/
def points (a : Asteroid) : ℤ :=
  if a.size = 1 then 100 else if a.size = 2 then 50 else 25

/-- The circle `{x: asteroid.x, y: asteroid.y, radius: asteroid.radius}`. -/
def circle (a : Asteroid) : Circle := ⟨a.x, a.y, a.radius⟩

/-- `new Asteroid(x, y, size, speed)`. -/
def new (env : MathEnv) (d : AsteroidDraws) (x y : ℚ) (size : ℤ) (speed : ℚ) : Asteroid :=
  let angle := d.angle.val * env.pi * 2
  { x := x
    y := y
    size := size
    speed := speed
    rotation := d.rotation.val * env.pi * 2
    spin := (d.spin.val - 0.5) * 0.05
    angle := angle
    velocityX := env.sin angle * speed
    velocityY := env.cos angle * speed }

/-- `Asteroid.update(deltaTime, canvasWidth, canvasHeight)`. -/
def update (_deltaTime canvasWidth canvasHeight : ℚ) (a : Asteroid) : Asteroid :=
  let x1 := a.x + a.velocityX
  let y1 := a.y + a.velocityY
  let x2 :=
    if x1 < -a.radius then canvasWidth + a.radius
    else if x1 > canvasWidth + a.radius then -a.radius
    else x1
  let y2 :=
    if y1 < -a.radius then canvasHeight + a.radius
    else if y1 > canvasHeight + a.radius then -a.radius
    else y1
  { a with x := x2, y := y2, rotation := a.rotation + a.spin }

/-- The angle `Math.random() * Math.PI * 2` drawn for a child inside `Asteroid.break`, both
products rounded to binary64. -/
def breakAngle (env : MathEnv) (d : ChildDraws) : ℚ :=
  Binary64.round (Binary64.round (d.angle.val * env.pi) * 2)

/-- The body of the loop `for (let i = 0; i < 2; i++)` of `Asteroid.break`, every operation
rounded to binary64; the literal `1.2` is the binary64 number nearest to it. -/
def breakChild (env : MathEnv) (d : ChildDraws) (a : Asteroid) : Asteroid :=
  let angle := breakAngle env d
  let distance := Binary64.round (a.radius * 0.5)
  let newX := Binary64.round (a.x + Binary64.round (env.cos angle * distance))
  let newY := Binary64.round (a.y + Binary64.round (env.sin angle * distance))
  Asteroid.new env d.ctor newX newY (a.size - 1)
    (Binary64.round (a.speed * Binary64.round 1.2))

/-- The array returned by `Asteroid.break()`; `d i` holds the draws of the loop's round `i`. -/
def «break» (env : MathEnv) (d : ℕ → ChildDraws) (a : Asteroid) : List Asteroid :=
  if a.size > 1 then (List.range 2).map fun i => breakChild env (d i) a else []

/-- `Asteroid.break()` as a method call: the returned array and the asteroid afterwards. No
statement of the method assigns to a property of `this`. -/
def breakCall (env : MathEnv) (d : ℕ → ChildDraws) (a : Asteroid) : List Asteroid × Asteroid :=
  (a.break env d, a)

end Asteroid

/-- The properties of an `AsteroidManager`. -/
structure AsteroidManager where
  canvasWidth : ℚ
  canvasHeight : ℚ
  asteroids : List Asteroid
  spawnRate : ℚ
  spawnTimer : ℚ
  maxAsteroids : ℤ
  difficultyMultiplier : ℚ
deriving DecidableEq

/-- The `Math.random()` results read by `AsteroidManager.spawnAsteroid`: the size draw, the
choice between the vertical and the horizontal edges, the choice of the edge of that pair, the
position along it, and the constructor's draws. -/
structure AsteroidSpawnDraws where
  size : Draw
  edgePair : Draw
  edge : Draw
  along : Draw
  ctor : AsteroidDraws

namespace AsteroidManager

/-- `new AsteroidManager(canvasWidth, canvasHeight)`. -/
def new (canvasWidth canvasHeight : ℚ) : AsteroidManager where
  canvasWidth := canvasWidth
  canvasHeight := canvasHeight
  asteroids := []
  spawnRate := 2000
  spawnTimer := 0
  maxAsteroids := 10
  difficultyMultiplier := 1

/-- The size chosen at the start of `spawnAsteroid`. -/
def spawnSize (difficultyMultiplier : ℚ) (rand : Draw) : ℤ :=
  if rand.val < 0.3 * difficultyMultiplier then 1
  else if rand.val < 0.6 * difficultyMultiplier then 2
  else 3

/-- `AsteroidManager.spawnAsteroid()`. -/
def spawnAsteroid (env : MathEnv) (d : AsteroidSpawnDraws) (m : AsteroidManager) :
    AsteroidManager :=
  let size := spawnSize m.difficultyMultiplier d.size
  let x :=
    if d.edgePair.val < 0.5 then (if d.edge.val < 0.5 then -50 else m.canvasWidth + 50)
    else d.along.val * m.canvasWidth
  let y :=
    if d.edgePair.val < 0.5 then d.along.val * m.canvasHeight
    else (if d.edge.val < 0.5 then -50 else m.canvasHeight + 50)
  let baseSpeed : ℚ := 1 + (3 - size) * 0.5
  let speed := baseSpeed * (1 + (m.difficultyMultiplier - 1) * 0.3)
  { m with asteroids := m.asteroids ++ [Asteroid.new env d.ctor x y size speed] }

/-- The first half of `AsteroidManager.update`: the spawn timer and the conditional spawn. -/
def updateSpawn (env : MathEnv) (d : AsteroidSpawnDraws) (deltaTime : ℚ)
    (m : AsteroidManager) : AsteroidManager :=
  let m1 := { m with spawnTimer := m.spawnTimer + deltaTime }
  if m1.spawnTimer ≥ m1.spawnRate ∧ (m1.asteroids.length : ℤ) < m1.maxAsteroids then
    { spawnAsteroid env d m1 with spawnTimer := 0 }
  else m1

/-- `AsteroidManager.update(deltaTime)`. -/
def update (env : MathEnv) (d : AsteroidSpawnDraws) (deltaTime : ℚ) (m : AsteroidManager) :
    AsteroidManager :=
  let m1 := updateSpawn env d deltaTime m
  { m1 with asteroids :=
      m1.asteroids.map (Asteroid.update deltaTime m1.canvasWidth m1.canvasHeight) }

/-- The outer loop of `checkBulletCollisions`, `for (let i = n - 1; i >= 0; i--)`, on the
triple of the asteroid array, the bullet array and the score. On a hit the bullet is spliced
out, the children are pushed, and then the asteroid is spliced out at index `i`. -/
def bulletLoop (env : MathEnv) (d : ℕ → ℕ → ChildDraws) :
    ℕ → List Asteroid × List Bullet × ℤ → List Asteroid × List Bullet × ℤ
  | 0, s => s
  | i + 1, (asteroids, bullets, score) =>
    match asteroids[i]? with
    | none => bulletLoop env d i (asteroids, bullets, score)
    | some asteroid =>
      match scanDown (fun bullet => Utils.circleCollision asteroid.circle bullet.circle)
          bullets bullets.length with
      | some j =>
        bulletLoop env d i
          ((asteroids ++ asteroid.break env (d i)).eraseIdx i, bullets.eraseIdx j,
            score + asteroid.points)
      | none => bulletLoop env d i (asteroids, bullets, score)

/-- `AsteroidManager.checkBulletCollisions(player)`: the returned score, the manager and the
player afterwards. `d i` holds the draws used if the asteroid at index `i` breaks. -/
def checkBulletCollisions (env : MathEnv) (d : ℕ → ℕ → ChildDraws) (m : AsteroidManager)
    (player : Player) : ℤ × AsteroidManager × Player :=
  let r := bulletLoop env d m.asteroids.length (m.asteroids, player.bullets, 0)
  (r.2.2, { m with asteroids := r.1 }, { player with bullets := r.2.1 })

/-- `AsteroidManager.checkPlayerCollision(player)`. The loop returns at the first overlap it
meets, so its result is whether any asteroid overlaps. -/
def checkPlayerCollision (m : AsteroidManager) (player : Player) : Bool :=
  if player.isInvulnerable then false
  else m.asteroids.reverse.any fun asteroid => Utils.circleCollision asteroid.circle player.circle

/-- `AsteroidManager.increaseDifficulty(amount)`; `difficultyMultiplier += amount` rounds to
binary64. -/
def increaseDifficulty (amount : ℚ) (m : AsteroidManager) : AsteroidManager :=
  { m with
    difficultyMultiplier := Binary64.round (m.difficultyMultiplier + amount)
    spawnRate := Max.max 500 (m.spawnRate - 100)
    maxAsteroids := Min.min 20 (m.maxAsteroids + 1) }

/-- `AsteroidManager.reset()`. -/
def reset (m : AsteroidManager) : AsteroidManager :=
  { m with asteroids := [], spawnTimer := 0, spawnRate := 2000, maxAsteroids := 10,
           difficultyMultiplier := 1 }

end AsteroidManager

/-! ## Enemies (`enemies.js`) -/

/-- The `type` string of an enemy: the three known types, or any other string. -/
inductive EnemyType where
  | basic
  | tracker
  | shooter
  | other (name : String)
deriving DecidableEq

/-- An enemy bullet, the object literal `{x, y, radius}` pushed by `Enemy.shoot`. -/
structure EnemyBullet where
  x : ℚ
  y : ℚ
  radius : ℚ
deriving DecidableEq

/-- The circle `{x: bullet.x, y: bullet.y, radius: bullet.radius}`. -/
def EnemyBullet.circle (b : EnemyBullet) : Circle := ⟨b.x, b.y, b.radius⟩

/-- The `Math.random()` results read by the `Enemy` constructor through `Utils.randomRange`
(only a basic enemy reads them). -/
structure EnemyDraws where
  amplitude : Draw
  frequency : Draw
  phase : Draw

/-- The mutable properties of an `Enemy`. The shooter-only properties (`shootCooldown`,
`bullets`) and the basic-only ones (`baseX`, `amplitude`, `frequency`, `phase`) are absent on
the other types in the source and never read there; here they hold `0` and the empty list. The
properties fixed by the type are the functions below. -/
structure Enemy where
  x : ℚ
  y : ℚ
  type : EnemyType
  canvasWidth : ℚ
  active : Bool
  health : ℤ
  shootCooldown : ℚ
  bullets : List EnemyBullet
  baseX : ℚ
  amplitude : ℚ
  frequency : ℚ
  phase : ℚ
deriving DecidableEq

namespace Enemy

/-- `this.width`, from the constructor's `switch (type)`. -/
def width (e : Enemy) : ℚ :=
  match e.type with
  | EnemyType.basic => 30
  | EnemyType.tracker => 35
  | EnemyType.shooter => 40
  | EnemyType.other _ => 30

/-- `this.height`, from the constructor's `switch (type)`. -/
def height (e : Enemy) : ℚ :=
  match e.type with
  | EnemyType.basic => 30
  | EnemyType.tracker => 25
  | EnemyType.shooter => 40
  | EnemyType.other _ => 30

/-- `this.speed`, from the constructor's `switch (type)`. -/
def speed (e : Enemy) : ℚ :=
  match e.type with
  | EnemyType.basic => 2
  | EnemyType.tracker => 1.5
  | EnemyType.shooter => 1
  | EnemyType.other _ => 2

/-- `this.points`, from the constructor's `switch (type)`. -/
def points (e : Enemy) : ℤ :=
  match e.type with
  | EnemyType.basic => 150
  | EnemyType.tracker => 250
  | EnemyType.shooter => 350
  | EnemyType.other _ => 150

/-- The value the constructor's `switch (type)` gives `this.health`. -/
def initialHealth (type : EnemyType) : ℤ :=
  match type with
  | EnemyType.basic => 1
  | EnemyType.tracker => 2
  | EnemyType.shooter => 3
  | EnemyType.other _ => 1

/-- `this.shootCooldownTime = 2000` (shooter). -/
def shootCooldownTime : ℚ := 2000

/-- `this.bulletSpeed = 5` (shooter). -/
def bulletSpeed : ℚ := 5

/-- `this.radius = Math.max(this.width, this.height) / 2`. -/
def radius (e : Enemy) : ℚ := Max.max e.width e.height / 2

/-- The circle `{x: enemy.x, y: enemy.y, radius: enemy.radius}`. -/
def circle (e : Enemy) : Circle := ⟨e.x, e.y, e.radius⟩

/-- `new Enemy(x, y, type, canvasWidth)`. -/
def new (env : MathEnv) (d : EnemyDraws) (x y : ℚ) (type : EnemyType) (canvasWidth : ℚ) :
    Enemy :=
  let isBasic : Bool := decide (type = EnemyType.basic)
  { x := x
    y := y
    type := type
    canvasWidth := canvasWidth
    active := true
    health := initialHealth type
    shootCooldown := 0
    bullets := []
    baseX := if isBasic then x else 0
    amplitude := if isBasic then Utils.randomRange d.amplitude 30 70 else 0
    frequency := if isBasic then Utils.randomRange d.frequency 50 150 / 10000 else 0
    phase := if isBasic then Utils.randomRange d.phase 0 100 / 100 * env.pi * 2 else 0 }

/-- `Enemy.shoot(player)`. -/
def shoot (e : Enemy) : Enemy :=
  if e.type = EnemyType.shooter then
    { e with bullets := e.bullets ++ [⟨e.x, e.y + e.height / 2, 3⟩] }
  else e

/-- The `switch (this.type)` of `Enemy.update`: the movement of each type. -/
def move (env : MathEnv) (deltaTime : ℚ) (player : Player) (gameTime : ℚ) (e : Enemy) :
    Enemy :=
  match e.type with
  | EnemyType.basic =>
    { e with
      y := e.y + e.speed
      x := e.baseX + env.sin (gameTime * e.frequency + e.phase) * e.amplitude }
  | EnemyType.tracker =>
    let dx := player.x - e.x
    let dy := player.y - e.y
    let distance := env.sqrt (dx * dx + dy * dy)
    if distance > 0 then
      { e with x := e.x + dx / distance * e.speed, y := e.y + dy / distance * e.speed * 0.5 }
    else e
  | EnemyType.shooter =>
    let e1 : Enemy := { e with y := e.y + e.speed }
    let e2 : Enemy :=
      if e1.shootCooldown > 0 then { e1 with shootCooldown := e1.shootCooldown - deltaTime }
      else { e1.shoot with shootCooldown := shootCooldownTime }
    let moved := e2.bullets.map fun b => { b with y := b.y + bulletSpeed }
    { e2 with bullets := moved.filter fun b => !decide (b.y > player.y + 100) }
  | EnemyType.other _ => e

/-- `Enemy.update(deltaTime, player, gameTime)`: the returned flag and the enemy afterwards. -/
def update (env : MathEnv) (deltaTime : ℚ) (player : Player) (gameTime : ℚ) (e : Enemy) :
    Bool × Enemy :=
  if !e.active then (false, e)
  else
    let e1 := move env deltaTime player gameTime e
    let e2 := if e1.y > player.y + 100 then { e1 with active := false } else e1
    (e2.active, e2)

/-- `Enemy.takeDamage(amount)`: the returned flag and the enemy afterwards. -/
def takeDamage (amount : ℤ) (e : Enemy) : Bool × Enemy :=
  let e1 := { e with health := e.health - amount }
  if e1.health ≤ 0 then (true, { e1 with active := false }) else (false, e1)

/-- `Enemy.checkBulletCollision(player)`: the returned flag and the enemy afterwards. -/
def checkBulletCollision (player : Player) (e : Enemy) : Bool × Enemy :=
  if player.isInvulnerable then (false, e)
  else
    match scanDown (fun bullet => Utils.circleCollision bullet.circle player.circle)
        e.bullets e.bullets.length with
    | some i => (true, { e with bullets := e.bullets.eraseIdx i })
    | none => (false, e)

end Enemy

/-- The properties of an `EnemyManager`. -/
structure EnemyManager where
  canvasWidth : ℚ
  canvasHeight : ℚ
  enemies : List Enemy
  spawnRate : ℚ
  spawnTimer : ℚ
  maxEnemies : ℤ
  difficultyMultiplier : ℚ
  gameTime : ℚ
deriving DecidableEq

/-- The `Math.random()` results read by `EnemyManager.spawnEnemy`: the type draw, the draw of
the horizontal position, and the constructor's draws. -/
structure EnemySpawnDraws where
  type : Draw
  x : Draw
  ctor : EnemyDraws

namespace EnemyManager

/-- `new EnemyManager(canvasWidth, canvasHeight)`. -/
def new (canvasWidth canvasHeight : ℚ) : EnemyManager where
  canvasWidth := canvasWidth
  canvasHeight := canvasHeight
  enemies := []
  spawnRate := 5000
  spawnTimer := 10000
  maxEnemies := 5
  difficultyMultiplier := 1
  gameTime := 0

/-- The type chosen at the start of `spawnEnemy`. -/
def chooseType (difficultyMultiplier : ℚ) (rand : Draw) : EnemyType :=
  if difficultyMultiplier < 1.5 then
    if rand.val < 0.8 then EnemyType.basic
    else if rand.val < 0.9 then EnemyType.tracker
    else EnemyType.shooter
  else if difficultyMultiplier < 2.5 then
    if rand.val < 0.5 then EnemyType.basic
    else if rand.val < 0.8 then EnemyType.tracker
    else EnemyType.shooter
  else
    if rand.val < 0.3 then EnemyType.basic
    else if rand.val < 0.7 then EnemyType.tracker
    else EnemyType.shooter

/-- `EnemyManager.spawnEnemy()`. -/
def spawnEnemy (env : MathEnv) (d : EnemySpawnDraws) (m : EnemyManager) : EnemyManager :=
  let type := chooseType m.difficultyMultiplier d.type
  let x := Utils.randomRange d.x 50 (m.canvasWidth - 50)
  let y : ℚ := -50
  { m with enemies := m.enemies ++ [Enemy.new env d.ctor x y type m.canvasWidth] }

/-- The first half of `EnemyManager.update`: game time, the spawn timer and the conditional
spawn. -/
def updateSpawn (env : MathEnv) (d : EnemySpawnDraws) (deltaTime : ℚ) (m : EnemyManager) :
    EnemyManager :=
  let m1 := { m with gameTime := m.gameTime + deltaTime, spawnTimer := m.spawnTimer + deltaTime }
  if m1.spawnTimer ≥ m1.spawnRate ∧ (m1.enemies.length : ℤ) < m1.maxEnemies then
    { spawnEnemy env d m1 with spawnTimer := 0 }
  else m1

/-- The second loop of `EnemyManager.update`, `for (let i = n - 1; i >= 0; i--)`: the enemy at
index `i` is updated in place, and spliced out if its `update` returned `false`. -/
def updateLoop (env : MathEnv) (deltaTime : ℚ) (player : Player) (gameTime : ℚ) :
    ℕ → List Enemy → List Enemy
  | 0, enemies => enemies
  | i + 1, enemies =>
    match enemies[i]? with
    | none => updateLoop env deltaTime player gameTime i enemies
    | some enemy =>
      if (enemy.update env deltaTime player gameTime).1 then
        updateLoop env deltaTime player gameTime i
          (enemies.set i (enemy.update env deltaTime player gameTime).2)
      else updateLoop env deltaTime player gameTime i (enemies.eraseIdx i)

/-- `EnemyManager.update(deltaTime, player)`. -/
def update (env : MathEnv) (d : EnemySpawnDraws) (deltaTime : ℚ) (player : Player)
    (m : EnemyManager) : EnemyManager :=
  let m1 := updateSpawn env d deltaTime m
  { m1 with
    enemies := updateLoop env deltaTime player m1.gameTime m1.enemies.length m1.enemies }

/-- The outer loop of `checkBulletCollisions`, `for (let i = n - 1; i >= 0; i--)`, on the
triple of the enemy array, the bullet array and the score. On a hit the bullet is spliced out
and the enemy takes one point of damage; it is spliced out and scored only if that destroys
it. -/
def bulletLoop : ℕ → List Enemy × List Bullet × ℤ → List Enemy × List Bullet × ℤ
  | 0, s => s
  | i + 1, (enemies, bullets, score) =>
    match enemies[i]? with
    | none => bulletLoop i (enemies, bullets, score)
    | some enemy =>
      match scanDown (fun bullet => Utils.circleCollision enemy.circle bullet.circle)
          bullets bullets.length with
      | some j =>
        if (enemy.takeDamage 1).1 then
          bulletLoop i (enemies.eraseIdx i, bullets.eraseIdx j,
            score + (enemy.takeDamage 1).2.points)
        else
          bulletLoop i (enemies.set i (enemy.takeDamage 1).2, bullets.eraseIdx j, score)
      | none => bulletLoop i (enemies, bullets, score)

/-- `EnemyManager.checkBulletCollisions(player)`: the returned score, the manager and the
player afterwards. -/
def checkBulletCollisions (m : EnemyManager) (player : Player) :
    ℤ × EnemyManager × Player :=
  let r := bulletLoop m.enemies.length (m.enemies, player.bullets, 0)
  (r.2.2, { m with enemies := r.1 }, { player with bullets := r.2.1 })

/-- The loop of `checkPlayerCollision`, `for (let i = n - 1; i >= 0; i--)`: the returned flag
and the enemy array afterwards (a shooter's bullet that hits the player is spliced out of that
shooter's bullets). -/
def playerLoop (player : Player) : ℕ → List Enemy → Bool × List Enemy
  | 0, enemies => (false, enemies)
  | i + 1, enemies =>
    match enemies[i]? with
    | none => playerLoop player i enemies
    | some enemy =>
      if Utils.circleCollision enemy.circle player.circle then (true, enemies)
      else if enemy.type = EnemyType.shooter ∧ (enemy.checkBulletCollision player).1 then
        (true, enemies.set i (enemy.checkBulletCollision player).2)
      else playerLoop player i enemies

/-- `EnemyManager.checkPlayerCollision(player)`: the returned flag and the manager
afterwards. -/
def checkPlayerCollision (m : EnemyManager) (player : Player) : Bool × EnemyManager :=
  if player.isInvulnerable then (false, m)
  else
    let r := playerLoop player m.enemies.length m.enemies
    (r.1, { m with enemies := r.2 })

/-- `EnemyManager.increaseDifficulty(amount)`; `difficultyMultiplier += amount` rounds to
binary64. -/
def increaseDifficulty (amount : ℚ) (m : EnemyManager) : EnemyManager :=
  { m with
    difficultyMultiplier := Binary64.round (m.difficultyMultiplier + amount)
    spawnRate := Max.max 1500 (m.spawnRate - 300)
    maxEnemies := Min.min 10 (m.maxEnemies + 1) }

/-- `EnemyManager.reset()`. -/
def reset (m : EnemyManager) : EnemyManager :=
  { m with enemies := [], spawnTimer := 10000, spawnRate := 5000, maxEnemies := 5,
           difficultyMultiplier := 1, gameTime := 0 }

end EnemyManager

/-! ## Power-ups (`powerups.js`) -/

/-- The properties of a `PowerUp` that the simulation reads; the animation state (rotation,
pulse, orbit particles, colours) is only drawn. -/
structure PowerUp where
  x : ℚ
  y : ℚ
  type : PowerUpType
  active : Bool
  age : ℚ
deriving DecidableEq

namespace PowerUp

/-- `this.radius = 15`. -/
def radius : ℚ := 15

/-- `this.speed = 2`. -/
def speed : ℚ := 2

/-- `this.lifespan = 10000`. -/
def lifespan : ℚ := 10000

/-- `new PowerUp(x, y, type)`. -/
def new (x y : ℚ) (type : PowerUpType) : PowerUp where
  x := x
  y := y
  type := type
  active := true
  age := 0

/-- `PowerUp.update(deltaTime, canvasHeight)`: the returned flag and the power-up
afterwards. -/
def update (deltaTime canvasHeight : ℚ) (u : PowerUp) : Bool × PowerUp :=
  let u1 := { u with y := u.y + speed, age := u.age + deltaTime }
  let u2 := if u1.y > canvasHeight + radius ∨ u1.age > lifespan then { u1 with active := false }
            else u1
  (u2.active, u2)

/-- `PowerUp.checkCollision(player)`. -/
def checkCollision (player : Player) (u : PowerUp) : Bool :=
  Utils.circleCollision ⟨u.x, u.y, radius⟩ player.circle

end PowerUp

/-- The properties of a `PowerUpManager` that the simulation reads; the collection effects
are only drawn. -/
structure PowerUpManager where
  canvasWidth : ℚ
  canvasHeight : ℚ
  powerUps : List PowerUp
  spawnTimer : ℚ
deriving DecidableEq

/-- The `Math.random()` results read by `PowerUpManager.spawnPowerUp` through
`Utils.randomRange`. -/
structure PowerUpSpawnDraws where
  x : Draw
  type : Draw

namespace PowerUpManager

/-- `this.spawnRate = 15000`. -/
def spawnRate : ℚ := 15000

/-- `this.types = ['rapidFire', 'tripleShot', 'shield']`. -/
def types : List PowerUpType :=
  [PowerUpType.rapidFire, PowerUpType.tripleShot, PowerUpType.shield]

/-- `new PowerUpManager(canvasWidth, canvasHeight)`. -/
def new (canvasWidth canvasHeight : ℚ) : PowerUpManager where
  canvasWidth := canvasWidth
  canvasHeight := canvasHeight
  powerUps := []
  spawnTimer := 5000

/-- The expression `this.types[Utils.randomRange(0, this.types.length - 1)]` of
`spawnPowerUp`; a draw below 1 always gives an index inside the array. -/
def randomType (rand : Draw) : PowerUpType :=
  types.get ⟨⌊Utils.randomRange rand 0 ((types.length : ℚ) - 1)⌋₊, by
    have h0 := rand.property.1
    have h1 := rand.property.2
    have hlt : rand.val * (((types.length : ℚ) - 1) - 0 + 1) < 3 := by
      simp only [types, List.length_cons, List.length_nil]
      push_cast
      linarith
    have hfl : ⌊rand.val * (((types.length : ℚ) - 1) - 0 + 1)⌋ < 3 := by
      exact_mod_cast Int.floor_lt.mpr (by exact_mod_cast hlt)
    have hq : Utils.randomRange rand 0 ((types.length : ℚ) - 1) < 3 := by
      unfold Utils.randomRange
      have : ((⌊rand.val * (((types.length : ℚ) - 1) - 0 + 1)⌋ : ℤ) : ℚ) < 3 := by
        exact_mod_cast hfl
      linarith
    have hlen : types.length = 3 := rfl
    rw [hlen]
    exact (Nat.floor_lt' (by norm_num)).mpr (by exact_mod_cast hq)⟩

/-- `PowerUpManager.spawnPowerUp(forcedType)`. -/
def spawnPowerUp (d : PowerUpSpawnDraws) (forcedType : Option PowerUpType)
    (m : PowerUpManager) : PowerUpManager :=
  let x := Utils.randomRange d.x 50 (m.canvasWidth - 50)
  let y : ℚ := -30
  let type := match forcedType with
    | some t => t
    | none => randomType d.type
  { m with powerUps := m.powerUps ++ [PowerUp.new x y type] }

/-- `PowerUpManager.update(deltaTime)`. The loop over the power-ups runs from the last index
down and splices out each one whose `update` returns `false`. -/
def update (d : PowerUpSpawnDraws) (deltaTime : ℚ) (m : PowerUpManager) : PowerUpManager :=
  let m1 := { m with spawnTimer := m.spawnTimer + deltaTime }
  let m2 := if m1.spawnTimer ≥ spawnRate then { spawnPowerUp d none m1 with spawnTimer := 0 }
            else m1
  let updated := m2.powerUps.map (PowerUp.update deltaTime m2.canvasHeight)
  { m2 with powerUps := (updated.filter fun r => r.1).map fun r => r.2 }

/-- `PowerUpManager.checkCollisions(player)`: the returned type (`none` for `null`) and the
manager afterwards. -/
def checkCollisions (m : PowerUpManager) (player : Player) :
    Option PowerUpType × PowerUpManager :=
  match scanDown (fun powerUp => powerUp.checkCollision player) m.powerUps
      m.powerUps.length with
  | some i =>
    match m.powerUps[i]? with
    | some powerUp => (some powerUp.type, { m with powerUps := m.powerUps.eraseIdx i })
    | none => (none, m)
  | none => (none, m)

/-- `PowerUpManager.reset()`. -/
def reset (m : PowerUpManager) : PowerUpManager :=
  { m with powerUps := [], spawnTimer := 5000 }

end PowerUpManager

/-! ## Collision pass (`collision.js`) -/

/-- The object returned by `CollisionManager.checkCollisions`. -/
structure CollisionResult where
  score : ℤ
  playerDamaged : Bool
  powerUpCollected : Option PowerUpType
deriving DecidableEq

/-- The four objects that `CollisionManager.checkCollisions` reads and mutates. -/
structure World where
  player : Player
  asteroidManager : AsteroidManager
  enemyManager : EnemyManager
  powerUpManager : PowerUpManager
deriving DecidableEq

namespace CollisionManager

/-- `CollisionManager.checkCollisions(player, asteroidManager, enemyManager, powerUpManager)`:
the returned object and the four arguments afterwards. `d i` holds the draws used if the
asteroid at index `i` breaks. -/
def checkCollisions (env : MathEnv) (d : ℕ → ℕ → ChildDraws) (w : World) :
    CollisionResult × World :=
  -- player bullets against asteroids
  let r1 := w.asteroidManager.checkBulletCollisions env d w.player
  -- player bullets against enemies
  let r2 := w.enemyManager.checkBulletCollisions r1.2.2
  let asteroidManager := r1.2.1
  -- player against asteroids
  let r3 : Bool × Player :=
    if asteroidManager.checkPlayerCollision r2.2.2 then r2.2.2.takeDamage else (false, r2.2.2)
  -- player against enemies
  let r4 := r2.2.1.checkPlayerCollision r3.2
  let r5 : Bool × Player := if r4.1 then r3.2.takeDamage else r3
  -- player against power-ups
  let r6 := w.powerUpManager.checkCollisions r5.2
  let player :=
    match r6.1 with
    | some powerUpType => r5.2.applyPowerUp powerUpType
    | none => r5.2
  ({ score := r1.1 + r2.1, playerDamaged := r5.1, powerUpCollected := r6.1 },
   { player := player, asteroidManager := asteroidManager, enemyManager := r4.2,
     powerUpManager := r6.2 })

end CollisionManager

/-! ## Game loop (`game.js`) -/

/-- The `Math.random()` results that one call of `Game.update` may read. -/
structure TickDraws where
  asteroidSpawn : AsteroidSpawnDraws
  enemySpawn : EnemySpawnDraws
  powerUpSpawn : PowerUpSpawnDraws
  breaks : ℕ → ℕ → ChildDraws

/-- The properties of `Game` that `Game.update` reads or writes. -/
structure Game where
  canvasWidth : ℚ
  canvasHeight : ℚ
  isRunning : Bool
  difficultyTimer : ℚ
  aiFactsTimer : ℚ
  player : Player
  asteroidManager : AsteroidManager
  enemyManager : EnemyManager
  powerUpManager : PowerUpManager
deriving DecidableEq

namespace Game

/-- `this.difficultyInterval = 30000`. -/
def difficultyInterval : ℚ := 30000

/-- `this.aiFactsInterval = 15000`. -/
def aiFactsInterval : ℚ := 15000

/-- The first four statements of `Game.update`: the player and the three managers move. -/
def updateObjects (env : MathEnv) (d : TickDraws) (deltaTime : ℚ) (g : Game) : Game :=
  let player := g.player.update deltaTime g.canvasWidth
  { g with
    player := player
    asteroidManager := g.asteroidManager.update env d.asteroidSpawn deltaTime
    enemyManager := g.enemyManager.update env d.enemySpawn deltaTime player
    powerUpManager := g.powerUpManager.update d.powerUpSpawn deltaTime }

/-- The four objects of a game, as handed to the collision pass. -/
def world (g : Game) : World :=
  ⟨g.player, g.asteroidManager, g.enemyManager, g.powerUpManager⟩

/-- The value of `collisionResult` inside `Game.update`, with the four objects after the
collision pass. -/
def collide (env : MathEnv) (d : TickDraws) (deltaTime : ℚ) (g : Game) :
    CollisionResult × World :=
  CollisionManager.checkCollisions env d.breaks (updateObjects env d deltaTime g).world

/-- `Game.increaseDifficulty()`; the literal `0.1` is the binary64 number nearest to it. -/
def increaseDifficulty (g : Game) : Game :=
  { g with
    asteroidManager := g.asteroidManager.increaseDifficulty (Binary64.round 0.1)
    enemyManager := g.enemyManager.increaseDifficulty (Binary64.round 0.1) }

/-- `Game.gameOver()`: the game loop is stopped. -/
def gameOver (g : Game) : Game :=
  { g with isRunning := false }

/-- `Game.update(deltaTime)`. -/
def update (env : MathEnv) (d : TickDraws) (deltaTime : ℚ) (g : Game) : Game :=
  let g0 := updateObjects env d deltaTime g
  let r := collide env d deltaTime g
  let g1 : Game :=
    { g0 with
      player := r.2.player
      asteroidManager := r.2.asteroidManager
      enemyManager := r.2.enemyManager
      powerUpManager := r.2.powerUpManager }
  -- update score
  let g2 : Game :=
    if r.1.score > 0 then
      { g1 with player := { g1.player with score := g1.player.score + r.1.score } }
    else g1
  -- handle player damage
  let g3 : Game := if r.1.playerDamaged ∧ g2.player.lives ≤ 0 then g2.gameOver else g2
  -- update difficulty
  let g4 : Game := { g3 with difficultyTimer := g3.difficultyTimer + deltaTime }
  let g5 : Game :=
    if g4.difficultyTimer ≥ difficultyInterval then
      { g4.increaseDifficulty with difficultyTimer := 0 }
    else g4
  -- update the AI facts timer
  let g6 : Game := { g5 with aiFactsTimer := g5.aiFactsTimer + deltaTime }
  if g6.aiFactsTimer ≥ aiFactsInterval then { g6 with aiFactsTimer := 0 } else g6

end Game

/-! ## Leaderboard (`leaderboard.js`) -/

/-- A score object, `{name, score, date, isConference}`. -/
structure ScoreEntry where
  name : String
  score : ℤ
  date : String
  isConference : Bool
deriving DecidableEq

/-- The properties of `LeaderboardManager` that `isHighScore` and `addScore` read or write.
Saving to local storage and redrawing the table are left out. -/
structure LeaderboardManager where
  scores : List ScoreEntry
  isConferenceMode : Bool
deriving DecidableEq

namespace LeaderboardManager

/-- `LeaderboardManager.isHighScore(score)`. The last entry exists whenever it is read, since
the list then has at least 10 entries. -/
def isHighScore (score : ℤ) (lm : LeaderboardManager) : Bool :=
  if lm.scores.length < 10 then true
  else
    match lm.scores[lm.scores.length - 1]? with
    | some last => decide (score > last.score)
    | none => false

/-- `scores.sort((a, b) => b.score - a.score)`: the library sort, which is stable, with a
comparator that puts the higher score first. Here it is insertion sort, which is stable for
the order "at least as high a score". -/
def sortScores (scores : List ScoreEntry) : List ScoreEntry :=
  scores.insertionSort fun a b => a.score ≥ b.score

/-- `LeaderboardManager.addScore(name, score)`; `date` is the value of
`new Date().toISOString()`. -/
def addScore (name : String) (score : ℤ) (date : String) (lm : LeaderboardManager) :
    LeaderboardManager :=
  let scoreObj : ScoreEntry := ⟨name, score, date, lm.isConferenceMode⟩
  let sorted := sortScores (lm.scores ++ [scoreObj])
  { lm with scores := if sorted.length > 10 then sorted.take 10 else sorted }

end LeaderboardManager

/-! ## Drivers used to state the theorems -/

/-- A sequence of `Player.update` calls, one for each `(deltaTime, canvasWidth)` pair, in
order. -/
def Player.runUpdates (steps : List (ℚ × ℚ)) (p : Player) : Player :=
  steps.foldl (fun q s => q.update s.1 s.2) p

/-- A sequence of `Asteroid.update` calls on one canvas, one for each `deltaTime`, in order. -/
def Asteroid.runUpdates (canvasWidth canvasHeight : ℚ) (deltaTimes : List ℚ) (a : Asteroid) :
    Asteroid :=
  deltaTimes.foldl (fun b dt => b.update dt canvasWidth canvasHeight) a

/-- A sequence of `AsteroidManager.increaseDifficulty` calls, one for each amount, in order. -/
def AsteroidManager.runDifficulty (amounts : List ℚ) (m : AsteroidManager) : AsteroidManager :=
  amounts.foldl (fun k amount => k.increaseDifficulty amount) m

/-- A sequence of `EnemyManager.increaseDifficulty` calls, one for each amount, in order. -/
def EnemyManager.runDifficulty (amounts : List ℚ) (m : EnemyManager) : EnemyManager :=
  amounts.foldl (fun k amount => k.increaseDifficulty amount) m

/-- What the bullet pass leaves of an enemy: an enemy that was not hit stays as it is, a hit
enemy stays with one health point less if that leaves it above 0, and is removed otherwise. -/
def EnemyManager.afterPass (h : Enemy × Option Bullet) : Option Enemy :=
  match h.2 with
  | none => some h.1
  | some _ => if h.1.health - 1 ≤ 0 then none else some { h.1 with health := h.1.health - 1 }

/-- The points the bullet pass awards for an enemy: its point value if it was hit and that
brought its health to 0 or below, and nothing otherwise. -/
def EnemyManager.award (h : Enemy × Option Bullet) : ℤ :=
  match h.2 with
  | none => 0
  | some _ => if h.1.health - 1 ≤ 0 then h.1.points else 0

/-- A sequence of `n` calls of `Enemy.update`, all with the same arguments. -/
def Enemy.runUpdates (env : MathEnv) (deltaTime : ℚ) (player : Player) (gameTime : ℚ) :
    ℕ → Enemy → Enemy
  | 0, e => e
  | n + 1, e => Enemy.runUpdates env deltaTime player gameTime n
      (e.update env deltaTime player gameTime).2

/-! ## Example states -/

namespace Examples

/-- Library functions for the examples: every angle is read as the direction `(1, 0)`. -/
def env : MathEnv := ⟨0, fun _ => 0, fun _ => 1, fun _ => 0⟩

/-- The draw 0. -/
def zero : Draw := ⟨0, by norm_num⟩

/-- Draws for one tick, all 0. -/
def tick : TickDraws :=
  { asteroidSpawn := ⟨zero, zero, zero, zero, ⟨zero, zero, zero⟩⟩
    enemySpawn := ⟨zero, zero, ⟨zero, zero, zero⟩⟩
    powerUpSpawn := ⟨zero, zero⟩
    breaks := fun _ _ => ⟨zero, ⟨zero, zero, zero⟩⟩ }

/-- A fresh player at (400, 500) on an 800 by 600 canvas. -/
def player : Player := Player.new 400 500 40 40

/-- Two power-ups that both overlap `player`: a `rapidFire` first in the list, a `shield`
second. -/
def twoPowerUps : PowerUpManager :=
  { PowerUpManager.new 800 600 with
    powerUps := [⟨400, 500, PowerUpType.rapidFire, true, 0⟩,
                 ⟨400, 490, PowerUpType.shield, true, 0⟩] }

/-- A running game in which the player has one life left and is not invulnerable, and one
resting small asteroid at (400, 470) overlaps the player; no spawn is due. -/
def lastLife : Game :=
  { canvasWidth := 800
    canvasHeight := 600
    isRunning := true
    difficultyTimer := 0
    aiFactsTimer := 0
    player := { player with lives := 1 }
    asteroidManager :=
      { AsteroidManager.new 800 600 with asteroids := [⟨400, 470, 1, 1, 0, 0, 0, 0, 0⟩] }
    enemyManager := { EnemyManager.new 800 600 with spawnTimer := 0 }
    powerUpManager := { PowerUpManager.new 800 600 with spawnTimer := 0 } }

/-- The game `lastLife` with one player bullet in flight at (400, 478), which the tick's
movement brings onto the asteroid. -/
def lastLifeShooting : Game :=
  { lastLife with
    player := { player with lives := 1, bullets := [⟨400, 478, 3, "#4a90e2"⟩] } }

/-- A full leaderboard, sorted, with the scores 100, 90, ..., 10. -/
def fullBoard : LeaderboardManager :=
  { scores :=
      [⟨"A", 100, "2025-01-01", false⟩, ⟨"B", 90, "2025-01-01", false⟩,
       ⟨"C", 80, "2025-01-01", false⟩, ⟨"D", 70, "2025-01-01", false⟩,
       ⟨"E", 60, "2025-01-01", false⟩, ⟨"F", 50, "2025-01-01", false⟩,
       ⟨"G", 40, "2025-01-01", false⟩, ⟨"H", 30, "2025-01-01", false⟩,
       ⟨"I", 20, "2025-01-01", false⟩, ⟨"J", 10, "2025-01-01", false⟩]
    isConferenceMode := false }

/-- A freshly constructed shooter at the top of the canvas, above `player`. -/
def shooter : Enemy := Enemy.new env ⟨zero, zero, zero⟩ 400 (-50) EnemyType.shooter 800

/-- Library functions in binary64: `Math.PI`, and `Math.cos` and `Math.sin` with their values
at the angle 0.0031415926535897933 and the direction `(1, 0)` at every other angle. -/
def env64 : MathEnv where
  pi := Binary64.round 3.141592653589793
  sin := fun θ =>
    if θ = Binary64.round 0.0031415926535897933 then Binary64.round 0.0031415874858795635
    else 0
  cos := fun θ =>
    if θ = Binary64.round 0.0031415926535897933 then Binary64.round 0.9999950652018582 else 1
  sqrt := Binary64.sqrt

/-- The draws of one child in which `Math.random()` returns 0.0005 for the angle. -/
def smallAngle : ChildDraws := ⟨⟨Binary64.round 0.0005, by decide!⟩, ⟨zero, zero, zero⟩⟩

end Examples

/-! ## Lemmas on binary64 rounding -/

namespace Binary64

theorem log2Nat_spec : ∀ (fuel n : ℕ), 1 ≤ n → n ≤ fuel →
    2 ^ log2Nat fuel n ≤ n ∧ n < 2 ^ (log2Nat fuel n + 1) := by
  intro fuel
  induction fuel with
  | zero => intro n h1 h2; omega
  | succ f ih =>
    intro n h1 h2
    unfold log2Nat
    split_ifs with h
    · obtain ⟨a, b⟩ := ih (n / 2) (by omega) (by omega)
      rw [pow_succ] at b
      rw [pow_succ, pow_succ, pow_succ]
      generalize 2 ^ log2Nat f (n / 2) = t at a b ⊢
      omega
    · simp
      omega

theorem two_zpow_pos (e : ℤ) : (0 : ℚ) < (2 : ℚ) ^ e := zpow_pos (by norm_num) e

theorem exponent_spec (x : ℚ) (hx : 0 < x) :
    (2 : ℚ) ^ exponent x ≤ x ∧ x < (2 : ℚ) ^ (exponent x + 1) := by
  have hnum : 0 < x.num := Rat.num_pos.mpr hx
  have hp1 : 1 ≤ x.num.natAbs := Int.natAbs_pos.mpr (ne_of_gt hnum)
  have hd1 : 1 ≤ x.den := x.den_pos
  obtain ⟨a1, a2⟩ := log2Nat_spec x.num.natAbs x.num.natAbs hp1 le_rfl
  obtain ⟨b1, b2⟩ := log2Nat_spec x.den x.den hd1 le_rfl
  have hpq : ((x.num.natAbs : ℕ) : ℚ) = (x.num : ℚ) := by
    rw [Nat.cast_natAbs, abs_of_pos hnum]
  have hxe : x = (x.num.natAbs : ℚ) / (x.den : ℚ) := by
    rw [hpq]; exact (Rat.num_div_den x).symm
  unfold exponent
  simp only []
  generalize x.num.natAbs = p at *
  generalize x.den = d at *
  generalize hlp : log2Nat p p = lp at *
  generalize hld : log2Nat d d = ld at *
  have hdpos : (0 : ℚ) < d := by exact_mod_cast hd1
  have A1 : ((2 : ℚ) ^ lp) ≤ p := by exact_mod_cast a1
  have A2 : (p : ℚ) < (2 : ℚ) ^ (lp + 1) := by exact_mod_cast a2
  have B1 : ((2 : ℚ) ^ ld) ≤ d := by exact_mod_cast b1
  have B2 : (d : ℚ) < (2 : ℚ) ^ (ld + 1) := by exact_mod_cast b2
  have h2 : (2 : ℚ) ≠ 0 := by norm_num
  have upper : x < (2 : ℚ) ^ ((lp : ℤ) - ld + 1) := by
    have e1 : (2 : ℚ) ^ ((lp : ℤ) - ld + 1) = (2 : ℚ) ^ (lp + 1) / (2 : ℚ) ^ ld := by
      rw [show (lp : ℤ) - ld + 1 = ((lp + 1 : ℕ) : ℤ) - (ld : ℕ) by push_cast; ring,
        zpow_sub₀ h2, zpow_natCast, zpow_natCast]
    rw [e1, hxe, div_lt_div_iff₀ hdpos (pow_pos (by norm_num) ld)]
    calc (p : ℚ) * 2 ^ ld ≤ p * d := by
          apply mul_le_mul_of_nonneg_left B1; exact_mod_cast Nat.zero_le p
      _ < 2 ^ (lp + 1) * d := by
          apply mul_lt_mul_of_pos_right A2 hdpos
  have lower : (2 : ℚ) ^ ((lp : ℤ) - ld - 1) < x := by
    have e1 : (2 : ℚ) ^ ((lp : ℤ) - ld - 1) = (2 : ℚ) ^ lp / (2 : ℚ) ^ (ld + 1) := by
      rw [show (lp : ℤ) - ld - 1 = ((lp : ℕ) : ℤ) - ((ld + 1 : ℕ) : ℤ) by push_cast; ring,
        zpow_sub₀ h2, zpow_natCast, zpow_natCast]
    rw [e1, hxe, div_lt_div_iff₀ (pow_pos (by norm_num) (ld + 1)) hdpos]
    have hp0 : (0 : ℚ) < p := by exact_mod_cast hp1
    calc (2 : ℚ) ^ lp * d < 2 ^ lp * 2 ^ (ld + 1) := by
          apply mul_lt_mul_of_pos_left B2 (pow_pos (by norm_num) lp)
      _ ≤ p * 2 ^ (ld + 1) := by
          apply mul_le_mul_of_nonneg_right A1 (le_of_lt (pow_pos (by norm_num) (ld + 1)))
  split_ifs with h
  · exact ⟨h, upper⟩
  · refine ⟨le_of_lt lower, ?_⟩
    rw [sub_add_cancel]
    exact not_le.mp h

theorem two_zpow_le {a b : ℤ} (h : a ≤ b) : (2 : ℚ) ^ a ≤ (2 : ℚ) ^ b :=
  zpow_le_zpow_right₀ (by norm_num) h

theorem roundHalfEven_intCast (n : ℤ) : roundHalfEven (n : ℚ) = n := by
  unfold roundHalfEven
  simp

theorem roundHalfEven_mono {a b : ℚ} (h : a ≤ b) : roundHalfEven a ≤ roundHalfEven b := by
  have hf : ⌊a⌋ ≤ ⌊b⌋ := Int.floor_mono h
  rcases lt_or_eq_of_le hf with hlt | heq
  · have h1 : roundHalfEven a ≤ ⌊a⌋ + 1 := by unfold roundHalfEven; split_ifs <;> omega
    have h2 : ⌊b⌋ ≤ roundHalfEven b := by unfold roundHalfEven; split_ifs <;> omega
    omega
  · unfold roundHalfEven
    rw [heq]
    split_ifs <;> first | omega | (exfalso; linarith)

theorem roundHalfEven_le {m : ℚ} {n : ℤ} (h : m ≤ n) : roundHalfEven m ≤ n := by
  have := roundHalfEven_mono h
  rwa [roundHalfEven_intCast] at this

theorem le_roundHalfEven {m : ℚ} {n : ℤ} (h : (n : ℚ) ≤ m) : n ≤ roundHalfEven m := by
  have := roundHalfEven_mono h
  rwa [roundHalfEven_intCast] at this

theorem quantum_pos (x : ℚ) : 0 < quantum x := two_zpow_pos _

theorem roundPos_zero : roundPos 0 = 0 := by
  unfold roundPos
  rw [zero_div]
  have : roundHalfEven 0 = 0 := by exact_mod_cast roundHalfEven_intCast 0
  rw [this]
  simp

theorem roundPos_nonneg {x : ℚ} (hx : 0 ≤ x) : 0 ≤ roundPos x := by
  unfold roundPos
  have h0 : ((0 : ℤ) : ℚ) ≤ x / quantum x := by
    simpa using div_nonneg hx (le_of_lt (quantum_pos x))
  have := le_roundHalfEven h0
  exact mul_nonneg (by exact_mod_cast this) (le_of_lt (quantum_pos x))

theorem div_quantum_lt {x : ℚ} (hx : 0 < x) : x / quantum x < 2 ^ 53 := by
  rw [div_lt_iff₀ (quantum_pos x)]
  have h := (exponent_spec x hx).2
  refine lt_of_lt_of_le h ?_
  unfold quantum
  have : (2 : ℚ) ^ 53 * (2 : ℚ) ^ (Max.max (exponent x) (-1022) - 52)
      = (2 : ℚ) ^ ((53 : ℤ) + (Max.max (exponent x) (-1022) - 52)) := by
    rw [zpow_add₀ (by norm_num : (2 : ℚ) ≠ 0)]
    norm_num
  rw [this]
  apply two_zpow_le
  have := le_max_left (exponent x) (-1022)
  omega

theorem le_div_quantum {x : ℚ} (hx : 0 < x) (he : -1022 ≤ exponent x) :
    2 ^ 52 ≤ x / quantum x := by
  rw [le_div_iff₀ (quantum_pos x)]
  have h := (exponent_spec x hx).1
  refine le_trans (le_of_eq ?_) h
  unfold quantum
  rw [max_eq_left he]
  have : (2 : ℚ) ^ 52 * (2 : ℚ) ^ (exponent x - 52)
      = (2 : ℚ) ^ ((52 : ℤ) + (exponent x - 52)) := by
    rw [zpow_add₀ (by norm_num : (2 : ℚ) ≠ 0)]
    norm_num
  rw [this]
  congr 1
  ring

theorem exponent_mono {x y : ℚ} (hx : 0 < x) (hxy : x ≤ y) : exponent x ≤ exponent y := by
  have h1 := (exponent_spec x hx).1
  have h2 := (exponent_spec y (lt_of_lt_of_le hx hxy)).2
  have : (2 : ℚ) ^ exponent x < (2 : ℚ) ^ (exponent y + 1) :=
    lt_of_le_of_lt (le_trans h1 hxy) h2
  have := (zpow_lt_zpow_iff_right₀ (by norm_num : (1 : ℚ) < 2)).mp this
  omega

theorem roundPos_mono {x y : ℚ} (hx : 0 ≤ x) (hxy : x ≤ y) : roundPos x ≤ roundPos y := by
  rcases eq_or_lt_of_le hx with h0 | hpos
  · rw [← h0, roundPos_zero]; exact roundPos_nonneg (le_trans hx hxy)
  have hy : 0 < y := lt_of_lt_of_le hpos hxy
  have he := exponent_mono hpos hxy
  have hg : Max.max (exponent x) (-1022) ≤ Max.max (exponent y) (-1022) :=
    max_le_max he le_rfl
  rcases eq_or_lt_of_le hg with heq | hlt
  · have hq : quantum x = quantum y := by unfold quantum; rw [heq]
    unfold roundPos
    rw [hq]
    have : x / quantum y ≤ y / quantum y :=
      div_le_div_of_nonneg_right hxy (le_of_lt (quantum_pos y))
    have := roundHalfEven_mono this
    exact mul_le_mul_of_nonneg_right (by exact_mod_cast this) (le_of_lt (quantum_pos y))
  · have hey : -1022 < exponent y := by
      rcases le_or_lt (exponent y) (-1022) with h | h
      · exfalso
        rw [max_eq_right h] at hlt
        have := le_max_right (exponent x) (-1022)
        omega
      · exact h
    have hgy : Max.max (exponent y) (-1022) = exponent y := max_eq_left (le_of_lt hey)
    -- the upper bound of the rounded `x`
    have hxle : roundPos x ≤ (2 : ℚ) ^ exponent y := by
      unfold roundPos
      have h1 : roundHalfEven (x / quantum x) ≤ ((2 ^ 53 : ℕ) : ℤ) :=
        roundHalfEven_le (by
          have := div_quantum_lt hpos
          push_cast
          exact le_of_lt this)
      have h2 : ((roundHalfEven (x / quantum x) : ℤ) : ℚ) ≤ (2 : ℚ) ^ 53 := by
        exact_mod_cast h1
      calc (roundHalfEven (x / quantum x) : ℚ) * quantum x
          ≤ (2 : ℚ) ^ 53 * quantum x :=
            mul_le_mul_of_nonneg_right h2 (le_of_lt (quantum_pos x))
        _ = (2 : ℚ) ^ ((53 : ℤ) + (Max.max (exponent x) (-1022) - 52)) := by
            unfold quantum
            rw [zpow_add₀ (by norm_num : (2 : ℚ) ≠ 0)]
            norm_num
        _ ≤ (2 : ℚ) ^ exponent y := by
            apply two_zpow_le
            rw [hgy] at hlt
            omega
    have hyge : (2 : ℚ) ^ exponent y ≤ roundPos y := by
      unfold roundPos
      have h1 : ((2 ^ 52 : ℕ) : ℤ) ≤ roundHalfEven (y / quantum y) :=
        le_roundHalfEven (by
          have := le_div_quantum hy (le_of_lt hey)
          push_cast
          exact this)
      have h2 : (2 : ℚ) ^ 52 ≤ ((roundHalfEven (y / quantum y) : ℤ) : ℚ) := by
        exact_mod_cast h1
      calc (2 : ℚ) ^ exponent y
          = (2 : ℚ) ^ 52 * quantum y := by
            unfold quantum
            rw [hgy]
            have : (2 : ℚ) ^ 52 * (2 : ℚ) ^ (exponent y - 52)
                = (2 : ℚ) ^ ((52 : ℤ) + (exponent y - 52)) := by
              rw [zpow_add₀ (by norm_num : (2 : ℚ) ≠ 0)]
              norm_num
            rw [this]
            congr 1
            ring
        _ ≤ (roundHalfEven (y / quantum y) : ℚ) * quantum y :=
            mul_le_mul_of_nonneg_right h2 (le_of_lt (quantum_pos y))
    exact le_trans hxle hyge

theorem round_zero : round 0 = 0 := by
  unfold round
  simp [roundPos_zero]

theorem round_of_nonneg {x : ℚ} (hx : 0 ≤ x) : round x = roundPos x := by
  unfold round
  rw [if_pos hx]

theorem round_neg (x : ℚ) : round (-x) = -round x := by
  unfold round
  rcases lt_trichotomy x 0 with h | h | h
  · rw [if_pos (by linarith), if_neg (by linarith)]
    simp
  · subst h
    simp [roundPos_zero]
  · rw [if_neg (by linarith), if_pos (by linarith)]
    simp

theorem round_nonneg {x : ℚ} (hx : 0 ≤ x) : 0 ≤ round x := by
  rw [round_of_nonneg hx]; exact roundPos_nonneg hx

theorem round_mono {x y : ℚ} (hxy : x ≤ y) : round x ≤ round y := by
  rcases le_or_lt 0 x with hx | hx
  · rw [round_of_nonneg hx, round_of_nonneg (le_trans hx hxy)]
    exact roundPos_mono hx hxy
  · rcases le_or_lt 0 y with hy | hy
    · have h1 : round x ≤ 0 := by
        have := round_nonneg (le_of_lt (neg_pos.mpr hx))
        rw [round_neg] at this
        linarith
      exact le_trans h1 (round_nonneg hy)
    · have := roundPos_mono (le_of_lt (neg_pos.mpr hy)) (neg_le_neg hxy)
      unfold round
      rw [if_neg (not_le.mpr hx), if_neg (not_le.mpr hy)]
      linarith

theorem roundPos_dyadic (M : ℕ) (z : ℤ) (hM : M ≤ 2 ^ 53) (hz : -1074 ≤ z) :
    roundPos ((M : ℚ) * (2 : ℚ) ^ z) = (M : ℚ) * (2 : ℚ) ^ z := by
  rcases Nat.eq_zero_or_pos M with h0 | hpos
  · subst h0; simp [roundPos_zero]
  have h2 : (2 : ℚ) ≠ 0 := by norm_num
  have hMq : (0 : ℚ) < M := by exact_mod_cast hpos
  have hx : 0 < (M : ℚ) * (2 : ℚ) ^ z := mul_pos hMq (two_zpow_pos z)
  generalize hxdef : (M : ℚ) * (2 : ℚ) ^ z = x at hx ⊢
  obtain ⟨e1, -⟩ := exponent_spec x hx
  have hM' : (M : ℚ) ≤ (2 : ℚ) ^ (53 : ℤ) := by
    have : ((M : ℕ) : ℚ) ≤ ((2 ^ 53 : ℕ) : ℚ) := by exact_mod_cast hM
    rw [show ((2 : ℚ) ^ (53 : ℤ)) = ((2 ^ 53 : ℕ) : ℚ) by norm_num]
    exact this
  have he : exponent x ≤ z + 53 := by
    have : (2 : ℚ) ^ exponent x ≤ (2 : ℚ) ^ (z + 53) := by
      refine le_trans e1 ?_
      rw [← hxdef, zpow_add₀ h2, mul_comm]
      exact mul_le_mul_of_nonneg_left hM' (le_of_lt (two_zpow_pos z))
    exact (zpow_le_zpow_iff_right₀ (by norm_num : (1 : ℚ) < 2)).mp this
  have hint : ∃ k : ℤ, x / quantum x = (k : ℚ) := by
    unfold quantum
    generalize hg : Max.max (exponent x) (-1022) - 52 = g
    have hg1 : z < g → exponent x = z + 53 := by
      intro hzg
      rcases le_total (exponent x) (-1022) with h | h
      · rw [max_eq_right h] at hg; omega
      · rw [max_eq_left h] at hg; omega
    rcases le_or_lt g z with hgz | hgz
    · refine ⟨((M * 2 ^ (z - g).toNat : ℕ) : ℤ), ?_⟩
      have hn : ((z - g).toNat : ℤ) = z - g := Int.toNat_of_nonneg (by omega)
      have hpow : (2 : ℚ) ^ (z - g) = (2 : ℚ) ^ (z - g).toNat := by
        rw [← zpow_natCast, hn]
      rw [← hxdef, mul_div_assoc, ← zpow_sub₀ h2, hpow]
      push_cast
      rfl
    · have hez := hg1 hgz
      have hgeq : g = z + 1 := by
        rcases le_total (exponent x) (-1022) with h | h
        · rw [max_eq_right h] at hg; omega
        · rw [max_eq_left h] at hg; omega
      have hMeq : (M : ℚ) = (2 : ℚ) ^ (53 : ℤ) := by
        apply le_antisymm hM'
        have := e1
        rw [hez, ← hxdef, zpow_add₀ h2, mul_comm] at this
        exact le_of_mul_le_mul_right this (two_zpow_pos z)
      refine ⟨((2 ^ 52 : ℕ) : ℤ), ?_⟩
      rw [← hxdef, hMeq, hgeq, ← zpow_add₀ h2, ← zpow_sub₀ h2]
      push_cast
      rw [show (53 : ℤ) + z - (z + 1) = ((52 : ℕ) : ℤ) by push_cast; ring, zpow_natCast]
      norm_num
  obtain ⟨k, hk⟩ := hint
  unfold roundPos
  rw [hk, roundHalfEven_intCast, ← hk]
  exact div_mul_cancel₀ _ (ne_of_gt (quantum_pos x))

/-- A binary64 number: a rational that rounding leaves as it is. -/
theorem round_dyadic (M : ℤ) (z : ℤ) (hM : |M| ≤ 2 ^ 53) (hz : -1074 ≤ z) :
    round ((M : ℚ) * (2 : ℚ) ^ z) = (M : ℚ) * (2 : ℚ) ^ z := by
  have hnat : (M.natAbs : ℕ) ≤ 2 ^ 53 := by
    have : ((M.natAbs : ℕ) : ℤ) ≤ 2 ^ 53 := by rw [Int.natCast_natAbs]; exact hM
    exact_mod_cast this
  have key := roundPos_dyadic M.natAbs z hnat hz
  have hcast : ((M.natAbs : ℕ) : ℚ) = |(M : ℚ)| := by
    rw [Nat.cast_natAbs]; push_cast; rfl
  rw [hcast] at key
  rcases le_or_lt 0 M with h | h
  · have hq : (0 : ℚ) ≤ M := by exact_mod_cast h
    rw [abs_of_nonneg hq] at key
    rw [round_of_nonneg (mul_nonneg hq (le_of_lt (two_zpow_pos z))), key]
  · have hq : (M : ℚ) < 0 := by exact_mod_cast h
    rw [abs_of_neg hq] at key
    have hneg : (M : ℚ) * (2 : ℚ) ^ z = -(-(M : ℚ) * (2 : ℚ) ^ z) := by ring
    rw [hneg, round_neg,
      round_of_nonneg (mul_nonneg (by linarith) (le_of_lt (two_zpow_pos z))), key]

theorem roundPos_roundPos {x : ℚ} (hx : 0 ≤ x) : roundPos (roundPos x) = roundPos x := by
  rcases eq_or_lt_of_le hx with h0 | hpos
  · rw [← h0, roundPos_zero, roundPos_zero]
  have hk0 : 0 ≤ roundHalfEven (x / quantum x) :=
    le_roundHalfEven (by simpa using div_nonneg hx (le_of_lt (quantum_pos x)))
  have hk1 : roundHalfEven (x / quantum x) ≤ ((2 ^ 53 : ℕ) : ℤ) :=
    roundHalfEven_le (by
      have := div_quantum_lt hpos
      push_cast
      exact le_of_lt this)
  have hform : roundPos x
      = ((roundHalfEven (x / quantum x)).toNat : ℚ)
        * (2 : ℚ) ^ (Max.max (exponent x) (-1022) - 52) := by
    unfold roundPos
    have : (((roundHalfEven (x / quantum x)).toNat : ℕ) : ℤ) = roundHalfEven (x / quantum x) :=
      Int.toNat_of_nonneg hk0
    have h2 : (((roundHalfEven (x / quantum x)).toNat : ℕ) : ℚ)
        = ((roundHalfEven (x / quantum x) : ℤ) : ℚ) := by exact_mod_cast this
    rw [h2]
    rfl
  rw [hform]
  apply roundPos_dyadic
  · have : (((roundHalfEven (x / quantum x)).toNat : ℕ) : ℤ) ≤ ((2 ^ 53 : ℕ) : ℤ) := by
      rw [Int.toNat_of_nonneg hk0]; exact hk1
    exact_mod_cast this
  · have := le_max_right (exponent x) (-1022)
    omega

theorem round_round (x : ℚ) : round (round x) = round x := by
  rcases le_or_lt 0 x with hx | hx
  · rw [round_of_nonneg hx, round_of_nonneg (roundPos_nonneg hx), roundPos_roundPos hx]
  · have h := round_neg (-x)
    rw [neg_neg] at h
    have hnx : 0 ≤ -x := by linarith
    rw [h, round_neg, round_of_nonneg hnx, round_of_nonneg (roundPos_nonneg hnx),
      roundPos_roundPos hnx]

theorem isqrtAux_spec (n : ℕ) : ∀ (b r : ℕ), r * r ≤ n → n < (r + 2 ^ b) * (r + 2 ^ b) →
    isqrtAux n b r * isqrtAux n b r ≤ n ∧
    n < (isqrtAux n b r + 1) * (isqrtAux n b r + 1) := by
  intro b
  induction b with
  | zero => intro r h1 h2; simpa [isqrtAux] using ⟨h1, h2⟩
  | succ b ih =>
    intro r h1 h2
    unfold isqrtAux
    split_ifs with h
    · apply ih _ h
      have : r + 2 ^ b + 2 ^ b = r + 2 ^ (b + 1) := by rw [pow_succ]; ring
      rw [this]; exact h2
    · exact ih r h1 (not_le.mp h)

theorem isqrt_spec (n : ℕ) : isqrt n * isqrt n ≤ n ∧ n < (isqrt n + 1) * (isqrt n + 1) := by
  unfold isqrt
  apply isqrtAux_spec
  · simp
  · rcases Nat.eq_zero_or_pos n with h0 | hpos
    · subst h0; positivity
    · obtain ⟨-, h2⟩ := log2Nat_spec n n hpos le_rfl
      calc n < 2 ^ (log2Nat n n + 1) := h2
        _ ≤ 2 ^ ((log2Nat n n / 2 + 1) + (log2Nat n n / 2 + 1)) :=
            Nat.pow_le_pow_right (by norm_num) (by omega)
        _ = (0 + 2 ^ (log2Nat n n / 2 + 1)) * (0 + 2 ^ (log2Nat n n / 2 + 1)) := by
            rw [zero_add, ← pow_add]

theorem sqrt_nonneg (x : ℚ) : 0 ≤ sqrt x := by
  unfold sqrt
  split_ifs
  · exact le_rfl
  · exact mul_nonneg (Nat.cast_nonneg _) (le_of_lt (two_zpow_pos _))

/-- On numbers of a binary grid that are small enough for their squares to be exact, the
rounded square root compares with a grid number as the real square root does. -/
theorem sqrt_grid (j n0 R0 : ℕ) (hn : n0 < 2 ^ 53) (hR : R0 ≤ 2 ^ 26) :
    sqrt ((n0 : ℚ) / 4 ^ j) < (R0 : ℚ) / 2 ^ j ↔ n0 < R0 ^ 2 := by
  have h2 : (2 : ℚ) ≠ 0 := by norm_num
  have h2j : (0 : ℚ) < 2 ^ j := by positivity
  have h4j : (0 : ℚ) < 4 ^ j := by positivity
  rcases Nat.eq_zero_or_pos n0 with h0 | hpos
  · subst h0
    have : sqrt ((0 : ℕ) / 4 ^ j : ℚ) = 0 := by simp [sqrt]
    rw [this]
    constructor
    · intro h
      have : (0 : ℚ) < R0 := by
        rcases Nat.eq_zero_or_pos R0 with h' | h'
        · subst h'; simp at h
        · exact_mod_cast h'
      have : 0 < R0 := by exact_mod_cast this
      positivity
    · intro h
      have : 0 < R0 := by
        rcases Nat.eq_zero_or_pos R0 with h' | h'
        · subst h'; simp at h
        · exact h'
      have : (0 : ℚ) < R0 := by exact_mod_cast this
      positivity
  have hn0 : (0 : ℚ) < n0 := by exact_mod_cast hpos
  have hx : 0 < (n0 : ℚ) / 4 ^ j := div_pos hn0 h4j
  have h4 : (4 : ℚ) ^ j = (2 : ℚ) ^ ((2 * j : ℕ) : ℤ) := by
    rw [zpow_natCast, pow_mul]; norm_num
  obtain ⟨e1, -⟩ := exponent_spec _ hx
  -- the exponent of the argument
  have he : exponent ((n0 : ℚ) / 4 ^ j) ≤ 52 - 2 * j := by
    have hlt : (n0 : ℚ) / 4 ^ j < (2 : ℚ) ^ ((53 : ℤ) - (2 * j : ℕ)) := by
      rw [zpow_sub₀ h2, ← h4, div_lt_div_iff₀ h4j h4j]
      have : (n0 : ℚ) < (2 : ℚ) ^ (53 : ℤ) := by
        have : ((n0 : ℕ) : ℚ) < ((2 ^ 53 : ℕ) : ℚ) := by exact_mod_cast hn
        rw [show ((2 : ℚ) ^ (53 : ℤ)) = ((2 ^ 53 : ℕ) : ℚ) by norm_num]
        exact this
      exact mul_lt_mul_of_pos_right this h4j
    have := lt_of_le_of_lt e1 hlt
    have := (zpow_lt_zpow_iff_right₀ (by norm_num : (1 : ℚ) < 2)).mp this
    push_cast at this
    omega
  generalize hk : exponent ((n0 : ℚ) / 4 ^ j) / 2 = k
  have hkj : k + j ≤ 26 := by omega
  -- the scale `S = 2 ^ (52 - k - j)`
  obtain ⟨s, hs⟩ : ∃ s : ℕ, (s : ℤ) = 52 - k - j := ⟨(52 - k - j).toNat, Int.toNat_of_nonneg (by omega)⟩
  have hs26 : 26 ≤ s := by omega
  have hS : 2 ^ 26 ≤ 2 ^ s := Nat.pow_le_pow_right (by norm_num) hs26
  have hq : (2 : ℚ) ^ (k - 52) = 1 / ((2 : ℚ) ^ s * 2 ^ j) := by
    rw [show k - 52 = -(((s + j : ℕ)) : ℤ) by push_cast; omega, zpow_neg, zpow_natCast, pow_add,
      one_div]
  have hy : (n0 : ℚ) / 4 ^ j / ((2 : ℚ) ^ (k - 52) * (2 : ℚ) ^ (k - 52))
      = ((n0 * (2 ^ s * 2 ^ s) : ℕ) : ℚ) := by
    rw [hq]
    have : (4 : ℚ) ^ j = 2 ^ j * 2 ^ j := by rw [← mul_pow]; norm_num
    rw [this]
    push_cast
    field_simp
    ring
  unfold sqrt
  rw [if_neg (not_le.mpr hx)]
  simp only [hk, hy, Nat.floor_natCast]
  generalize hY : n0 * (2 ^ s * 2 ^ s) = Y
  obtain ⟨n1, n2⟩ := isqrt_spec Y
  generalize isqrt Y = n at n1 n2 ⊢
  -- the rounding decision on a natural number
  have hm : (if (Y : ℚ) < (n : ℚ) * n + n + 1 / 4 then n
      else if (n : ℚ) * n + n + 1 / 4 < (Y : ℚ) then n + 1
      else if n % 2 = 0 then n else n + 1) = if Y ≤ n * n + n then n else n + 1 := by
    by_cases hle : Y ≤ n * n + n
    · have : (Y : ℚ) < (n : ℚ) * n + n + 1 / 4 := by
        have : (Y : ℚ) ≤ ((n * n + n : ℕ) : ℚ) := by exact_mod_cast hle
        push_cast at this
        linarith
      rw [if_pos this, if_pos hle]
    · have hlt : n * n + n + 1 ≤ Y := by omega
      have : (n : ℚ) * n + n + 1 / 4 < (Y : ℚ) := by
        have : ((n * n + n + 1 : ℕ) : ℚ) ≤ (Y : ℚ) := by exact_mod_cast hlt
        push_cast at this
        linarith
      rw [if_neg (not_lt.mpr (le_of_lt this)), if_pos this, if_neg hle]
  rw [hm, hq]
  generalize hmdef : (if Y ≤ n * n + n then n else n + 1) = m
  have hmn : n ≤ m := by rw [← hmdef]; split_ifs <;> omega
  have hmn1 : m = n ∨ (m = n + 1 ∧ n * n + n + 1 ≤ Y) := by
    rw [← hmdef]; split_ifs <;> omega
  have hSpos : (0 : ℚ) < 2 ^ s := by positivity
  have hcmp : (m : ℚ) * (1 / ((2 : ℚ) ^ s * 2 ^ j)) < (R0 : ℚ) / 2 ^ j ↔ m < R0 * 2 ^ s := by
    rw [mul_one_div, div_lt_div_iff₀ (mul_pos hSpos h2j) h2j]
    constructor
    · intro h
      have : (m : ℚ) < R0 * 2 ^ s := by
        have h' : (m : ℚ) * 2 ^ j < R0 * 2 ^ s * 2 ^ j := by linarith
        exact lt_of_mul_lt_mul_right h' (le_of_lt h2j)
      exact_mod_cast this
    · intro h
      have : (m : ℚ) < R0 * 2 ^ s := by exact_mod_cast h
      have := mul_lt_mul_of_pos_right this h2j
      linarith
  rw [hcmp]
  generalize hSdef : 2 ^ s = S at hS hY ⊢
  have hRS : R0 ≤ S := le_trans hR hS
  have hS0 : 0 < S := by omega
  subst hY
  constructor
  · intro hmT
    -- `Y < (n + 1)² ≤ T²`
    have h1 : n + 1 ≤ R0 * S := by omega
    have h3 : n0 * (S * S) < (R0 * S) * (R0 * S) :=
      lt_of_lt_of_le n2 (Nat.mul_le_mul h1 h1)
    have h4 : n0 * (S * S) < (R0 ^ 2) * (S * S) := by
      calc n0 * (S * S) < (R0 * S) * (R0 * S) := h3
        _ = (R0 ^ 2) * (S * S) := by ring
    exact lt_of_mul_lt_mul_right h4 (Nat.zero_le _)
  · intro hlt
    have h1 : n0 + 1 ≤ R0 ^ 2 := hlt
    have h3 : (n0 + 1) * (S * S) ≤ (R0 * S) * (R0 * S) := by
      calc (n0 + 1) * (S * S) ≤ (R0 ^ 2) * (S * S) := Nat.mul_le_mul_right _ h1
        _ = (R0 * S) * (R0 * S) := by ring
    have hSS : 0 < S * S := Nat.mul_pos hS0 hS0
    have e1 : (n0 + 1) * (S * S) = n0 * (S * S) + S * S := by ring
    rw [e1] at h3
    have hnT : n < R0 * S := by
      by_contra hcon
      have hcon : R0 * S ≤ n := not_lt.mp hcon
      have := Nat.mul_le_mul hcon hcon
      linarith
    rcases hmn1 with rfl | ⟨rfl, hbig⟩
    · exact hnT
    · by_contra hcon
      have hT : n + 1 = R0 * S := by omega
      have hTS : R0 * S ≤ S * S := Nat.mul_le_mul_right _ hRS
      rw [← hT] at h3 hTS
      have e2 : (n + 1) * (n + 1) = n * n + 2 * n + 1 := by ring
      rw [e2] at h3
      linarith

theorem sumFrom_cons (t x : ℚ) (xs : List ℚ) :
    sumFrom t (x :: xs) = sumFrom (round (t + x)) xs := rfl

theorem sumFrom_append (t : ℚ) (xs ys : List ℚ) :
    sumFrom t (xs ++ ys) = sumFrom (sumFrom t xs) ys := by
  unfold sumFrom
  rw [List.foldl_append]

/-- With non-negative numbers added, the rounded sum never falls below a binary64 start. -/
theorem le_sumFrom (xs : List ℚ) :
    ∀ t : ℚ, round t = t → (∀ x ∈ xs, 0 ≤ x) → t ≤ sumFrom t xs := by
  induction xs with
  | nil => intro t _ _; exact le_rfl
  | cons x rest ih =>
    intro t ht hnn
    rw [sumFrom_cons]
    have h1 : t ≤ round (t + x) := by
      have := round_mono (show t ≤ t + x by linarith [hnn x (List.mem_cons_self _ _)])
      rwa [ht] at this
    exact le_trans h1 (ih _ (round_round _) (fun y hy => hnn y (List.mem_cons_of_mem _ hy)))

theorem round_sumFrom (xs : List ℚ) : ∀ t : ℚ, round t = t → round (sumFrom t xs) = sumFrom t xs := by
  induction xs with
  | nil => intro t ht; exact ht
  | cons x rest ih => intro t _; rw [sumFrom_cons]; exact ih _ (round_round _)

/-- A natural multiple of `2 ^ (-j)` of at most 53 bits is a binary64 number. -/
theorem round_grid (j n : ℕ) (hj : j ≤ 1074) (hn : n ≤ 2 ^ 53) :
    round ((n : ℚ) / 2 ^ j) = (n : ℚ) / 2 ^ j := by
  have := round_dyadic (n : ℤ) (-(j : ℤ)) (by
    rw [abs_of_nonneg (by positivity)]; exact_mod_cast hn) (by omega)
  rw [zpow_neg, zpow_natCast] at this
  push_cast at this
  rw [div_eq_mul_inv]
  exact this

/-- On natural multiples of `2 ^ (-j)` whose sum has at most 53 bits, no addition rounds. -/
theorem sumFrom_grid (j : ℕ) (hj : j ≤ 1074) (xs : List ℚ) :
    ∀ t : ℚ, (∃ n : ℕ, t = (n : ℚ) / 2 ^ j) → (∀ x ∈ xs, ∃ n : ℕ, x = (n : ℚ) / 2 ^ j) →
      (t + xs.sum) * 2 ^ j ≤ 2 ^ 53 → sumFrom t xs = t + xs.sum := by
  induction xs with
  | nil => intro t _ _ _; simp [sumFrom]
  | cons x rest ih =>
    intro t ht hx hsum
    obtain ⟨a, rfl⟩ := ht
    obtain ⟨b, hb⟩ := hx x (List.mem_cons_self _ _)
    have hrest : ∀ y ∈ rest, ∃ n : ℕ, y = (n : ℚ) / 2 ^ j :=
      fun y hy => hx y (List.mem_cons_of_mem _ hy)
    have hrest0 : 0 ≤ rest.sum := List.sum_nonneg (by
      intro y hy
      obtain ⟨n, rfl⟩ := hrest y hy
      positivity)
    have h2j : (0 : ℚ) < 2 ^ j := by positivity
    have hab : (a : ℚ) / 2 ^ j + x = ((a + b : ℕ) : ℚ) / 2 ^ j := by
      rw [hb]; push_cast; ring
    have hle : a + b ≤ 2 ^ 53 := by
      have : ((a + b : ℕ) : ℚ) / 2 ^ j * 2 ^ j ≤ 2 ^ 53 := by
        rw [← hab]
        simp only [List.sum_cons] at hsum
        have : ((a : ℚ) / 2 ^ j + x) * 2 ^ j ≤ ((a : ℚ) / 2 ^ j + (x + rest.sum)) * 2 ^ j := by
          apply mul_le_mul_of_nonneg_right _ (le_of_lt h2j)
          linarith
        linarith
      rw [div_mul_cancel₀ _ (ne_of_gt h2j)] at this
      exact_mod_cast this
    rw [sumFrom_cons, hab, round_grid j (a + b) hj hle,
      ih _ ⟨a + b, rfl⟩ hrest (by
        rw [← hab]
        simp only [List.sum_cons] at hsum
        linarith)]
    rw [← hab, List.sum_cons]
    ring

/-- Whole multiples of `2 ^ (-j)` below a bound of at most `2 ^ 14` are added without
rounding. -/
theorem sumFrom_zero_grid (j : ℕ) (hj : j ≤ 39) (xs : List ℚ) (bound : ℚ)
    (hb : bound ≤ 2 ^ 14) (hx : ∀ x ∈ xs, ∃ n : ℕ, x = (n : ℚ) / 2 ^ j) (hsum : xs.sum < bound) :
    sumFrom 0 xs = xs.sum := by
  have h := sumFrom_grid j (by omega) xs 0 ⟨0, by simp⟩ hx (by
    rw [zero_add]
    have h1 : (2 : ℚ) ^ j ≤ 2 ^ 39 := pow_le_pow_right₀ (by norm_num) hj
    have h2 : (0 : ℚ) < 2 ^ j := by positivity
    have h0 : 0 ≤ xs.sum := List.sum_nonneg (by
      intro y hy
      obtain ⟨n, rfl⟩ := hx y hy
      positivity)
    calc xs.sum * 2 ^ j ≤ 2 ^ 14 * 2 ^ 39 :=
          mul_le_mul (le_trans (le_of_lt hsum) hb) h1 (le_of_lt h2) (by norm_num)
      _ = 2 ^ 53 := by norm_num)
  rw [zero_add] at h
  exact h

/-- A rounded product of a factor of absolute value at most 1 with a non-negative binary64
number lies between that number and its negative. -/
theorem abs_round_mul_le (c h : ℚ) (hc : |c| ≤ 1) (h0 : 0 ≤ h)
    (hh : round h = h) :
    -h ≤ round (c * h) ∧ round (c * h) ≤ h := by
  have hc' := abs_le.mp hc
  constructor
  · have := round_mono (show -h ≤ c * h by nlinarith)
    rwa [round_neg, hh] at this
  · have := round_mono (show c * h ≤ h by nlinarith)
    rwa [hh] at this

end Binary64

/-! ## Lemmas on `Player.update` -/

section PlayerLemmas

variable (dt w : ℚ) (p : Player)

/-- The last three blocks of `Player.update` (cooldown, automatic fire, bullets) only write
`shootCooldown` and `bullets`. -/
theorem Player.update_tail_fields (q : Player) :
    let r := Player.updateBullets (Player.updateAutoFire (Player.updateCooldown dt q))
    r.x = q.x ∧ r.y = q.y ∧ r.width = q.width ∧ r.height = q.height ∧ r.lives = q.lives ∧
    r.score = q.score ∧
    r.isInvulnerable = q.isInvulnerable ∧ r.invulnerabilityTime = q.invulnerabilityTime ∧
    r.powerUpType = q.powerUpType ∧ r.powerUpTime = q.powerUpTime ∧
    r.shootCooldownTime = q.shootCooldownTime ∧ r.bulletColor = q.bulletColor := by
  simp only [Player.updateBullets, Player.updateAutoFire, Player.shoot, Player.updateCooldown]
  split_ifs <;> simp

/-- The properties after `Player.update` that do not depend on shooting: they are those of
the movement, invulnerability and power-up blocks. -/
theorem Player.update_fields :
    let c := Player.updatePowerUp dt (Player.updateInvulnerability dt p)
    let r := p.update dt w
    r.x = (Player.updateMovement w p).x ∧ r.y = p.y ∧ r.width = p.width ∧
    r.height = p.height ∧ r.lives = p.lives ∧ r.score = p.score ∧
    r.isInvulnerable = c.isInvulnerable ∧ r.invulnerabilityTime = c.invulnerabilityTime ∧
    r.powerUpType = c.powerUpType ∧ r.powerUpTime = c.powerUpTime ∧
    r.shootCooldownTime = c.shootCooldownTime ∧ r.bulletColor = c.bulletColor := by
  have h := Player.update_tail_fields dt
    (Player.updatePowerUp dt (Player.updateInvulnerability dt (Player.updateMovement w p)))
  simp only [Player.update]
  simp only at h
  obtain ⟨h1, h2, h3, h4, h5, h6, h7, h8, h9, h10, h11, h12⟩ := h
  rw [h1, h2, h3, h4, h5, h6, h7, h8, h9, h10, h11, h12]
  simp only [Player.updatePowerUp, Player.updateInvulnerability, Player.updateMovement]
  split_ifs <;> simp

theorem Player.update_lives : (p.update dt w).lives = p.lives :=
  (Player.update_fields dt w p).2.2.2.2.1

theorem Player.radius_after_update : (p.update dt w).radius = p.radius := by
  have h := Player.update_fields dt w p
  simp only [Player.radius, h.2.2.1, h.2.2.2.1]

/-- While the rounded invulnerability timer stays below its maximum, an update keeps the
player invulnerable and stores the rounded sum in the timer. -/
theorem Player.update_invulnerable_of_lt (hi : p.isInvulnerable = true)
    (hlt : Binary64.round (p.invulnerabilityTime + dt) < 2000) :
    (p.update dt w).isInvulnerable = true ∧
    (p.update dt w).invulnerabilityTime = Binary64.round (p.invulnerabilityTime + dt) := by
  have h := Player.update_fields dt w p
  simp only at h
  rw [h.2.2.2.2.2.2.1, h.2.2.2.2.2.2.2.1]
  have hn : ¬ (Binary64.round (p.invulnerabilityTime + dt) ≥ Player.maxInvulnerabilityTime) := by
    simp only [Player.maxInvulnerabilityTime]; linarith
  simp only [Player.updatePowerUp, Player.updateInvulnerability, hi, if_true, hn, if_false]
  split_ifs <;> simp

/-- When the rounded invulnerability timer reaches its maximum, an update ends
invulnerability. -/
theorem Player.update_invulnerable_of_ge (hi : p.isInvulnerable = true)
    (hge : 2000 ≤ Binary64.round (p.invulnerabilityTime + dt)) :
    (p.update dt w).isInvulnerable = false ∧ (p.update dt w).invulnerabilityTime = 0 := by
  have h := Player.update_fields dt w p
  simp only at h
  rw [h.2.2.2.2.2.2.1, h.2.2.2.2.2.2.2.1]
  have hn : Binary64.round (p.invulnerabilityTime + dt) ≥ Player.maxInvulnerabilityTime := by
    simp only [Player.maxInvulnerabilityTime]; linarith
  simp only [Player.updatePowerUp, Player.updateInvulnerability, hi, if_true, hn]
  split_ifs <;> simp

/-- An update never makes a player invulnerable. -/
theorem Player.update_not_invulnerable
    (h : p.isInvulnerable = false) : (p.update dt w).isInvulnerable = false := by
  have hf := (Player.update_fields dt w p).2.2.2.2.2.2.1
  simp only at hf
  rw [hf]
  simp only [Player.updatePowerUp, Player.updateInvulnerability, h]
  split_ifs <;> simp [h]

/-- While the rounded power-up timer stays below its maximum, an update keeps the power-up and
its effects and stores the rounded sum in the timer. -/
theorem Player.update_powerUp_of_lt (t : PowerUpType) (ht : p.powerUpType = some t)
    (hlt : Binary64.round (p.powerUpTime + dt) < 10000) :
    (p.update dt w).powerUpType = some t ∧
    (p.update dt w).powerUpTime = Binary64.round (p.powerUpTime + dt) ∧
    (p.update dt w).shootCooldownTime = p.shootCooldownTime ∧
    (p.update dt w).bulletColor = p.bulletColor := by
  have h := Player.update_fields dt w p
  simp only at h
  rw [h.2.2.2.2.2.2.2.2.1, h.2.2.2.2.2.2.2.2.2.1, h.2.2.2.2.2.2.2.2.2.2.1,
    h.2.2.2.2.2.2.2.2.2.2.2]
  have hn : ¬ (Binary64.round (p.powerUpTime + dt) ≥ Player.maxPowerUpTime) := by
    simp only [Player.maxPowerUpTime]; linarith
  simp only [Player.updatePowerUp, Player.updateInvulnerability]
  split_ifs <;> simp_all

/-- When the rounded power-up timer reaches its maximum, an update clears the power-up. -/
theorem Player.update_powerUp_of_ge (t : PowerUpType) (ht : p.powerUpType = some t)
    (hge : 10000 ≤ Binary64.round (p.powerUpTime + dt)) :
    (p.update dt w).powerUpType = none ∧ (p.update dt w).powerUpTime = 0 ∧
    (p.update dt w).shootCooldownTime = 300 ∧
    (p.update dt w).bulletColor = Player.defaultBulletColor := by
  have h := Player.update_fields dt w p
  simp only at h
  rw [h.2.2.2.2.2.2.2.2.1, h.2.2.2.2.2.2.2.2.2.1, h.2.2.2.2.2.2.2.2.2.2.1,
    h.2.2.2.2.2.2.2.2.2.2.2]
  have hn : Binary64.round (p.powerUpTime + dt) ≥ Player.maxPowerUpTime := by
    simp only [Player.maxPowerUpTime]; linarith
  simp only [Player.updatePowerUp, Player.updateInvulnerability]
  split_ifs <;> simp_all

end PlayerLemmas

/-- A run of updates with non-negative time steps whose rounded sum, accumulated from the
timer of an invulnerable player, stays below the maximum leaves the player invulnerable with
that sum in the timer, and with the same lives. -/
theorem Player.runUpdates_invulnerable (steps : List (ℚ × ℚ)) :
    ∀ p : Player, p.isInvulnerable = true → (∀ s ∈ steps, 0 ≤ s.1) →
      Binary64.round p.invulnerabilityTime = p.invulnerabilityTime →
      Binary64.sumFrom p.invulnerabilityTime (steps.map Prod.fst) < 2000 →
      (p.runUpdates steps).isInvulnerable = true ∧
      (p.runUpdates steps).invulnerabilityTime
        = Binary64.sumFrom p.invulnerabilityTime (steps.map Prod.fst) ∧
      (p.runUpdates steps).lives = p.lives := by
  induction steps with
  | nil => intro p hi _ _ _; simp [Player.runUpdates, hi, Binary64.sumFrom]
  | cons s rest ih =>
    intro p hi hnn hdbl hlt
    simp only [List.map_cons, Binary64.sumFrom_cons] at hlt ⊢
    have hrest : ∀ x ∈ rest.map Prod.fst, 0 ≤ x := by
      intro x hx
      obtain ⟨s', hs', rfl⟩ := List.mem_map.mp hx
      exact hnn s' (List.mem_cons_of_mem _ hs')
    have hstep := Player.update_invulnerable_of_lt s.1 s.2 p hi
      (lt_of_le_of_lt (Binary64.le_sumFrom _ _ (Binary64.round_round _) hrest) hlt)
    have := ih (p.update s.1 s.2) hstep.1
      (fun s' hs' => hnn s' (List.mem_cons_of_mem _ hs'))
      (by rw [hstep.2]; exact Binary64.round_round _) (by rw [hstep.2]; exact hlt)
    simp only [Player.runUpdates, List.foldl_cons] at this ⊢
    refine ⟨this.1, ?_, ?_⟩
    · rw [this.2.1, hstep.2]
    · rw [this.2.2, Player.update_lives]

/-- A run of updates leaves a player that is not invulnerable as vulnerable as it was, with
the same lives. -/
theorem Player.runUpdates_not_invulnerable (steps : List (ℚ × ℚ)) :
    ∀ p : Player, p.isInvulnerable = false →
      (p.runUpdates steps).isInvulnerable = false ∧ (p.runUpdates steps).lives = p.lives := by
  induction steps with
  | nil => intro p hi; exact ⟨hi, rfl⟩
  | cons s rest ih =>
    intro p hi
    have := ih (p.update s.1 s.2) (Player.update_not_invulnerable s.1 s.2 p hi)
    simp only [Player.runUpdates, List.foldl_cons] at this ⊢
    exact ⟨this.1, by rw [this.2, Player.update_lives]⟩

/-- A run of updates whose rounded sum, accumulated from the timer of an invulnerable player,
reaches the maximum ends the invulnerability; lives is unchanged. -/
theorem Player.runUpdates_vulnerable (steps : List (ℚ × ℚ)) :
    ∀ p : Player, p.isInvulnerable = true → p.invulnerabilityTime < 2000 →
      2000 ≤ Binary64.sumFrom p.invulnerabilityTime (steps.map Prod.fst) →
      (p.runUpdates steps).isInvulnerable = false ∧ (p.runUpdates steps).lives = p.lives := by
  induction steps with
  | nil =>
    intro p _ hlt hge
    simp only [List.map_nil, Binary64.sumFrom, List.foldl_nil] at hge
    linarith
  | cons s rest ih =>
    intro p hi hlt hge
    simp only [List.map_cons, Binary64.sumFrom_cons] at hge
    simp only [Player.runUpdates, List.foldl_cons]
    rcases lt_or_le (Binary64.round (p.invulnerabilityTime + s.1)) 2000 with h | h
    · have hstep := Player.update_invulnerable_of_lt s.1 s.2 p hi h
      have := ih (p.update s.1 s.2) hstep.1 (by rw [hstep.2]; exact h)
        (by rw [hstep.2]; exact hge)
      simp only [Player.runUpdates] at this
      exact ⟨this.1, by rw [this.2, Player.update_lives]⟩
    · have hstep := Player.update_invulnerable_of_ge s.1 s.2 p hi h
      have := Player.runUpdates_not_invulnerable rest (p.update s.1 s.2) hstep.1
      simp only [Player.runUpdates] at this
      exact ⟨this.1, by rw [this.2, Player.update_lives]⟩

/-- A run of updates with non-negative time steps whose rounded sum, accumulated from the
power-up timer, stays below the maximum leaves the power-up and its effects in place, with
that sum in the timer. -/
theorem Player.runUpdates_powerUp (t : PowerUpType) (steps : List (ℚ × ℚ)) :
    ∀ p : Player, p.powerUpType = some t → (∀ s ∈ steps, 0 ≤ s.1) →
      Binary64.round p.powerUpTime = p.powerUpTime →
      Binary64.sumFrom p.powerUpTime (steps.map Prod.fst) < 10000 →
      (p.runUpdates steps).powerUpType = some t ∧
      (p.runUpdates steps).powerUpTime = Binary64.sumFrom p.powerUpTime (steps.map Prod.fst) ∧
      (p.runUpdates steps).shootCooldownTime = p.shootCooldownTime ∧
      (p.runUpdates steps).bulletColor = p.bulletColor := by
  induction steps with
  | nil => intro p ht _ _ _; simp [Player.runUpdates, ht, Binary64.sumFrom]
  | cons s rest ih =>
    intro p ht hnn hdbl hlt
    simp only [List.map_cons, Binary64.sumFrom_cons] at hlt ⊢
    have hrest : ∀ x ∈ rest.map Prod.fst, 0 ≤ x := by
      intro x hx
      obtain ⟨s', hs', rfl⟩ := List.mem_map.mp hx
      exact hnn s' (List.mem_cons_of_mem _ hs')
    have hstep := Player.update_powerUp_of_lt s.1 s.2 p t ht
      (lt_of_le_of_lt (Binary64.le_sumFrom _ _ (Binary64.round_round _) hrest) hlt)
    have := ih (p.update s.1 s.2) hstep.1
      (fun s' hs' => hnn s' (List.mem_cons_of_mem _ hs'))
      (by rw [hstep.2.1]; exact Binary64.round_round _) (by rw [hstep.2.1]; exact hlt)
    simp only [Player.runUpdates, List.foldl_cons] at this ⊢
    refine ⟨this.1, ?_, ?_, ?_⟩
    · rw [this.2.1, hstep.2.1]
    · rw [this.2.2.1, hstep.2.2.1]
    · rw [this.2.2.2, hstep.2.2.2]

/-! ## Theorems on the player -/

/-- The effect of `Player.takeDamage` on a player that is not invulnerable, and on one that
is. -/
theorem Player.takeDamage_cases (p : Player) :
    (p.isInvulnerable = false →
      p.takeDamage.1 = true ∧ p.takeDamage.2.lives = p.lives - 1 ∧
      p.takeDamage.2.isInvulnerable = true ∧ p.takeDamage.2.invulnerabilityTime = 0) ∧
    (p.isInvulnerable = true → p.takeDamage = (false, p)) := by
  cases hi : p.isInvulnerable <;> simp [Player.takeDamage, hi]

/-- C1. `Player.takeDamage()` returns `true` exactly when the player was not invulnerable.
In that case lives drops by exactly 1, invulnerability is active with its timer at 0, and the
power-up is cleared (type none, time 0, cooldown time 300, default bullet colour). When the
player was invulnerable, `false` is returned and the player is unchanged. -/
theorem takeDamage_contract (p : Player) :
    p.takeDamage.1 = (!p.isInvulnerable) ∧
    (p.isInvulnerable = false →
      p.takeDamage.2.lives = p.lives - 1 ∧
      p.takeDamage.2.isInvulnerable = true ∧
      p.takeDamage.2.invulnerabilityTime = 0 ∧
      p.takeDamage.2.powerUpType = none ∧
      p.takeDamage.2.powerUpTime = 0 ∧
      p.takeDamage.2.shootCooldownTime = 300 ∧
      p.takeDamage.2.bulletColor = Player.defaultBulletColor) ∧
    (p.isInvulnerable = true → p.takeDamage.2 = p) := by
  cases hi : p.isInvulnerable <;> simp [Player.takeDamage, hi]

/-- C1, at a fresh player hit once and then hit again. -/
theorem takeDamage_contract_witness :
    (Player.new 400 500 40 40).takeDamage.2.lives = 3 - 1 ∧
    (Player.new 400 500 40 40).takeDamage.2.takeDamage.2
      = (Player.new 400 500 40 40).takeDamage.2 :=
  ⟨((takeDamage_contract (Player.new 400 500 40 40)).2.1 rfl).1,
   (takeDamage_contract (Player.new 400 500 40 40).takeDamage.2).2.2 rfl⟩

/-- C2, counterexample: a fresh player is hit, updated 120 times with the time step
16.666666666666664 ms and hit again. The time steps are non-negative and sum to less than
2000 ms, but the timer that `update` accumulates reaches 2000.0000000000034 in the last
update, which ends the invulnerability: the second `takeDamage()` returns `true` and lives
ends at 3 - 2. -/
theorem invulnerability_lost_below_2000 :
    (∀ s ∈ List.replicate 120 (Binary64.round 16.666666666666664, (800 : ℚ)), 0 ≤ s.1) ∧
    ((List.replicate 120 (Binary64.round 16.666666666666664, (800 : ℚ))).map Prod.fst).sum
      < 2000 ∧
    (Player.new 400 500 40 40).isInvulnerable = false ∧
    (((Player.new 400 500 40 40).takeDamage.2.runUpdates
      (List.replicate 120 (Binary64.round 16.666666666666664, 800))).takeDamage.1 = true) ∧
    (((Player.new 400 500 40 40).takeDamage.2.runUpdates
      (List.replicate 120 (Binary64.round 16.666666666666664, 800))).takeDamage.2.lives
        = 3 - 2) := by
  have hacc : (2000 : ℚ)
      ≤ Binary64.sumFrom (Player.new 400 500 40 40).takeDamage.2.invulnerabilityTime
        ((List.replicate 120 (Binary64.round 16.666666666666664, (800 : ℚ))).map Prod.fst) := by
    set_option maxRecDepth 100000 in decide!
  have hrun := Player.runUpdates_vulnerable
    (List.replicate 120 (Binary64.round 16.666666666666664, (800 : ℚ)))
    (Player.new 400 500 40 40).takeDamage.2 rfl (by decide!) hacc
  have htd := (Player.takeDamage_cases ((Player.new 400 500 40 40).takeDamage.2.runUpdates
    (List.replicate 120 (Binary64.round 16.666666666666664, 800)))).1 hrun.1
  refine ⟨?_, ?_, rfl, htd.1, ?_⟩
  · intro s hs
    rw [List.eq_of_mem_replicate hs]
    decide!
  · set_option maxRecDepth 100000 in decide!
  · rw [htd.2.1, hrun.2]
    decide

/-- C2, amended. For a player that is not invulnerable, `takeDamage()`, then any sequence of
`update` calls with non-negative time steps, then `takeDamage()` again: the first call returns
`true`; the second call returns `false` exactly when the sum of the time steps as `update`
accumulates it, every addition rounded to binary64, is below 2000 ms, and lives then ends at
the original value minus 1; otherwise the second call takes a second life. For time steps that
are whole multiples of `2 ^ (-j)` ms, `j ≤ 39` (of 1 ms for `j = 0`), and sum to less than
2000 ms, no addition rounds: the second call returns `false` and lives ends at the original
value minus 1. -/
theorem invulnerability_idempotence (p : Player) (steps : List (ℚ × ℚ))
    (hp : p.isInvulnerable = false) (hnn : ∀ s ∈ steps, 0 ≤ s.1) :
    p.takeDamage.1 = true ∧
    ((p.takeDamage.2.runUpdates steps).takeDamage.1 = false ↔
      Binary64.sumFrom 0 (steps.map Prod.fst) < 2000) ∧
    (Binary64.sumFrom 0 (steps.map Prod.fst) < 2000 →
      (p.takeDamage.2.runUpdates steps).takeDamage.2.lives = p.lives - 1) ∧
    (2000 ≤ Binary64.sumFrom 0 (steps.map Prod.fst) →
      (p.takeDamage.2.runUpdates steps).takeDamage.2.lives = p.lives - 2) ∧
    (∀ j : ℕ, j ≤ 39 → (∀ s ∈ steps, ∃ n : ℕ, s.1 = (n : ℚ) / 2 ^ j) →
      (steps.map Prod.fst).sum < 2000 →
      (p.takeDamage.2.runUpdates steps).takeDamage.1 = false ∧
      (p.takeDamage.2.runUpdates steps).takeDamage.2.lives = p.lives - 1) := by
  have h1 := (Player.takeDamage_cases p).1 hp
  have hlt : Binary64.sumFrom 0 (steps.map Prod.fst) < 2000 →
      (p.takeDamage.2.runUpdates steps).takeDamage.1 = false ∧
      (p.takeDamage.2.runUpdates steps).takeDamage.2.lives = p.lives - 1 := by
    intro hsum
    have hrun := Player.runUpdates_invulnerable steps p.takeDamage.2 h1.2.2.1 hnn
      (by rw [h1.2.2.2]; exact Binary64.round_zero) (by rw [h1.2.2.2]; exact hsum)
    have h2 := (Player.takeDamage_cases (p.takeDamage.2.runUpdates steps)).2 hrun.1
    rw [h2]
    exact ⟨rfl, by simp only; rw [hrun.2.2, h1.2.1]⟩
  have hge : 2000 ≤ Binary64.sumFrom 0 (steps.map Prod.fst) →
      (p.takeDamage.2.runUpdates steps).takeDamage.1 = true ∧
      (p.takeDamage.2.runUpdates steps).takeDamage.2.lives = p.lives - 2 := by
    intro hsum
    have hrun := Player.runUpdates_vulnerable steps p.takeDamage.2 h1.2.2.1
      (by rw [h1.2.2.2]; norm_num) (by rw [h1.2.2.2]; exact hsum)
    have h2 := (Player.takeDamage_cases (p.takeDamage.2.runUpdates steps)).1 hrun.1
    refine ⟨h2.1, ?_⟩
    rw [h2.2.1, hrun.2, h1.2.1]
    ring
  refine ⟨h1.1, ?_, fun h => (hlt h).2, fun h => (hge h).2, ?_⟩
  · constructor
    · intro hfalse
      by_contra hcon
      have := (hge (not_lt.mp hcon)).1
      rw [hfalse] at this
      exact absurd this (by decide)
    · exact fun h => (hlt h).1
  · intro j hj hgrid hsum
    apply hlt
    rw [Binary64.sumFrom_zero_grid j hj _ 2000 (by norm_num) (by
      intro x hx
      obtain ⟨s, hs, rfl⟩ := List.mem_map.mp hx
      exact hgrid s hs) hsum]
    exact hsum

/-- C2 amended, at a fresh player and three updates of 16, 1000 and 983 ms. -/
theorem invulnerability_idempotence_witness :
    ((Player.new 400 500 40 40).takeDamage.2.runUpdates
      [(16, 800), (1000, 800), (983, 800)]).takeDamage.2.lives = 3 - 1 :=
  ((invulnerability_idempotence (Player.new 400 500 40 40) [(16, 800), (1000, 800), (983, 800)]
    rfl (by decide!)).2.2.2.2 0 (by decide)
      (by
        intro s hs
        simp only [List.mem_cons, List.mem_singleton, List.not_mem_nil, or_false] at hs
        rcases hs with rfl | rfl | rfl
        · exact ⟨16, by norm_num⟩
        · exact ⟨1000, by norm_num⟩
        · exact ⟨983, by norm_num⟩)
      (by decide!)).2

/-- C3, the code at the failing input: a fresh player takes `rapidFire`, then `tripleShot`,
then shoots. Three bullets are appended, but the cooldown is set to 100 ms, not to the 300 ms default:
`applyPowerUp('tripleShot')` leaves `shootCooldownTime` at the 100 that `rapidFire` wrote. -/
theorem tripleShot_after_rapidFire_keeps_cooldown_100 :
    (((Player.new 400 500 40 40).applyPowerUp PowerUpType.rapidFire).applyPowerUp
        PowerUpType.tripleShot).powerUpType = some PowerUpType.tripleShot ∧
    (((Player.new 400 500 40 40).applyPowerUp PowerUpType.rapidFire).applyPowerUp
        PowerUpType.tripleShot).shoot.bullets.length = 3 ∧
    (((Player.new 400 500 40 40).applyPowerUp PowerUpType.rapidFire).applyPowerUp
        PowerUpType.tripleShot).shoot.shootCooldown = 100 ∧
    (((Player.new 400 500 40 40).applyPowerUp PowerUpType.rapidFire).applyPowerUp
        PowerUpType.tripleShot).shoot.shootCooldown ≠ 300 := by
  decide!

/-- C4, the code at the failing input: a fresh player takes `shield` and is updated once with
2000 ms. The power-up is still `shield` (2000 of its 10000 ms have passed), but the player is
no longer invulnerable and `takeDamage()` returns `true`: the shield shares the
invulnerability timer, which runs out at 2000 ms. -/
theorem shield_ends_after_2000 :
    (((Player.new 400 500 40 40).applyPowerUp PowerUpType.shield).update 2000 800).powerUpType
      = some PowerUpType.shield ∧
    (((Player.new 400 500 40 40).applyPowerUp PowerUpType.shield).update 2000 800).isInvulnerable
      = false ∧
    (((Player.new 400 500 40 40).applyPowerUp PowerUpType.shield).update 2000 800).takeDamage.1
      = true := by
  decide!

/-- C5, counterexample: three hits on a fresh player, each followed by an update of 2000 ms,
lead to a state with lives 0 that is not invulnerable; one more `takeDamage()` gives lives
-1. -/
theorem lives_not_clamped :
    ((((((Player.new 400 500 40 40).takeDamage.2.update 2000 800).takeDamage.2.update
        2000 800).takeDamage.2.update 2000 800)).lives = 0) ∧
    ((((((Player.new 400 500 40 40).takeDamage.2.update 2000 800).takeDamage.2.update
        2000 800).takeDamage.2.update 2000 800)).takeDamage.2.lives = -1) := by
  decide!

/-- C5, amended. `takeDamage()` takes one life from a player that is not invulnerable and
none from one that is; so lives stays non-negative after the call whenever it was at least 1
before, or at least 0 with the player invulnerable. -/
theorem takeDamage_lives_nonneg (p : Player)
    (h : 1 ≤ p.lives ∨ (p.isInvulnerable = true ∧ 0 ≤ p.lives)) :
    p.takeDamage.2.lives = (if p.isInvulnerable then p.lives else p.lives - 1) ∧
    0 ≤ p.takeDamage.2.lives := by
  cases hi : p.isInvulnerable
  · have h1 : 1 ≤ p.lives := by
      rcases h with h | h
      · exact h
      · rw [hi] at h; exact absurd h.1 (by decide)
    simp only [Player.takeDamage, hi]
    simp
    omega
  · have h0 : 0 ≤ p.lives := by
      rcases h with h | h
      · omega
      · exact h.2
    simp only [Player.takeDamage, hi]
    simpa using h0

/-- C5 amended, at a fresh player. -/
theorem takeDamage_lives_nonneg_witness :
    0 ≤ (Player.new 400 500 40 40).takeDamage.2.lives :=
  (takeDamage_lives_nonneg (Player.new 400 500 40 40) (Or.inl (by decide))).2

/-- C19, counterexample: a fresh player takes `rapidFire` and is updated 600 times with the
time step `1000 / 60` ms. The time steps are non-negative, the first 599 sum to less than
10000 ms and all 600 to more, but the timer that `update` accumulates is 9999.999999999995
after the last update: the power-up is still `rapidFire` and the cooldown time is still 100. -/
theorem powerUp_kept_at_10000 :
    (∀ s ∈ List.replicate 600 (Binary64.round (1000 / 60), (800 : ℚ)), 0 ≤ s.1) ∧
    ((List.replicate 599 (Binary64.round (1000 / 60), (800 : ℚ))).map Prod.fst).sum < 10000 ∧
    10000 ≤ ((List.replicate 600 (Binary64.round (1000 / 60), (800 : ℚ))).map Prod.fst).sum ∧
    (((Player.new 400 500 40 40).applyPowerUp PowerUpType.rapidFire).runUpdates
      (List.replicate 600 (Binary64.round (1000 / 60), 800))).powerUpType
        = some PowerUpType.rapidFire ∧
    (((Player.new 400 500 40 40).applyPowerUp PowerUpType.rapidFire).runUpdates
      (List.replicate 600 (Binary64.round (1000 / 60), 800))).shootCooldownTime = 100 := by
  have hmap : (List.replicate 600 (Binary64.round (1000 / 60), (800 : ℚ))).map Prod.fst
      = List.replicate 300 (Binary64.round (1000 / 60))
        ++ List.replicate 300 (Binary64.round (1000 / 60)) := by
    rw [List.map_replicate, ← List.replicate_add]
  have h1 : Binary64.sumFrom 0 (List.replicate 300 (Binary64.round (1000 / 60)))
      = 2748779069440001 / 549755813888 := by
    set_option maxRecDepth 100000 in decide!
  have h2 : Binary64.sumFrom (2748779069440001 / 549755813888)
      (List.replicate 300 (Binary64.round (1000 / 60))) < 10000 := by
    set_option maxRecDepth 100000 in decide!
  have hacc : Binary64.sumFrom
      ((Player.new 400 500 40 40).applyPowerUp PowerUpType.rapidFire).powerUpTime
      ((List.replicate 600 (Binary64.round (1000 / 60), (800 : ℚ))).map Prod.fst) < 10000 := by
    rw [hmap, Binary64.sumFrom_append]
    have h0 : ((Player.new 400 500 40 40).applyPowerUp PowerUpType.rapidFire).powerUpTime = 0 :=
      rfl
    rw [h0, h1]
    exact h2
  have hnn : ∀ s ∈ List.replicate 600 (Binary64.round (1000 / 60), (800 : ℚ)), 0 ≤ s.1 := by
    intro s hs
    rw [List.eq_of_mem_replicate hs]
    decide!
  have hrun := Player.runUpdates_powerUp PowerUpType.rapidFire
    (List.replicate 600 (Binary64.round (1000 / 60), (800 : ℚ)))
    ((Player.new 400 500 40 40).applyPowerUp PowerUpType.rapidFire) rfl hnn
    Binary64.round_zero hacc
  refine ⟨hnn, ?_, ?_, hrun.1, ?_⟩
  · rw [List.map_replicate, List.sum_replicate]
    decide!
  · rw [List.map_replicate, List.sum_replicate]
    decide!
  · rw [hrun.2.2.1]
    rfl

/-- C19, amended. After `applyPowerUp(type)`, a sequence of `update` calls with non-negative
time steps whose sum as `update` accumulates it, every addition rounded to binary64, is below
10000 ms leaves the power-up active with that sum as its time and its effects untouched; the
next update resets the power-up to none, its time to 0, the cooldown time to 300 and the
bullet colour to the default exactly when its rounded sum reaches 10000 ms, and otherwise
keeps the power-up. For time steps that are whole multiples of `2 ^ (-j)` ms, `j ≤ 39` (of
1 ms for `j = 0`), no addition rounds: while they sum to less than 10000 ms the power-up stays
active with that time, and an update that brings the sum to 10000 ms or more resets it. -/
theorem powerUp_window (p : Player) (t : PowerUpType) (steps : List (ℚ × ℚ)) (dt w : ℚ)
    (hnn : ∀ s ∈ steps, 0 ≤ s.1) :
    (Binary64.sumFrom 0 (steps.map Prod.fst) < 10000 →
      ((p.applyPowerUp t).runUpdates steps).powerUpType = some t ∧
      ((p.applyPowerUp t).runUpdates steps).powerUpTime
        = Binary64.sumFrom 0 (steps.map Prod.fst) ∧
      ((p.applyPowerUp t).runUpdates steps).shootCooldownTime
        = (p.applyPowerUp t).shootCooldownTime ∧
      ((p.applyPowerUp t).runUpdates steps).bulletColor = (p.applyPowerUp t).bulletColor ∧
      (10000 ≤ Binary64.round (Binary64.sumFrom 0 (steps.map Prod.fst) + dt) →
        (((p.applyPowerUp t).runUpdates steps).update dt w).powerUpType = none ∧
        (((p.applyPowerUp t).runUpdates steps).update dt w).powerUpTime = 0 ∧
        (((p.applyPowerUp t).runUpdates steps).update dt w).shootCooldownTime = 300 ∧
        (((p.applyPowerUp t).runUpdates steps).update dt w).bulletColor
          = Player.defaultBulletColor) ∧
      (Binary64.round (Binary64.sumFrom 0 (steps.map Prod.fst) + dt) < 10000 →
        (((p.applyPowerUp t).runUpdates steps).update dt w).powerUpType = some t ∧
        (((p.applyPowerUp t).runUpdates steps).update dt w).powerUpTime
          = Binary64.round (Binary64.sumFrom 0 (steps.map Prod.fst) + dt))) ∧
    (∀ j : ℕ, j ≤ 39 → (∀ s ∈ steps, ∃ n : ℕ, s.1 = (n : ℚ) / 2 ^ j) →
      (steps.map Prod.fst).sum < 10000 →
      ((p.applyPowerUp t).runUpdates steps).powerUpType = some t ∧
      ((p.applyPowerUp t).runUpdates steps).powerUpTime = (steps.map Prod.fst).sum ∧
      ((p.applyPowerUp t).runUpdates steps).shootCooldownTime
        = (p.applyPowerUp t).shootCooldownTime ∧
      ((p.applyPowerUp t).runUpdates steps).bulletColor = (p.applyPowerUp t).bulletColor ∧
      (10000 ≤ (steps.map Prod.fst).sum + dt →
        (((p.applyPowerUp t).runUpdates steps).update dt w).powerUpType = none ∧
        (((p.applyPowerUp t).runUpdates steps).update dt w).powerUpTime = 0 ∧
        (((p.applyPowerUp t).runUpdates steps).update dt w).shootCooldownTime = 300 ∧
        (((p.applyPowerUp t).runUpdates steps).update dt w).bulletColor
          = Player.defaultBulletColor)) := by
  have ht : (p.applyPowerUp t).powerUpType = some t := by cases t <;> rfl
  have h0 : (p.applyPowerUp t).powerUpTime = 0 := by cases t <;> rfl
  have key : Binary64.sumFrom 0 (steps.map Prod.fst) < 10000 →
      ((p.applyPowerUp t).runUpdates steps).powerUpType = some t ∧
      ((p.applyPowerUp t).runUpdates steps).powerUpTime
        = Binary64.sumFrom 0 (steps.map Prod.fst) ∧
      ((p.applyPowerUp t).runUpdates steps).shootCooldownTime
        = (p.applyPowerUp t).shootCooldownTime ∧
      ((p.applyPowerUp t).runUpdates steps).bulletColor = (p.applyPowerUp t).bulletColor := by
    intro hsum
    have hrun := Player.runUpdates_powerUp t steps (p.applyPowerUp t) ht hnn
      (by rw [h0]; exact Binary64.round_zero) (by rw [h0]; exact hsum)
    rw [h0] at hrun
    exact hrun
  constructor
  · intro hsum
    have hrun := key hsum
    refine ⟨hrun.1, hrun.2.1, hrun.2.2.1, hrun.2.2.2, ?_, ?_⟩
    · intro hge
      exact Player.update_powerUp_of_ge dt w ((p.applyPowerUp t).runUpdates steps) t hrun.1
        (by rw [hrun.2.1]; exact hge)
    · intro hlt
      have := Player.update_powerUp_of_lt dt w ((p.applyPowerUp t).runUpdates steps) t hrun.1
        (by rw [hrun.2.1]; exact hlt)
      exact ⟨this.1, by rw [this.2.1, hrun.2.1]⟩
  · intro j hj hgrid hsum
    have hexact := Binary64.sumFrom_zero_grid j hj (steps.map Prod.fst) 10000 (by norm_num) (by
      intro x hx
      obtain ⟨s, hs, rfl⟩ := List.mem_map.mp hx
      exact hgrid s hs) hsum
    have hrun := key (by rw [hexact]; exact hsum)
    rw [hexact] at hrun
    refine ⟨hrun.1, hrun.2.1, hrun.2.2.1, hrun.2.2.2, ?_⟩
    intro hge
    apply Player.update_powerUp_of_ge dt w ((p.applyPowerUp t).runUpdates steps) t hrun.1
    rw [hrun.2.1]
    have h10 : Binary64.round 10000 = 10000 := by decide!
    have := Binary64.round_mono hge
    rwa [h10] at this

/-- C19 amended, at a fresh player with `rapidFire`, two updates of 4000 and 5999 ms, then one
of 1 ms. -/
theorem powerUp_window_witness :
    (((Player.new 400 500 40 40).applyPowerUp PowerUpType.rapidFire).runUpdates
      [(4000, 800), (5999, 800)]).powerUpType = some PowerUpType.rapidFire ∧
    ((((Player.new 400 500 40 40).applyPowerUp PowerUpType.rapidFire).runUpdates
      [(4000, 800), (5999, 800)]).update 1 800).powerUpType = none :=
  have h := (powerUp_window (Player.new 400 500 40 40) PowerUpType.rapidFire
    [(4000, 800), (5999, 800)] 1 800 (by decide!)).2 0 (by decide)
      (by
        intro s hs
        simp only [List.mem_cons, List.mem_singleton, List.not_mem_nil, or_false] at hs
        rcases hs with rfl | rfl
        · exact ⟨4000, by norm_num⟩
        · exact ⟨5999, by norm_num⟩)
      (by decide!)
  ⟨h.1, (h.2.2.2.2 (by decide!)).1⟩

/-- C20. `Player.update(deltaTime, canvasWidth)` with `canvasWidth` at least twice the radius:
the new `x` is `clamp(x - 5·[isMovingLeft] + 5·[isMovingRight], radius, canvasWidth - radius)`,
so it lies between `radius` and `canvasWidth - radius`; with both flags set, an `x` already
between those bounds is unchanged. -/
theorem update_x_clamped (dt w : ℚ) (p : Player) (hw : 2 * p.radius ≤ w) :
    (p.update dt w).x
      = Utils.clamp (p.x - (if p.isMovingLeft then 5 else 0) + (if p.isMovingRight then 5 else 0))
          p.radius (w - p.radius) ∧
    p.radius ≤ (p.update dt w).x ∧ (p.update dt w).x ≤ w - p.radius ∧
    (p.isMovingLeft = true → p.isMovingRight = true → p.radius ≤ p.x → p.x ≤ w - p.radius →
      (p.update dt w).x = p.x) := by
  have hx := (Player.update_fields dt w p).1
  simp only at hx
  have hform : (p.update dt w).x
      = Utils.clamp (p.x - (if p.isMovingLeft then 5 else 0)
          + (if p.isMovingRight then 5 else 0)) p.radius (w - p.radius) := by
    rw [hx]
    simp only [Player.updateMovement, Player.speed]
    cases p.isMovingLeft <;> cases p.isMovingRight <;> simp
  have hle : p.radius ≤ w - p.radius := by linarith
  refine ⟨hform, ?_, ?_, ?_⟩
  · rw [hform]; simp only [Utils.clamp]; exact le_min (le_max_right _ _) hle
  · rw [hform]; simp only [Utils.clamp]; exact min_le_right _ _
  · intro hl hr h1 h2
    rw [hform, hl, hr]
    simp only [Utils.clamp, if_true]
    have : p.x - 5 + 5 = p.x := by ring
    rw [this, max_eq_left h1, min_eq_left h2]

/-- C20, at a fresh player of radius 20 on a canvas 800 wide, moving left from `x = 22`. -/
theorem update_x_clamped_witness :
    (20 : ℚ) ≤ ({ Player.new 22 500 40 40 with isMovingLeft := true }.update 16 800).x :=
  have h := update_x_clamped 16 800 { Player.new 22 500 40 40 with isMovingLeft := true }
    (by decide!)
  le_of_eq_of_le (by decide!) h.2.1

/-! ## Theorems on asteroids -/

theorem Asteroid.radius_pos (a : Asteroid) : 0 < a.radius := by
  unfold Asteroid.radius
  split_ifs <;> norm_num

theorem Asteroid.asteroid_radius_after_update (dt W H : ℚ) (a : Asteroid) :
    (a.update dt W H).radius = a.radius := rfl

/-- One call of `Asteroid.update` on a canvas of non-negative size leaves the asteroid inside
the wrap margin. -/
theorem Asteroid.update_in_margin (dt W H : ℚ) (a : Asteroid) (hW : 0 ≤ W) (hH : 0 ≤ H) :
    -a.radius ≤ (a.update dt W H).x ∧ (a.update dt W H).x ≤ W + a.radius ∧
    -a.radius ≤ (a.update dt W H).y ∧ (a.update dt W H).y ≤ H + a.radius := by
  have hr := a.radius_pos
  simp only [Asteroid.update]
  refine ⟨?_, ?_, ?_, ?_⟩ <;> split_ifs <;> linarith

/-- C11. Wrap invariant: on a canvas with width and height at least 0, after every non-empty
sequence of `Asteroid.update` calls, from any position and with any velocity, `x` lies
between `-radius` and `canvasWidth + radius` and `y` between `-radius` and
`canvasHeight + radius`. -/
theorem wrap_invariant (W H : ℚ) (hW : 0 ≤ W) (hH : 0 ≤ H) (dts : List ℚ) (hne : dts ≠ [])
    (a : Asteroid) :
    -a.radius ≤ (a.runUpdates W H dts).x ∧ (a.runUpdates W H dts).x ≤ W + a.radius ∧
    -a.radius ≤ (a.runUpdates W H dts).y ∧ (a.runUpdates W H dts).y ≤ H + a.radius := by
  induction dts generalizing a with
  | nil => exact absurd rfl hne
  | cons dt rest ih =>
    by_cases hrest : rest = []
    · subst hrest
      exact Asteroid.update_in_margin dt W H a hW hH
    · have := ih hrest (a.update dt W H)
      rw [Asteroid.asteroid_radius_after_update] at this
      exact this

/-- C11, at a large asteroid leaving an 800 by 600 canvas to the left. -/
theorem wrap_invariant_witness :
    (-45 : ℚ) ≤ ((⟨-44, 300, 3, 2, 0, 0, 0, -2, 0⟩ : Asteroid).runUpdates 800 600 [16, 16]).x ∧
    ((⟨-44, 300, 3, 2, 0, 0, 0, -2, 0⟩ : Asteroid).runUpdates 800 600 [16, 16]).x
      ≤ 800 + 45 :=
  have h := wrap_invariant 800 600 (by decide!) (by decide!) [16, 16] (by decide)
    ⟨-44, 300, 3, 2, 0, 0, 0, -2, 0⟩
  ⟨le_of_eq_of_le (by decide!) h.1, le_of_le_of_eq h.2.1 (by decide!)⟩

/-- Half the radius of an asteroid is a binary64 number. -/
theorem Asteroid.round_half_radius (a : Asteroid) :
    Binary64.round (a.radius * 0.5) = a.radius * 0.5 := by
  unfold Asteroid.radius
  split_ifs
  · decide!
  · decide!
  · decide!

/-- C12, counterexample: a size-2 asteroid at (100, 100) breaks with the angle draw 0.0005.
The angle is 0.0031415926535897933, and with the binary64 values of its cosine and sine each
child is centred at (114.99992597802787, 100.04712381228819), at a distance from the parent
whose square is above `(30 * 0.5)²`. -/
theorem break_children_off_half_radius :
    ((⟨100, 100, 2, 1, 0, 0, 0, 0, 1⟩ : Asteroid).break Examples.env64
        (fun _ => Examples.smallAngle)).length = 2 ∧
    ∀ c ∈ (⟨100, 100, 2, 1, 0, 0, 0, 0, 1⟩ : Asteroid).break Examples.env64
        (fun _ => Examples.smallAngle),
      c.x = Binary64.round 114.99992597802787 ∧ c.y = Binary64.round 100.04712381228819 ∧
      (c.x - 100) ^ 2 + (c.y - 100) ^ 2
        ≠ ((⟨100, 100, 2, 1, 0, 0, 0, 0, 1⟩ : Asteroid).radius * 0.5) ^ 2 ∧
      ((⟨100, 100, 2, 1, 0, 0, 0, 0, 1⟩ : Asteroid).radius * 0.5) ^ 2
        < (c.x - 100) ^ 2 + (c.y - 100) ^ 2 := by
  decide!

/-- C12, amended. `Asteroid.break()` of an asteroid of size 1 yields no child, and of an
asteroid of size above 1 exactly two children, one for each round of the loop; a size-3
asteroid gives two children of size 2; the call leaves the parent as it was. Each child has
the size below, the binary64 product of the parent's speed and 1.2 as its speed, and is
centred at the parent's position plus `Math.cos(angle)` and `Math.sin(angle)` times
`radius * 0.5`, products and sums rounded to binary64, `angle` being the angle drawn for it.
With a cosine (sine) of absolute value at most 1, the child's `x` (`y`) lies between the
rounded `x - radius * 0.5` and `x + radius * 0.5` (`y - radius * 0.5` and
`y + radius * 0.5`). -/
theorem break_split (env : MathEnv) (d : ℕ → ChildDraws) (a : Asteroid) :
    (a.size = 1 → a.break env d = []) ∧
    (1 < a.size →
      a.break env d = [Asteroid.breakChild env (d 0) a, Asteroid.breakChild env (d 1) a]) ∧
    (a.size = 3 → ∃ c0 c1, a.break env d = [c0, c1] ∧ c0.size = 2 ∧ c1.size = 2) ∧
    (a.breakCall env d).1 = a.break env d ∧ (a.breakCall env d).2 = a ∧
    ∀ k : ChildDraws,
      (Asteroid.breakChild env k a).size = a.size - 1 ∧
      (Asteroid.breakChild env k a).speed = Binary64.round (a.speed * Binary64.round 1.2) ∧
      (Asteroid.breakChild env k a).x = Binary64.round
        (a.x + Binary64.round (env.cos (Asteroid.breakAngle env k) * (a.radius * 0.5))) ∧
      (Asteroid.breakChild env k a).y = Binary64.round
        (a.y + Binary64.round (env.sin (Asteroid.breakAngle env k) * (a.radius * 0.5))) ∧
      (|env.cos (Asteroid.breakAngle env k)| ≤ 1 →
        Binary64.round (a.x - a.radius * 0.5) ≤ (Asteroid.breakChild env k a).x ∧
        (Asteroid.breakChild env k a).x ≤ Binary64.round (a.x + a.radius * 0.5)) ∧
      (|env.sin (Asteroid.breakAngle env k)| ≤ 1 →
        Binary64.round (a.y - a.radius * 0.5) ≤ (Asteroid.breakChild env k a).y ∧
        (Asteroid.breakChild env k a).y ≤ Binary64.round (a.y + a.radius * 0.5)) := by
  have hlist : 1 < a.size →
      a.break env d = [Asteroid.breakChild env (d 0) a, Asteroid.breakChild env (d 1) a] := by
    intro h
    simp [Asteroid.break, h, List.range_succ]
  have hh0 : 0 ≤ a.radius * 0.5 := by
    have := Asteroid.radius_pos a
    linarith
  have hx : ∀ k : ChildDraws, (Asteroid.breakChild env k a).x = Binary64.round
      (a.x + Binary64.round (env.cos (Asteroid.breakAngle env k) * (a.radius * 0.5))) := by
    intro k
    simp only [Asteroid.breakChild, Asteroid.new, Asteroid.round_half_radius]
  have hy : ∀ k : ChildDraws, (Asteroid.breakChild env k a).y = Binary64.round
      (a.y + Binary64.round (env.sin (Asteroid.breakAngle env k) * (a.radius * 0.5))) := by
    intro k
    simp only [Asteroid.breakChild, Asteroid.new, Asteroid.round_half_radius]
  refine ⟨?_, hlist, ?_, rfl, rfl, ?_⟩
  · intro h
    simp [Asteroid.break, h]
  · intro h
    exact ⟨_, _, hlist (by omega), by simp [Asteroid.breakChild, Asteroid.new, h],
      by simp [Asteroid.breakChild, Asteroid.new, h]⟩
  · intro k
    refine ⟨rfl, rfl, hx k, hy k, ?_, ?_⟩
    · intro hc
      have hb := Binary64.abs_round_mul_le _ _ hc hh0 (Asteroid.round_half_radius a)
      rw [hx k]
      exact ⟨Binary64.round_mono (by linarith [hb.1]), Binary64.round_mono (by linarith [hb.2])⟩
    · intro hs
      have hb := Binary64.abs_round_mul_le _ _ hs hh0 (Asteroid.round_half_radius a)
      rw [hy k]
      exact ⟨Binary64.round_mono (by linarith [hb.1]), Binary64.round_mono (by linarith [hb.2])⟩

/-- C12 amended, at a size-3 asteroid at (100, 100) with the binary64 library values and the
angle draw 0.0005. -/
theorem break_split_witness :
    (⟨100, 100, 3, 1, 0, 0, 0, 1, 0⟩ : Asteroid).break Examples.env64
        (fun _ => Examples.smallAngle)
      = [Asteroid.breakChild Examples.env64 Examples.smallAngle ⟨100, 100, 3, 1, 0, 0, 0, 1, 0⟩,
         Asteroid.breakChild Examples.env64 Examples.smallAngle ⟨100, 100, 3, 1, 0, 0, 0, 1, 0⟩] ∧
    (Asteroid.breakChild Examples.env64 Examples.smallAngle ⟨100, 100, 3, 1, 0, 0, 0, 1, 0⟩).x
      ≤ Binary64.round (100 + 45 * 0.5) :=
  have h := break_split Examples.env64 (fun _ => Examples.smallAngle)
    ⟨100, 100, 3, 1, 0, 0, 0, 1, 0⟩
  ⟨h.2.1 (by decide), ((h.2.2.2.2.2 Examples.smallAngle).2.2.2.2.1 (by decide!)).2⟩

/-! ## Theorems on the collision test and the asteroid table -/

/-- C13, counterexample: the circle of radius 5 around (0, 0) and the point
(3, 3.9999999999999996). The distance of the centres is below 5, but `dx * dx + dy * dy` is
`25 - 2 ^ (-48)` in binary64 and its square root rounds to 5, so the test returns `false`. -/
theorem circleCollision_misses_below_tangent :
    Utils.circleCollision ⟨0, 0, 5⟩ ⟨3, Binary64.round 3.9999999999999996, 0⟩ = false ∧
    ((0 : ℚ) - 3) ^ 2 + (0 - Binary64.round 3.9999999999999996) ^ 2 < (5 + 0) ^ 2 ∧
    (0 : ℚ) ≤ 5 + 0 := by
  decide!

/-- The collision test on circles whose coordinates and radii are whole multiples of
`2 ^ (-j)`, with centre differences and radius sum of at most 26 bits: no operation rounds in a
way that changes the comparison. -/
theorem Utils.circleCollision_grid (j : ℕ) (hj : j ≤ 537) (x1 y1 r1 x2 y2 r2 : ℤ)
    (hx : |x1 - x2| < 2 ^ 26) (hy : |y1 - y2| < 2 ^ 26) (hr0 : 0 ≤ r1 + r2)
    (hr : r1 + r2 ≤ 2 ^ 26) :
    Utils.circleCollision ⟨x1 / 2 ^ j, y1 / 2 ^ j, r1 / 2 ^ j⟩ ⟨x2 / 2 ^ j, y2 / 2 ^ j, r2 / 2 ^ j⟩
        = true ↔
      (x1 - x2) ^ 2 + (y1 - y2) ^ 2 < (r1 + r2) ^ 2 := by
  have h2j : (0 : ℚ) < 2 ^ j := by positivity
  have hzj : (2 : ℚ) ^ (-(j : ℤ)) = 1 / 2 ^ j := by
    rw [zpow_neg, zpow_natCast, one_div]
  have hz2j : (2 : ℚ) ^ (-((2 * j : ℕ) : ℤ)) = 1 / 4 ^ j := by
    rw [zpow_neg, zpow_natCast, pow_mul, one_div]; norm_num
  have hdx2 : (x1 - x2) ^ 2 < 2 ^ 52 := by
    have := abs_nonneg (x1 - x2)
    have h1 : |x1 - x2| ^ 2 < (2 ^ 26) ^ 2 := by
      apply pow_lt_pow_left₀ hx this (by norm_num)
    rw [sq_abs] at h1
    calc (x1 - x2) ^ 2 < (2 ^ 26) ^ 2 := h1
      _ = 2 ^ 52 := by norm_num
  have hdy2 : (y1 - y2) ^ 2 < 2 ^ 52 := by
    have := abs_nonneg (y1 - y2)
    have h1 : |y1 - y2| ^ 2 < (2 ^ 26) ^ 2 := by
      apply pow_lt_pow_left₀ hy this (by norm_num)
    rw [sq_abs] at h1
    calc (y1 - y2) ^ 2 < (2 ^ 26) ^ 2 := h1
      _ = 2 ^ 52 := by norm_num
  -- the differences
  have edx : Binary64.round ((x1 : ℚ) / 2 ^ j - x2 / 2 ^ j) = ((x1 - x2 : ℤ) : ℚ) / 2 ^ j := by
    have := Binary64.round_dyadic (x1 - x2) (-(j : ℤ)) (by
      have : |x1 - x2| ≤ 2 ^ 26 := le_of_lt hx
      exact le_trans this (by norm_num)) (by omega)
    rw [hzj] at this
    rw [show (x1 : ℚ) / 2 ^ j - x2 / 2 ^ j = ((x1 - x2 : ℤ) : ℚ) * (1 / 2 ^ j) by
      push_cast; ring, this]
    ring
  have edy : Binary64.round ((y1 : ℚ) / 2 ^ j - y2 / 2 ^ j) = ((y1 - y2 : ℤ) : ℚ) / 2 ^ j := by
    have := Binary64.round_dyadic (y1 - y2) (-(j : ℤ)) (by
      have : |y1 - y2| ≤ 2 ^ 26 := le_of_lt hy
      exact le_trans this (by norm_num)) (by omega)
    rw [hzj] at this
    rw [show (y1 : ℚ) / 2 ^ j - y2 / 2 ^ j = ((y1 - y2 : ℤ) : ℚ) * (1 / 2 ^ j) by
      push_cast; ring, this]
    ring
  -- the squares
  have esq : ∀ v : ℤ, v ^ 2 < 2 ^ 52 →
      Binary64.round (((v : ℤ) : ℚ) / 2 ^ j * (((v : ℤ) : ℚ) / 2 ^ j))
        = ((v ^ 2 : ℤ) : ℚ) / 4 ^ j := by
    intro v hv
    have := Binary64.round_dyadic (v ^ 2) (-((2 * j : ℕ) : ℤ)) (by
      rw [abs_of_nonneg (sq_nonneg v)]
      exact le_trans (le_of_lt hv) (by norm_num)) (by push_cast; omega)
    rw [hz2j] at this
    have e4 : (4 : ℚ) ^ j = 2 ^ j * 2 ^ j := by rw [← mul_pow]; norm_num
    rw [show ((v : ℤ) : ℚ) / 2 ^ j * (((v : ℤ) : ℚ) / 2 ^ j) = ((v ^ 2 : ℤ) : ℚ) * (1 / 4 ^ j) by
      push_cast; rw [e4]; field_simp; ring, this]
    ring
  -- the sum of the squares
  have hsum53 : (x1 - x2) ^ 2 + (y1 - y2) ^ 2 < 2 ^ 53 := by
    have : (2 : ℤ) ^ 53 = 2 ^ 52 + 2 ^ 52 := by norm_num
    omega
  have hsum0 : 0 ≤ (x1 - x2) ^ 2 + (y1 - y2) ^ 2 := by positivity
  have esum : Binary64.round (((((x1 - x2) ^ 2 : ℤ)) : ℚ) / 4 ^ j
      + ((((y1 - y2) ^ 2 : ℤ)) : ℚ) / 4 ^ j)
        = ((((x1 - x2) ^ 2 + (y1 - y2) ^ 2 : ℤ)) : ℚ) / 4 ^ j := by
    have := Binary64.round_dyadic ((x1 - x2) ^ 2 + (y1 - y2) ^ 2) (-((2 * j : ℕ) : ℤ)) (by
      rw [abs_of_nonneg hsum0]
      exact le_of_lt hsum53) (by push_cast; omega)
    rw [hz2j] at this
    rw [show ((((x1 - x2) ^ 2 : ℤ)) : ℚ) / 4 ^ j + ((((y1 - y2) ^ 2 : ℤ)) : ℚ) / 4 ^ j
        = ((((x1 - x2) ^ 2 + (y1 - y2) ^ 2 : ℤ)) : ℚ) * (1 / 4 ^ j) by push_cast; ring, this]
    ring
  -- the sum of the radii
  have er : Binary64.round ((r1 : ℚ) / 2 ^ j + r2 / 2 ^ j) = ((r1 + r2 : ℤ) : ℚ) / 2 ^ j := by
    have := Binary64.round_dyadic (r1 + r2) (-(j : ℤ)) (by
      rw [abs_of_nonneg hr0]
      exact le_trans hr (by norm_num)) (by omega)
    rw [hzj] at this
    rw [show (r1 : ℚ) / 2 ^ j + r2 / 2 ^ j = ((r1 + r2 : ℤ) : ℚ) * (1 / 2 ^ j) by
      push_cast; ring, this]
    ring
  simp only [Utils.circleCollision, decide_eq_true_eq]
  rw [edx, edy, esq _ hdx2, esq _ hdy2, esum, er]
  -- to natural numbers
  obtain ⟨n0, hn0⟩ := Int.eq_ofNat_of_zero_le hsum0
  obtain ⟨R0, hR0⟩ := Int.eq_ofNat_of_zero_le hr0
  rw [hn0, hR0]
  have hn53 : n0 < 2 ^ 53 := by
    have : (n0 : ℤ) < 2 ^ 53 := by rw [← hn0]; exact hsum53
    exact_mod_cast this
  have hR26 : R0 ≤ 2 ^ 26 := by
    have : (R0 : ℤ) ≤ 2 ^ 26 := by rw [← hR0]; exact hr
    exact_mod_cast this
  have := Binary64.sqrt_grid j n0 R0 hn53 hR26
  simp only [Int.cast_natCast]
  rw [this]
  constructor
  · intro h; exact_mod_cast h
  · intro h; exact_mod_cast h

/-- C13, amended. `Utils.circleCollision(c1, c2)` is `true` exactly when the binary64 value
of `Math.sqrt(dx * dx + dy * dy)` is below the binary64 value of `r1 + r2`. The test is symmetric in
its two arguments, and it is `true` only if `r1 + r2 > 0`. When the coordinates and the radii
are whole multiples of `2 ^ (-j)`, `j ≤ 537` (integers for `j = 0`), with `|dx|` and `|dy|`
below `2 ^ 26` of these units and `r1 + r2` between 0 and `2 ^ 26` of them, it is `true`
exactly when `dx² + dy² < (r1 + r2)²`, that is when the distance of the centres is strictly
below `r1 + r2`, so such circles that touch do not collide. -/
theorem circleCollision_spec (c1 c2 : Circle) :
    (Utils.circleCollision c1 c2 = true ↔
      Binary64.sqrt (Binary64.round
          (Binary64.round (Binary64.round (c1.x - c2.x) * Binary64.round (c1.x - c2.x))
            + Binary64.round (Binary64.round (c1.y - c2.y) * Binary64.round (c1.y - c2.y))))
        < Binary64.round (c1.radius + c2.radius)) ∧
    Utils.circleCollision c1 c2 = Utils.circleCollision c2 c1 ∧
    (Utils.circleCollision c1 c2 = true → 0 < c1.radius + c2.radius) ∧
    (∀ (j : ℕ) (x1 y1 r1 x2 y2 r2 : ℤ), j ≤ 537 →
      c1 = ⟨x1 / 2 ^ j, y1 / 2 ^ j, r1 / 2 ^ j⟩ → c2 = ⟨x2 / 2 ^ j, y2 / 2 ^ j, r2 / 2 ^ j⟩ →
      |x1 - x2| < 2 ^ 26 → |y1 - y2| < 2 ^ 26 → 0 ≤ r1 + r2 → r1 + r2 ≤ 2 ^ 26 →
      (Utils.circleCollision c1 c2 = true ↔
        (c1.x - c2.x) ^ 2 + (c1.y - c2.y) ^ 2 < (c1.radius + c2.radius) ^ 2) ∧
      ((c1.x - c2.x) ^ 2 + (c1.y - c2.y) ^ 2 = (c1.radius + c2.radius) ^ 2 →
        Utils.circleCollision c1 c2 = false)) := by
  refine ⟨?_, ?_, ?_, ?_⟩
  · simp only [Utils.circleCollision, decide_eq_true_eq]
  · have e1 : Binary64.round (c2.x - c1.x) = -Binary64.round (c1.x - c2.x) := by
      rw [← Binary64.round_neg]; congr 1; ring
    have e2 : Binary64.round (c2.y - c1.y) = -Binary64.round (c1.y - c2.y) := by
      rw [← Binary64.round_neg]; congr 1; ring
    simp only [Utils.circleCollision, e1, e2, neg_mul_neg, add_comm c2.radius c1.radius]
  · intro h
    simp only [Utils.circleCollision, decide_eq_true_eq] at h
    have hpos : 0 < Binary64.round (c1.radius + c2.radius) :=
      lt_of_le_of_lt (Binary64.sqrt_nonneg _) h
    by_contra hcon
    have := Binary64.round_mono (not_lt.mp hcon)
    rw [Binary64.round_zero] at this
    linarith
  · intro j x1 y1 r1 x2 y2 r2 hj hc1 hc2 hx hy hr0 hr
    subst hc1
    subst hc2
    have hgrid := Utils.circleCollision_grid j hj x1 y1 r1 x2 y2 r2 hx hy hr0 hr
    have h2j : (0 : ℚ) < 2 ^ j := by positivity
    have hiff : ((x1 : ℚ) / 2 ^ j - x2 / 2 ^ j) ^ 2 + ((y1 : ℚ) / 2 ^ j - y2 / 2 ^ j) ^ 2
        < ((r1 : ℚ) / 2 ^ j + r2 / 2 ^ j) ^ 2 ↔ (x1 - x2) ^ 2 + (y1 - y2) ^ 2 < (r1 + r2) ^ 2 := by
      have e4 : (0 : ℚ) < (2 ^ j) ^ 2 := by positivity
      rw [show ((x1 : ℚ) / 2 ^ j - x2 / 2 ^ j) ^ 2 + ((y1 : ℚ) / 2 ^ j - y2 / 2 ^ j) ^ 2
          = (((x1 : ℚ) - x2) ^ 2 + ((y1 : ℚ) - y2) ^ 2) / (2 ^ j) ^ 2 by field_simp,
        show ((r1 : ℚ) / 2 ^ j + r2 / 2 ^ j) ^ 2 = ((r1 : ℚ) + r2) ^ 2 / (2 ^ j) ^ 2 by field_simp,
        div_lt_div_iff_of_pos_right e4]
      constructor
      · intro h; exact_mod_cast h
      · intro h; exact_mod_cast h
    refine ⟨hgrid.trans hiff.symm, ?_⟩
    intro heq
    cases hcc : Utils.circleCollision ⟨x1 / 2 ^ j, y1 / 2 ^ j, r1 / 2 ^ j⟩
        ⟨x2 / 2 ^ j, y2 / 2 ^ j, r2 / 2 ^ j⟩
    · rfl
    · have := hiff.mpr (hgrid.mp hcc)
      simp only at heq
      rw [heq] at this
      exact absurd this (lt_irrefl _)

/-- C13 amended, at a bullet of radius 3 at (100, 100) and a circle of radius 30 at
(100, 101), and at two circles of radius 5 that touch. -/
theorem circleCollision_spec_witness :
    (Utils.circleCollision ⟨100, 101, 30⟩ ⟨100, 100, 3⟩ = true ↔
      ((100 : ℚ) - 100) ^ 2 + (101 - 100) ^ 2 < (30 + 3) ^ 2) ∧
    Utils.circleCollision ⟨0, 0, 5⟩ ⟨10, 0, 5⟩ = false :=
  ⟨((circleCollision_spec ⟨100, 101, 30⟩ ⟨100, 100, 3⟩).2.2.2 0 100 101 30 100 100 3 (by decide)
      (by norm_num) (by norm_num) (by decide) (by decide) (by decide) (by decide)).1,
   ((circleCollision_spec ⟨0, 0, 5⟩ ⟨10, 0, 5⟩).2.2.2 0 0 0 5 10 0 5 (by decide)
      (by norm_num) (by norm_num) (by decide) (by decide) (by decide) (by decide)).2
      (by norm_num)⟩

/-- C14. A constructed asteroid has radius 15 and 100 points for size 1, radius 30 and 50
points for size 2, radius 45 and 25 points for size 3; so among the sizes 1, 2, 3 a smaller
size has a strictly smaller radius and a strictly larger point value. -/
theorem asteroid_size_table (env : MathEnv) (d : AsteroidDraws) (x y speed : ℚ) :
    ((Asteroid.new env d x y 1 speed).radius = 15 ∧
      (Asteroid.new env d x y 1 speed).points = 100) ∧
    ((Asteroid.new env d x y 2 speed).radius = 30 ∧
      (Asteroid.new env d x y 2 speed).points = 50) ∧
    ((Asteroid.new env d x y 3 speed).radius = 45 ∧
      (Asteroid.new env d x y 3 speed).points = 25) ∧
    ∀ s t : ℤ, 1 ≤ s → s < t → t ≤ 3 →
      (Asteroid.new env d x y s speed).radius < (Asteroid.new env d x y t speed).radius ∧
      (Asteroid.new env d x y t speed).points < (Asteroid.new env d x y s speed).points := by
  refine ⟨⟨?_, ?_⟩, ⟨?_, ?_⟩, ⟨?_, ?_⟩, ?_⟩
  · simp [Asteroid.new, Asteroid.radius]
  · simp [Asteroid.new, Asteroid.points]
  · simp [Asteroid.new, Asteroid.radius]
  · simp [Asteroid.new, Asteroid.points]
  · simp [Asteroid.new, Asteroid.radius]
  · simp [Asteroid.new, Asteroid.points]
  · intro s t hs hst ht
    have hcases : (s = 1 ∧ t = 2) ∨ (s = 1 ∧ t = 3) ∨ (s = 2 ∧ t = 3) := by omega
    rcases hcases with ⟨rfl, rfl⟩ | ⟨rfl, rfl⟩ | ⟨rfl, rfl⟩ <;>
      simp [Asteroid.new, Asteroid.radius, Asteroid.points] <;> norm_num

/-! ## Lemmas on splicing and on the update loop of the enemies -/

theorem getElem?_append_cons_length {α : Type} (pre : List α) (a : α) (tail : List α) :
    (pre ++ a :: tail)[pre.length]? = some a := by
  rw [List.getElem?_append_right (le_refl _)]
  simp

theorem eraseIdx_append_cons_length {α : Type} (pre : List α) (a : α) (tail : List α) :
    (pre ++ a :: tail).eraseIdx pre.length = pre ++ tail := by
  induction pre with
  | nil => rfl
  | cons x xs ih => simp [List.eraseIdx, ih]

theorem set_append_cons_length {α : Type} (pre : List α) (a b : α) (tail : List α) :
    (pre ++ a :: tail).set pre.length b = pre ++ b :: tail := by
  induction pre with
  | nil => rfl
  | cons x xs ih => simp [List.set, ih]

/-- The update loop of the enemies visits each enemy once: started on the enemies `pre` with
anything behind them in `tail`, it leaves, in order, the updated enemies of `pre` whose
`update` returned `true`, then `tail`. -/
theorem EnemyManager.updateLoop_eq (env : MathEnv) (dt : ℚ) (player : Player) (gameTime : ℚ)
    (i : ℕ) :
    ∀ (pre tail : List Enemy), pre.length = i →
      EnemyManager.updateLoop env dt player gameTime i (pre ++ tail)
        = (((pre.map (Enemy.update env dt player gameTime)).filter fun r => r.1).map
            fun r => r.2) ++ tail := by
  induction i with
  | zero =>
    intro pre tail hlen
    have hpre : pre = [] := List.length_eq_zero.mp hlen
    subst hpre
    simp [EnemyManager.updateLoop]
  | succ i ih =>
    intro pre tail hlen
    obtain ⟨pre', e, rfl⟩ : ∃ pre' e, pre = pre' ++ [e] := by
      have hne : pre ≠ [] := by
        intro h; rw [h] at hlen; cases hlen
      exact ⟨pre.dropLast, pre.getLast hne, (List.dropLast_append_getLast hne).symm⟩
    have hlen' : pre'.length = i := by
      simp only [List.length_append, List.length_singleton] at hlen
      omega
    have hform : pre' ++ [e] ++ tail = pre' ++ e :: tail := by simp
    have hget : (pre' ++ [e] ++ tail)[i]? = some e := by
      rw [hform, ← hlen']
      exact getElem?_append_cons_length pre' e tail
    rw [EnemyManager.updateLoop]
    simp only [hget]
    by_cases hr : (e.update env dt player gameTime).1 = true
    · have hset : (pre' ++ [e] ++ tail).set i (e.update env dt player gameTime).2
          = pre' ++ (e.update env dt player gameTime).2 :: tail := by
        rw [hform, ← hlen']
        exact set_append_cons_length pre' e _ tail
      simp only [hr, if_true, hset]
      rw [ih pre' _ hlen']
      simp [List.filter_cons, hr]
    · have herase : (pre' ++ [e] ++ tail).eraseIdx i = pre' ++ tail := by
        rw [hform, ← hlen']
        exact eraseIdx_append_cons_length pre' e tail
      simp only [hr, if_false, herase]
      rw [ih pre' _ hlen']
      simp [List.filter_cons, hr]

/-- The enemies after `EnemyManager.update`: every enemy of the list left by the spawn step is
updated once, and those whose `update` returned `true` stay, in order. -/
theorem EnemyManager.update_enemies (env : MathEnv) (d : EnemySpawnDraws) (dt : ℚ)
    (player : Player) (m : EnemyManager) :
    (m.update env d dt player).enemies
      = (((m.updateSpawn env d dt).enemies.map
            (Enemy.update env dt player (m.updateSpawn env d dt).gameTime)).filter
          fun r => r.1).map fun r => r.2 := by
  have h := EnemyManager.updateLoop_eq env dt player (m.updateSpawn env d dt).gameTime
    (m.updateSpawn env d dt).enemies.length (m.updateSpawn env d dt).enemies [] rfl
  simp only [List.append_nil] at h
  simp only [EnemyManager.update, h]

/-! ## Theorems on difficulty and spawning -/

theorem AsteroidManager.asteroid_rates_after (amounts : List ℚ) :
    ∀ m : AsteroidManager, 500 ≤ m.spawnRate → m.maxAsteroids ≤ 20 →
      (m.runDifficulty amounts).spawnRate = max 500 (m.spawnRate - 100 * amounts.length) ∧
      (m.runDifficulty amounts).maxAsteroids = min 20 (m.maxAsteroids + amounts.length) ∧
      (m.runDifficulty amounts).difficultyMultiplier
        = Binary64.sumFrom m.difficultyMultiplier amounts := by
  induction amounts with
  | nil =>
    intro m h1 h2
    simp [AsteroidManager.runDifficulty, h1, h2, Binary64.sumFrom]
  | cons a rest ih =>
    intro m h1 h2
    have h := ih (m.increaseDifficulty a) (le_max_left _ _) (min_le_left _ _)
    simp only [AsteroidManager.runDifficulty, List.foldl_cons] at h ⊢
    rw [h.1, h.2.1, h.2.2]
    simp only [AsteroidManager.increaseDifficulty, List.length_cons, List.sum_cons]
    push_cast
    refine ⟨?_, ?_, rfl⟩
    · have hn : (0 : ℚ) ≤ (rest.length : ℚ) := Nat.cast_nonneg _
      rcases le_total 500 (m.spawnRate - 100) with hc | hc
      · rw [max_eq_right hc]; congr 1; ring
      · rw [max_eq_left hc, max_eq_left (by linarith), max_eq_left (by linarith)]
    · have hn : (0 : ℤ) ≤ (rest.length : ℤ) := Int.natCast_nonneg _
      rcases le_total 20 (m.maxAsteroids + 1) with hc | hc
      · rw [min_eq_left hc, min_eq_left (by omega), min_eq_left (by omega)]
      · rw [min_eq_right hc]; congr 1; ring

/-- C15. Difficulty monotonicity for asteroids: after `n` calls of `increaseDifficulty`, with
any amounts, from the constructed state or from a reset state, the spawn interval is
`max(500, 2000 - 100 n)` and the cap is `min(20, 10 + n)`; from `n = 20` on they are exactly
500 and 20; and one more call never raises the interval or lowers the cap. -/
theorem asteroid_difficulty (W H : ℚ) (m0 : AsteroidManager) (amounts : List ℚ) :
    ∀ m ∈ [AsteroidManager.new W H, m0.reset],
      (m.runDifficulty amounts).spawnRate = max 500 (2000 - 100 * (amounts.length : ℚ)) ∧
      (m.runDifficulty amounts).maxAsteroids = min 20 (10 + (amounts.length : ℤ)) ∧
      (20 ≤ amounts.length →
        (m.runDifficulty amounts).spawnRate = 500 ∧
        (m.runDifficulty amounts).maxAsteroids = 20) ∧
      ∀ amount : ℚ,
        ((m.runDifficulty amounts).increaseDifficulty amount).spawnRate
          ≤ (m.runDifficulty amounts).spawnRate ∧
        (m.runDifficulty amounts).maxAsteroids
          ≤ ((m.runDifficulty amounts).increaseDifficulty amount).maxAsteroids := by
  have key : ∀ m : AsteroidManager, m.spawnRate = 2000 → m.maxAsteroids = 10 →
      (m.runDifficulty amounts).spawnRate = max 500 (2000 - 100 * (amounts.length : ℚ)) ∧
      (m.runDifficulty amounts).maxAsteroids = min 20 (10 + (amounts.length : ℤ)) ∧
      (20 ≤ amounts.length →
        (m.runDifficulty amounts).spawnRate = 500 ∧
        (m.runDifficulty amounts).maxAsteroids = 20) ∧
      ∀ amount : ℚ,
        ((m.runDifficulty amounts).increaseDifficulty amount).spawnRate
          ≤ (m.runDifficulty amounts).spawnRate ∧
        (m.runDifficulty amounts).maxAsteroids
          ≤ ((m.runDifficulty amounts).increaseDifficulty amount).maxAsteroids := by
    intro m hs hc
    have h := AsteroidManager.asteroid_rates_after amounts m (by rw [hs]; norm_num)
      (by rw [hc]; norm_num)
    rw [hs] at h
    rw [hc] at h
    refine ⟨h.1, h.2.1, ?_, ?_⟩
    · intro hn
      have hq : (20 : ℚ) ≤ (amounts.length : ℚ) := by exact_mod_cast hn
      have hz : (20 : ℤ) ≤ (amounts.length : ℤ) := by exact_mod_cast hn
      rw [h.1, h.2.1]
      exact ⟨max_eq_left (by linarith), min_eq_left (by omega)⟩
    · intro amount
      simp only [AsteroidManager.increaseDifficulty]
      rw [h.1, h.2.1]
      constructor
      · apply max_le (le_max_left _ _)
        have := le_max_right (500 : ℚ) (2000 - 100 * (amounts.length : ℚ))
        linarith
      · apply le_min (min_le_left _ _)
        have := min_le_right (20 : ℤ) (10 + (amounts.length : ℤ))
        omega
  intro m hm
  simp only [List.mem_cons, List.mem_singleton, List.not_mem_nil, or_false] at hm
  rcases hm with rfl | rfl
  · exact key _ rfl rfl
  · exact key _ rfl rfl

/-- C15, at the constructed manager of an 800 by 600 canvas after 25 calls. -/
theorem asteroid_difficulty_witness :
    ((AsteroidManager.new 800 600).runDifficulty (List.replicate 25 0.1)).spawnRate = 500 ∧
    ((AsteroidManager.new 800 600).runDifficulty (List.replicate 25 0.1)).maxAsteroids = 20 :=
  ((asteroid_difficulty 800 600 (AsteroidManager.new 800 600) (List.replicate 25 0.1)
    (AsteroidManager.new 800 600) (List.mem_cons_self _ _)).2.2.1 (by decide))

theorem EnemyManager.enemy_rates_after (amounts : List ℚ) :
    ∀ m : EnemyManager, 1500 ≤ m.spawnRate → m.maxEnemies ≤ 10 →
      (m.runDifficulty amounts).spawnRate = max 1500 (m.spawnRate - 300 * amounts.length) ∧
      (m.runDifficulty amounts).maxEnemies = min 10 (m.maxEnemies + amounts.length) ∧
      (m.runDifficulty amounts).difficultyMultiplier
        = Binary64.sumFrom m.difficultyMultiplier amounts := by
  induction amounts with
  | nil =>
    intro m h1 h2
    simp [EnemyManager.runDifficulty, h1, h2, Binary64.sumFrom]
  | cons a rest ih =>
    intro m h1 h2
    have h := ih (m.increaseDifficulty a) (le_max_left _ _) (min_le_left _ _)
    simp only [EnemyManager.runDifficulty, List.foldl_cons] at h ⊢
    rw [h.1, h.2.1, h.2.2]
    simp only [EnemyManager.increaseDifficulty, List.length_cons, List.sum_cons]
    push_cast
    refine ⟨?_, ?_, rfl⟩
    · have hn : (0 : ℚ) ≤ (rest.length : ℚ) := Nat.cast_nonneg _
      rcases le_total 1500 (m.spawnRate - 300) with hc | hc
      · rw [max_eq_right hc]; congr 1; ring
      · rw [max_eq_left hc, max_eq_left (by linarith), max_eq_left (by linarith)]
    · have hn : (0 : ℤ) ≤ (rest.length : ℤ) := Int.natCast_nonneg _
      rcases le_total 10 (m.maxEnemies + 1) with hc | hc
      · rw [min_eq_left hc, min_eq_left (by omega), min_eq_left (by omega)]
      · rw [min_eq_right hc]; congr 1; ring

/-- C16, counterexample: three calls `increaseDifficulty(0.1)` on a constructed manager leave
the multiplier at 1.3000000000000003, which is not 1 plus the sum of the three amounts. -/
theorem difficulty_multiplier_drifts :
    ((EnemyManager.new 800 600).runDifficulty
        [Binary64.round 0.1, Binary64.round 0.1, Binary64.round 0.1]).difficultyMultiplier
      = Binary64.round 1.3000000000000003 ∧
    ((EnemyManager.new 800 600).runDifficulty
        [Binary64.round 0.1, Binary64.round 0.1, Binary64.round 0.1]).difficultyMultiplier
      ≠ 1 + ([Binary64.round 0.1, Binary64.round 0.1, Binary64.round 0.1] : List ℚ).sum := by
  decide!

/-- C16, amended. Difficulty bounds for enemies: after `n` calls of `increaseDifficulty` from
the constructed state or from a reset state, the spawn interval is `max(1500, 5000 - 300 n)`
and the cap is `min(10, 5 + n)`, so the interval lies between 1500 and 5000 and the cap between
5 and 10; the difficulty multiplier is the result of adding the amounts to 1 one call after
the other, every addition rounded to binary64. For amounts that are whole multiples of
`2 ^ (-j)` with at most 53 bits in `1` plus their sum, no addition rounds and the multiplier is
1 plus the sum of the amounts. -/
theorem enemy_difficulty (W H : ℚ) (m0 : EnemyManager) (amounts : List ℚ) :
    ∀ m ∈ [EnemyManager.new W H, m0.reset],
      (m.runDifficulty amounts).spawnRate = max 1500 (5000 - 300 * (amounts.length : ℚ)) ∧
      (m.runDifficulty amounts).maxEnemies = min 10 (5 + (amounts.length : ℤ)) ∧
      (1500 ≤ (m.runDifficulty amounts).spawnRate ∧
        (m.runDifficulty amounts).spawnRate ≤ 5000) ∧
      (5 ≤ (m.runDifficulty amounts).maxEnemies ∧ (m.runDifficulty amounts).maxEnemies ≤ 10) ∧
      (m.runDifficulty amounts).difficultyMultiplier = Binary64.sumFrom 1 amounts ∧
      (∀ j : ℕ, j ≤ 1074 → (∀ a ∈ amounts, ∃ n : ℕ, a = (n : ℚ) / 2 ^ j) →
        (1 + amounts.sum) * 2 ^ j ≤ 2 ^ 53 →
        (m.runDifficulty amounts).difficultyMultiplier = 1 + amounts.sum) := by
  have key : ∀ m : EnemyManager, m.spawnRate = 5000 → m.maxEnemies = 5 →
      m.difficultyMultiplier = 1 →
      (m.runDifficulty amounts).spawnRate = max 1500 (5000 - 300 * (amounts.length : ℚ)) ∧
      (m.runDifficulty amounts).maxEnemies = min 10 (5 + (amounts.length : ℤ)) ∧
      (1500 ≤ (m.runDifficulty amounts).spawnRate ∧
        (m.runDifficulty amounts).spawnRate ≤ 5000) ∧
      (5 ≤ (m.runDifficulty amounts).maxEnemies ∧ (m.runDifficulty amounts).maxEnemies ≤ 10) ∧
      (m.runDifficulty amounts).difficultyMultiplier = Binary64.sumFrom 1 amounts ∧
      (∀ j : ℕ, j ≤ 1074 → (∀ a ∈ amounts, ∃ n : ℕ, a = (n : ℚ) / 2 ^ j) →
        (1 + amounts.sum) * 2 ^ j ≤ 2 ^ 53 →
        (m.runDifficulty amounts).difficultyMultiplier = 1 + amounts.sum) := by
    intro m hs hc hd
    have h := EnemyManager.enemy_rates_after amounts m (by rw [hs]; norm_num)
      (by rw [hc]; norm_num)
    rw [hs] at h
    rw [hc] at h
    rw [hd] at h
    have hq : (0 : ℚ) ≤ (amounts.length : ℚ) := Nat.cast_nonneg _
    have hz : (0 : ℤ) ≤ (amounts.length : ℤ) := Int.natCast_nonneg _
    refine ⟨h.1, h.2.1, ?_, ?_, h.2.2, ?_⟩
    · rw [h.1]
      exact ⟨le_max_left _ _, max_le (by norm_num) (by linarith)⟩
    · rw [h.2.1]
      exact ⟨le_min (by norm_num) (by omega), min_le_left _ _⟩
    · intro j hj hgrid hsum
      rw [h.2.2]
      exact Binary64.sumFrom_grid j hj amounts 1
        ⟨2 ^ j, by push_cast; rw [div_self (by positivity)]⟩ hgrid hsum
  intro m hm
  simp only [List.mem_cons, List.mem_singleton, List.not_mem_nil, or_false] at hm
  rcases hm with rfl | rfl
  · exact key _ rfl rfl rfl
  · exact key _ rfl rfl rfl

/-- C16 amended, at the constructed manager of an 800 by 600 canvas after 3 calls with the
amount 0.125. -/
theorem enemy_difficulty_witness :
    ((EnemyManager.new 800 600).runDifficulty [0.125, 0.125, 0.125]).spawnRate
      = max 1500 (5000 - 300 * (([0.125, 0.125, 0.125] : List ℚ).length : ℚ)) ∧
    ((EnemyManager.new 800 600).runDifficulty [0.125, 0.125, 0.125]).difficultyMultiplier
      = 1 + ([0.125, 0.125, 0.125] : List ℚ).sum :=
  have h := enemy_difficulty 800 600 (EnemyManager.new 800 600) [0.125, 0.125, 0.125]
    (EnemyManager.new 800 600) (List.mem_cons_self _ _)
  ⟨h.1, h.2.2.2.2.2 3 (by decide)
    (by
      intro a ha
      simp only [List.mem_cons, List.mem_singleton, List.not_mem_nil, or_false, or_self] at ha
      exact ⟨1, by rw [ha]; norm_num⟩)
    (by norm_num)⟩

theorem AsteroidManager.asteroids_length_after_update (env : MathEnv) (d : AsteroidSpawnDraws) (dt : ℚ)
    (m : AsteroidManager) :
    (m.update env d dt).asteroids.length = (m.updateSpawn env d dt).asteroids.length ∧
    (m.update env d dt).spawnTimer = (m.updateSpawn env d dt).spawnTimer ∧
    (m.update env d dt).maxAsteroids = m.maxAsteroids := by
  simp only [AsteroidManager.update, List.length_map, true_and]
  simp only [AsteroidManager.updateSpawn, AsteroidManager.spawnAsteroid]
  split_ifs <;> rfl

theorem EnemyManager.enemies_length_after_update (env : MathEnv) (d : EnemySpawnDraws) (dt : ℚ)
    (player : Player) (m : EnemyManager) :
    (m.update env d dt player).enemies.length ≤ (m.updateSpawn env d dt).enemies.length ∧
    (m.update env d dt player).spawnTimer = (m.updateSpawn env d dt).spawnTimer ∧
    (m.update env d dt player).maxEnemies = m.maxEnemies := by
  refine ⟨?_, rfl, ?_⟩
  · rw [EnemyManager.update_enemies]
    simp only [List.length_map]
    exact le_trans (List.length_filter_le _ _) (by simp)
  · simp only [EnemyManager.update, EnemyManager.updateSpawn, EnemyManager.spawnEnemy]
    split_ifs <;> rfl

/-- C17. Spawn rule of `AsteroidManager.update` and `EnemyManager.update`. If the spawn timer
plus `deltaTime` has reached the spawn interval and the population is strictly below the cap,
exactly one entity is appended and the timer is reset to 0; otherwise the population is
unchanged by the spawn step and the timer is the old timer plus `deltaTime`. So an entity is
spawned exactly under that condition, and a population within the cap stays within it. The
asteroid list keeps its length through the rest of `update`; the rest of the enemies' `update`
can only remove enemies. -/
theorem spawn_rule (env : MathEnv) (da : AsteroidSpawnDraws) (de : EnemySpawnDraws) (dt : ℚ)
    (player : Player) (am : AsteroidManager) (em : EnemyManager) :
    -- asteroids
    ((am.spawnTimer + dt ≥ am.spawnRate ∧ (am.asteroids.length : ℤ) < am.maxAsteroids →
        (∃ a, (am.updateSpawn env da dt).asteroids = am.asteroids ++ [a]) ∧
        (am.update env da dt).asteroids.length = am.asteroids.length + 1 ∧
        (am.update env da dt).spawnTimer = 0) ∧
      (¬ (am.spawnTimer + dt ≥ am.spawnRate ∧ (am.asteroids.length : ℤ) < am.maxAsteroids) →
        (am.updateSpawn env da dt).asteroids = am.asteroids ∧
        (am.update env da dt).asteroids.length = am.asteroids.length ∧
        (am.update env da dt).spawnTimer = am.spawnTimer + dt) ∧
      ((am.update env da dt).asteroids.length = am.asteroids.length + 1 ↔
        (am.spawnTimer + dt ≥ am.spawnRate ∧ (am.asteroids.length : ℤ) < am.maxAsteroids)) ∧
      ((am.asteroids.length : ℤ) ≤ am.maxAsteroids →
        ((am.update env da dt).asteroids.length : ℤ) ≤ (am.update env da dt).maxAsteroids)) ∧
    -- enemies
    ((em.spawnTimer + dt ≥ em.spawnRate ∧ (em.enemies.length : ℤ) < em.maxEnemies →
        (∃ e, (em.updateSpawn env de dt).enemies = em.enemies ++ [e]) ∧
        (em.update env de dt player).spawnTimer = 0) ∧
      (¬ (em.spawnTimer + dt ≥ em.spawnRate ∧ (em.enemies.length : ℤ) < em.maxEnemies) →
        (em.updateSpawn env de dt).enemies = em.enemies ∧
        (em.update env de dt player).spawnTimer = em.spawnTimer + dt) ∧
      ((em.updateSpawn env de dt).enemies.length = em.enemies.length + 1 ↔
        (em.spawnTimer + dt ≥ em.spawnRate ∧ (em.enemies.length : ℤ) < em.maxEnemies)) ∧
      (em.update env de dt player).enemies.length
        ≤ (em.updateSpawn env de dt).enemies.length ∧
      ((em.enemies.length : ℤ) ≤ em.maxEnemies →
        ((em.update env de dt player).enemies.length : ℤ)
          ≤ (em.update env de dt player).maxEnemies)) := by
  have ha := AsteroidManager.asteroids_length_after_update env da dt am
  have he := EnemyManager.enemies_length_after_update env de dt player em
  have haT : am.spawnTimer + dt ≥ am.spawnRate ∧ (am.asteroids.length : ℤ) < am.maxAsteroids →
      (am.updateSpawn env da dt).asteroids
        = am.asteroids ++ [Asteroid.new env da.ctor
            (if da.edgePair.val < 0.5 then (if da.edge.val < 0.5 then -50 else am.canvasWidth + 50)
              else da.along.val * am.canvasWidth)
            (if da.edgePair.val < 0.5 then da.along.val * am.canvasHeight
              else (if da.edge.val < 0.5 then -50 else am.canvasHeight + 50))
            (AsteroidManager.spawnSize am.difficultyMultiplier da.size)
            ((1 + (3 - (AsteroidManager.spawnSize am.difficultyMultiplier da.size : ℤ)) * 0.5)
              * (1 + (am.difficultyMultiplier - 1) * 0.3))] ∧
      (am.updateSpawn env da dt).spawnTimer = 0 := by
    intro h
    simp only [AsteroidManager.updateSpawn, AsteroidManager.spawnAsteroid, h, and_self, if_true]
  have haF : ¬ (am.spawnTimer + dt ≥ am.spawnRate ∧ (am.asteroids.length : ℤ) < am.maxAsteroids) →
      (am.updateSpawn env da dt).asteroids = am.asteroids ∧
      (am.updateSpawn env da dt).spawnTimer = am.spawnTimer + dt := by
    intro h
    simp [AsteroidManager.updateSpawn, h]
  have heT : em.spawnTimer + dt ≥ em.spawnRate ∧ (em.enemies.length : ℤ) < em.maxEnemies →
      (em.updateSpawn env de dt).enemies
        = em.enemies ++ [Enemy.new env de.ctor
            (Utils.randomRange de.x 50 (em.canvasWidth - 50)) (-50)
            (EnemyManager.chooseType em.difficultyMultiplier de.type) em.canvasWidth] ∧
      (em.updateSpawn env de dt).spawnTimer = 0 := by
    intro h
    simp only [EnemyManager.updateSpawn, EnemyManager.spawnEnemy, h, and_self, if_true]
  have heF : ¬ (em.spawnTimer + dt ≥ em.spawnRate ∧ (em.enemies.length : ℤ) < em.maxEnemies) →
      (em.updateSpawn env de dt).enemies = em.enemies ∧
      (em.updateSpawn env de dt).spawnTimer = em.spawnTimer + dt := by
    intro h
    simp [EnemyManager.updateSpawn, h]
  refine ⟨⟨?_, ?_, ?_, ?_⟩, ⟨?_, ?_, ?_, he.1, ?_⟩⟩
  · intro h
    refine ⟨⟨_, (haT h).1⟩, ?_, ?_⟩
    · rw [ha.1, (haT h).1]; simp
    · rw [ha.2.1, (haT h).2]
  · intro h
    refine ⟨(haF h).1, ?_, ?_⟩
    · rw [ha.1, (haF h).1]
    · rw [ha.2.1, (haF h).2]
  · constructor
    · intro hlen
      by_contra h
      rw [ha.1, (haF h).1] at hlen
      omega
    · intro h
      rw [ha.1, (haT h).1]; simp
  · intro hcap
    rw [ha.2.2, ha.1]
    by_cases h : am.spawnTimer + dt ≥ am.spawnRate ∧ (am.asteroids.length : ℤ) < am.maxAsteroids
    · rw [(haT h).1]
      simp only [List.length_append, List.length_singleton]
      push_cast
      omega
    · rw [(haF h).1]; exact hcap
  · intro h
    exact ⟨⟨_, (heT h).1⟩, by rw [he.2.1, (heT h).2]⟩
  · intro h
    exact ⟨(heF h).1, by rw [he.2.1, (heF h).2]⟩
  · constructor
    · intro hlen
      by_contra h
      rw [(heF h).1] at hlen
      omega
    · intro h
      rw [(heT h).1]; simp
  · intro hcap
    rw [he.2.2]
    have h1 : ((em.update env de dt player).enemies.length : ℤ)
        ≤ ((em.updateSpawn env de dt).enemies.length : ℤ) := by exact_mod_cast he.1
    refine le_trans h1 ?_
    by_cases h : em.spawnTimer + dt ≥ em.spawnRate ∧ (em.enemies.length : ℤ) < em.maxEnemies
    · rw [(heT h).1]
      simp only [List.length_append, List.length_singleton]
      push_cast
      omega
    · rw [(heF h).1]; exact hcap

/-- C18. `EnemyManager.spawnEnemy` chooses the type from the difficulty multiplier `m` and the
draw `r` in three bands: for `m < 1.5`, basic if `r < 0.8`, tracker if `0.8 ≤ r < 0.9`, else
shooter; for `1.5 ≤ m < 2.5`, basic if `r < 0.5`, tracker if `0.5 ≤ r < 0.8`, else shooter;
for `m ≥ 2.5`, basic if `r < 0.3`, tracker if `0.3 ≤ r < 0.7`, else shooter. The type is one
of the three known types, and it is the type of the one enemy that `spawnEnemy` appends. -/
theorem spawnEnemy_type (env : MathEnv) (d : EnemySpawnDraws) (em : EnemyManager) (m : ℚ)
    (r : Draw) :
    (m < 1.5 →
      (r.val < 0.8 → EnemyManager.chooseType m r = EnemyType.basic) ∧
      (0.8 ≤ r.val → r.val < 0.9 → EnemyManager.chooseType m r = EnemyType.tracker) ∧
      (0.9 ≤ r.val → EnemyManager.chooseType m r = EnemyType.shooter)) ∧
    (1.5 ≤ m → m < 2.5 →
      (r.val < 0.5 → EnemyManager.chooseType m r = EnemyType.basic) ∧
      (0.5 ≤ r.val → r.val < 0.8 → EnemyManager.chooseType m r = EnemyType.tracker) ∧
      (0.8 ≤ r.val → EnemyManager.chooseType m r = EnemyType.shooter)) ∧
    (2.5 ≤ m →
      (r.val < 0.3 → EnemyManager.chooseType m r = EnemyType.basic) ∧
      (0.3 ≤ r.val → r.val < 0.7 → EnemyManager.chooseType m r = EnemyType.tracker) ∧
      (0.7 ≤ r.val → EnemyManager.chooseType m r = EnemyType.shooter)) ∧
    (EnemyManager.chooseType m r = EnemyType.basic ∨
      EnemyManager.chooseType m r = EnemyType.tracker ∨
      EnemyManager.chooseType m r = EnemyType.shooter) ∧
    (∃ e, (em.spawnEnemy env d).enemies = em.enemies ++ [e] ∧
      e.type = EnemyManager.chooseType em.difficultyMultiplier d.type) := by
  refine ⟨?_, ?_, ?_, ?_, ?_⟩
  · intro hm
    refine ⟨?_, ?_, ?_⟩
    · intro h
      simp only [EnemyManager.chooseType, hm, h, if_true]
    · intro h1 h2
      simp only [EnemyManager.chooseType, hm, not_lt.mpr h1, h2, if_true, if_false]
    · intro h1
      have h2 : ¬ r.val < 0.8 := by
        intro h; norm_num at h h1; linarith
      simp only [EnemyManager.chooseType, hm, not_lt.mpr h1, h2, if_true, if_false]
  · intro hm1 hm2
    refine ⟨?_, ?_, ?_⟩
    · intro h
      simp only [EnemyManager.chooseType, not_lt.mpr hm1, hm2, h, if_true, if_false]
    · intro h1 h2
      simp only [EnemyManager.chooseType, not_lt.mpr hm1, hm2, not_lt.mpr h1, h2, if_true,
        if_false]
    · intro h1
      have h2 : ¬ r.val < 0.5 := by
        intro h; norm_num at h h1; linarith
      simp only [EnemyManager.chooseType, not_lt.mpr hm1, hm2, not_lt.mpr h1, h2, if_true,
        if_false]
  · intro hm1
    have hm2 : ¬ m < 1.5 := by
      intro h; norm_num at h hm1; linarith
    refine ⟨?_, ?_, ?_⟩
    · intro h
      simp only [EnemyManager.chooseType, not_lt.mpr hm1, hm2, h, if_true, if_false]
    · intro h1 h2
      simp only [EnemyManager.chooseType, not_lt.mpr hm1, hm2, not_lt.mpr h1, h2, if_true,
        if_false]
    · intro h1
      have h2 : ¬ r.val < 0.3 := by
        intro h; norm_num at h h1; linarith
      simp only [EnemyManager.chooseType, not_lt.mpr hm1, hm2, not_lt.mpr h1, h2, if_true,
        if_false]
  · simp only [EnemyManager.chooseType]
    split_ifs <;> simp
  · exact ⟨_, rfl, rfl⟩

/-- C14, read at the sizes 1 and 3. -/
theorem asteroid_size_table_witness :
    (Asteroid.new ⟨0, fun _ => 0, fun _ => 1, fun _ => 0⟩
        ⟨⟨0, by decide!⟩, ⟨0, by decide!⟩, ⟨0, by decide!⟩⟩ 0 0 1 1).radius
      < (Asteroid.new ⟨0, fun _ => 0, fun _ => 1, fun _ => 0⟩
        ⟨⟨0, by decide!⟩, ⟨0, by decide!⟩, ⟨0, by decide!⟩⟩ 0 0 3 1).radius :=
  ((asteroid_size_table ⟨0, fun _ => 0, fun _ => 1, fun _ => 0⟩
    ⟨⟨0, by decide!⟩, ⟨0, by decide!⟩, ⟨0, by decide!⟩⟩ 0 0 1).2.2.2 1 3
    (by decide) (by decide) (by decide)).1

/-- C17, at a constructed enemy manager, whose timer starts at 10000: the first update of
16 ms spawns one enemy and resets the timer. -/
theorem spawn_rule_witness :
    ((EnemyManager.new 800 600).update ⟨0, fun _ => 0, fun _ => 1, fun _ => 0⟩
      ⟨⟨0, by decide!⟩, ⟨0, by decide!⟩, ⟨0, by decide!⟩, ⟨0, by decide!⟩, ⟨0, by decide!⟩⟩
      16 (Player.new 400 500 40 40)).spawnTimer = 0 :=
  ((spawn_rule ⟨0, fun _ => 0, fun _ => 1, fun _ => 0⟩
    ⟨⟨0, by decide!⟩, ⟨0, by decide!⟩, ⟨0, by decide!⟩, ⟨0, by decide!⟩,
      ⟨0, by decide!⟩, ⟨0, by decide!⟩, ⟨0, by decide!⟩⟩
    ⟨⟨0, by decide!⟩, ⟨0, by decide!⟩, ⟨0, by decide!⟩, ⟨0, by decide!⟩, ⟨0, by decide!⟩⟩
    16 (Player.new 400 500 40 40) (AsteroidManager.new 800 600)
    (EnemyManager.new 800 600)).2.1 (by decide!)).2

/-- C18, at multiplier 1 and draw 0.85: a tracker. -/
theorem spawnEnemy_type_witness :
    EnemyManager.chooseType 1 ⟨0.85, by norm_num⟩ = EnemyType.tracker :=
  ((spawnEnemy_type ⟨0, fun _ => 0, fun _ => 1, fun _ => 0⟩
    ⟨⟨0, by decide!⟩, ⟨0, by decide!⟩, ⟨0, by decide!⟩, ⟨0, by decide!⟩, ⟨0, by decide!⟩⟩
    (EnemyManager.new 800 600) 1 ⟨0.85, by norm_num⟩).1 (by norm_num)).2.1
    (by norm_num) (by norm_num)

/-! ## Lemmas on the downward scan and on splicing -/

section ScanLemmas

variable {α : Type} (test : α → Bool)

/-- What the scan has established when it stops at index `j`, and when it runs through. -/
theorem scanDown_spec (items : List α) (n : ℕ) :
    (∀ j, scanDown test items n = some j →
      j < n ∧ (∃ x, items[j]? = some x ∧ test x = true) ∧
      ∀ k, j < k → k < n → ∀ y, items[k]? = some y → test y = false) ∧
    (scanDown test items n = none → ∀ k, k < n → ∀ y, items[k]? = some y → test y = false) := by
  induction n with
  | zero =>
    refine ⟨?_, ?_⟩
    · intro j h; simp [scanDown] at h
    · intro _ k hk; omega
  | succ i ih =>
    have hprev : ∀ y, items[i]? = some y → test y = false →
        scanDown test items (i + 1) = scanDown test items i := by
      intro y hy ht
      simp [scanDown, hy, ht]
    have hnone : items[i]? = none → scanDown test items (i + 1) = scanDown test items i := by
      intro hy
      simp [scanDown, hy]
    cases hi : items[i]? with
    | none =>
      rw [hnone hi]
      refine ⟨?_, ?_⟩
      · intro j hj
        obtain ⟨h1, h2, h3⟩ := ih.1 j hj
        refine ⟨by omega, h2, ?_⟩
        intro k hjk hk y hy
        rcases Nat.lt_succ_iff_lt_or_eq.mp hk with hlt | heq
        · exact h3 k hjk hlt y hy
        · subst heq; rw [hi] at hy; cases hy
      · intro h k hk y hy
        rcases Nat.lt_succ_iff_lt_or_eq.mp hk with hlt | heq
        · exact ih.2 h k hlt y hy
        · subst heq; rw [hi] at hy; cases hy
    | some x =>
      cases ht : test x with
      | true =>
        have hs : scanDown test items (i + 1) = some i := by simp [scanDown, hi, ht]
        rw [hs]
        refine ⟨?_, ?_⟩
        · intro j hj
          cases hj
          exact ⟨Nat.lt_succ_self _, ⟨x, hi, ht⟩, fun k h1 h2 => by omega⟩
        · intro h; cases h
      | false =>
        rw [hprev x hi ht]
        refine ⟨?_, ?_⟩
        · intro j hj
          obtain ⟨h1, h2, h3⟩ := ih.1 j hj
          refine ⟨by omega, h2, ?_⟩
          intro k hjk hk y hy
          rcases Nat.lt_succ_iff_lt_or_eq.mp hk with hlt | heq
          · exact h3 k hjk hlt y hy
          · subst heq; rw [hi] at hy; cases hy; exact ht
        · intro h k hk y hy
          rcases Nat.lt_succ_iff_lt_or_eq.mp hk with hlt | heq
          · exact ih.2 h k hlt y hy
          · subst heq; rw [hi] at hy; cases hy; exact ht

/-- A scan over the whole array that finds nothing: no element passes the test. -/
theorem scanDown_none (items : List α) (h : scanDown test items items.length = none) :
    ∀ y ∈ items, test y = false := by
  intro y hy
  obtain ⟨k, hk, rfl⟩ := List.getElem_of_mem hy
  exact (scanDown_spec test items items.length).2 h k hk _ (List.getElem?_eq_getElem hk)

/-- If no element passes the test, the scan finds nothing. -/
theorem scanDown_eq_none_of_forall (items : List α) (n : ℕ)
    (h : ∀ y ∈ items, test y = false) : scanDown test items n = none := by
  induction n with
  | zero => rfl
  | succ i ih =>
    cases hi : items[i]? with
    | none => simp [scanDown, hi, ih]
    | some x =>
      have hx : test x = false := h x (List.getElem?_mem hi)
      simp [scanDown, hi, hx, ih]

/-- A scan over the whole array that stops at `j`: the array splits around the element at
`j`, which passes the test, while nothing after it does; splicing it out joins the two
sides. -/
theorem scanDown_some (items : List α) (j : ℕ) (h : scanDown test items items.length = some j) :
    ∃ pre x suf, items = pre ++ x :: suf ∧ pre.length = j ∧ test x = true ∧
      (∀ y ∈ suf, test y = false) ∧ items[j]? = some x ∧ items.eraseIdx j = pre ++ suf := by
  obtain ⟨hj, ⟨x, hx, ht⟩, hafter⟩ := (scanDown_spec test items items.length).1 j h
  have hsplit : items = items.take j ++ x :: items.drop (j + 1) := by
    have hx' : items[j] = x := by
      have := List.getElem?_eq_getElem hj
      rw [this] at hx
      exact Option.some.inj hx
    conv_lhs => rw [← List.take_append_drop j items]
    rw [List.drop_eq_getElem_cons hj, hx']
  have hlen : (items.take j).length = j := by
    rw [List.length_take]; omega
  refine ⟨items.take j, x, items.drop (j + 1), hsplit, hlen, ht, ?_, hx, ?_⟩
  · intro y hy
    obtain ⟨k, hk, rfl⟩ := List.getElem_of_mem hy
    rw [List.length_drop] at hk
    have := hafter (j + 1 + k) (by omega) (by omega) ((items.drop (j + 1))[k])
    apply this
    rw [List.getElem_drop]
    exact List.getElem?_eq_getElem (by omega)
  · rw [List.eraseIdx_eq_take_drop_succ]

end ScanLemmas

/-! ## Theorems on the bullet passes -/

/-- The invariant of the outer loop of `AsteroidManager.checkBulletCollisions`. With the
asteroids still to visit in `pre` and anything behind them in `tail`, the loop ends with the
survivors `S` of `pre`, then `tail`, then the children of the removed asteroids; `R` lists
each removed asteroid with its index and the bullet that removed it. -/
theorem AsteroidManager.asteroidLoop_spec (env : MathEnv) (d : ℕ → ℕ → ChildDraws) (i : ℕ) :
    ∀ (pre tail : List Asteroid) (bs : List Bullet) (sc : ℤ), pre.length = i →
      ∃ (S : List Asteroid) (R : List (ℕ × Asteroid × Bullet)) (bs' : List Bullet),
        AsteroidManager.bulletLoop env d i (pre ++ tail, bs, sc)
          = (S ++ tail ++ R.flatMap (fun r => r.2.1.break env (d r.1)), bs',
              sc + (R.map fun r => r.2.1.points).sum) ∧
        S.Sublist pre ∧ (S ++ R.map (fun r => r.2.1)).Perm pre ∧
        bs'.Sublist bs ∧ (bs' ++ R.map (fun r => r.2.2)).Perm bs ∧
        (∀ r ∈ R, pre[r.1]? = some r.2.1 ∧
          Utils.circleCollision r.2.1.circle r.2.2.circle = true) ∧
        (∀ a ∈ S, ∀ b ∈ bs', Utils.circleCollision a.circle b.circle = false) ∧
        (R.map fun r => r.1).Pairwise (fun k l => l < k) := by
  induction i with
  | zero =>
    intro pre tail bs sc hlen
    have hpre : pre = [] := List.length_eq_zero.mp hlen
    subst hpre
    refine ⟨[], [], bs, ?_, List.Sublist.refl _, List.Perm.refl _, List.Sublist.refl _, ?_, ?_, ?_,
      List.Pairwise.nil⟩
    · simp [AsteroidManager.bulletLoop]
    · simp
    · intro r hr; cases hr
    · intro a ha; cases ha
  | succ i ih =>
    intro pre tail bs sc hlen
    obtain ⟨pre', a, rfl⟩ : ∃ pre' a, pre = pre' ++ [a] := by
      have hne : pre ≠ [] := by
        intro h; rw [h] at hlen; cases hlen
      exact ⟨pre.dropLast, pre.getLast hne, (List.dropLast_append_getLast hne).symm⟩
    have hlen' : pre'.length = i := by
      simp only [List.length_append, List.length_singleton] at hlen
      omega
    have hget : (pre' ++ [a] ++ tail)[i]? = some a := by
      rw [List.append_assoc, ← hlen']
      exact getElem?_append_cons_length pre' a tail
    cases hscan : scanDown (fun bullet => Utils.circleCollision a.circle bullet.circle)
        bs bs.length with
    | none =>
      have hmiss := scanDown_none _ bs hscan
      obtain ⟨S, R, bs', heq, hS, hP, hB, hBP, hR, hSurv, hDec⟩ :=
        ih pre' (a :: tail) bs sc hlen'
      refine ⟨S ++ [a], R, bs', ?_, ?_, ?_, hB, hBP, ?_, ?_, hDec⟩
      · rw [AsteroidManager.bulletLoop]
        simp only [hget, hscan]
        have : pre' ++ [a] ++ tail = pre' ++ a :: tail := by simp
        rw [this, heq]
        simp
      · exact List.Sublist.append hS (List.Sublist.refl _)
      · have : (S ++ [a] ++ R.map fun r => r.2.1).Perm ((S ++ R.map fun r => r.2.1) ++ [a]) := by
          rw [List.append_assoc, List.append_assoc]
          exact List.Perm.append_left S List.perm_append_comm
        exact this.trans (List.Perm.append_right [a] hP)
      · intro r hr
        obtain ⟨h1, h2⟩ := hR r hr
        refine ⟨?_, h2⟩
        have hlt : r.1 < pre'.length := by
          rcases List.getElem?_eq_some.mp h1 with ⟨h, _⟩
          exact h
        rw [List.getElem?_append_left hlt]
        exact h1
      · intro x hx b hb
        rcases List.mem_append.mp hx with hx | hx
        · exact hSurv x hx b hb
        · rw [List.mem_singleton.mp hx]
          exact hmiss b (hB.subset hb)
    | some j =>
      obtain ⟨bpre, b, bsuf, hbs, hbl, hhit, _, hbj, herase⟩ := scanDown_some _ bs j hscan
      obtain ⟨S, R, bs', heq, hS, hP, hB, hBP, hR, hSurv, hDec⟩ :=
        ih pre' (tail ++ a.break env (d i)) (bpre ++ bsuf) (sc + a.points) hlen'
      refine ⟨S, (i, a, b) :: R, bs', ?_, ?_, ?_, ?_, ?_, ?_, hSurv, ?_⟩
      · rw [AsteroidManager.bulletLoop]
        simp only [hget, hscan]
        have : (pre' ++ [a] ++ tail ++ a.break env (d i)).eraseIdx i
            = pre' ++ (tail ++ a.break env (d i)) := by
          have h := eraseIdx_append_cons_length pre' a (tail ++ a.break env (d i))
          rw [hlen'] at h
          rw [← h]
          simp
        rw [this, herase, heq]
        simp only [List.flatMap_cons, List.map_cons, List.sum_cons, List.append_assoc]
        rw [add_assoc]
      · exact hS.trans (List.sublist_append_left _ _)
      · simp only [List.map_cons]
        exact (List.perm_middle.trans (List.Perm.cons a hP)).trans
          (List.perm_append_singleton a pre').symm
      · rw [hbs]
        exact hB.trans (List.Sublist.append (List.Sublist.refl _) (List.sublist_cons_self _ _))
      · rw [hbs]
        simp only [List.map_cons]
        exact (List.perm_middle.trans (List.Perm.cons b hBP)).trans List.perm_middle.symm
      · intro r hr
        rcases List.mem_cons.mp hr with rfl | hr
        · refine ⟨?_, hhit⟩
          have := getElem?_append_cons_length pre' a []
          rw [hlen'] at this
          exact this
        · obtain ⟨h1, h2⟩ := hR r hr
          refine ⟨?_, h2⟩
          have hlt : r.1 < pre'.length := by
            rcases List.getElem?_eq_some.mp h1 with ⟨h, _⟩
            exact h
          rw [List.getElem?_append_left hlt]
          exact h1
      · simp only [List.map_cons]
        refine List.Pairwise.cons ?_ hDec
        intro k hk
        obtain ⟨r, hr, rfl⟩ := List.mem_map.mp hk
        rcases List.getElem?_eq_some.mp (hR r hr).1 with ⟨h, _⟩
        omega

/-- The bullet pass on one asteroid of a size above 1 and one bullet that overlaps it: the
asteroid is replaced by its two children, the bullet is removed, and the asteroid's points are
returned. -/
theorem AsteroidManager.checkBulletCollisions_single (env : MathEnv) (d : ℕ → ℕ → ChildDraws)
    (m : AsteroidManager) (player : Player) (a : Asteroid) (b : Bullet)
    (h : Utils.circleCollision a.circle b.circle = true) (hs : 1 < a.size) :
    ({ m with asteroids := [a] } : AsteroidManager).checkBulletCollisions env d
        { player with bullets := [b] }
      = (a.points,
         { m with asteroids :=
            [Asteroid.breakChild env (d 0 0) a, Asteroid.breakChild env (d 0 1) a] },
         { player with bullets := [] }) := by
  simp [AsteroidManager.checkBulletCollisions, AsteroidManager.bulletLoop, scanDown, h,
    Asteroid.break, hs, List.range_succ]

/-- C6. `AsteroidManager.checkBulletCollisions(player)`, for every asteroid list and bullet
list. There are survivors `S`, removed asteroids `R` (each with its index and the bullet that
hit it, in the order of removal) and remaining bullets such that: the asteroid list afterwards
is `S` followed by the children of each removed asteroid, none of them tested; `S` keeps the
order of the originals, and `S` with the removed asteroids is the original list up to order
(no original is skipped or counted twice); the removed asteroids sit at strictly decreasing
indices, so each is hit once; the remaining bullets with the bullets of `R` are the original
bullets up to order, so each bullet removes at most one asteroid and as many bullets as
asteroids are removed; each removed asteroid overlapped its bullet and no survivor overlaps a
remaining bullet; the score is the sum of the points of the removed asteroids.
Scenario: a bullet at (100, 100) of radius 3 and a size-2 asteroid at (100, 101) give score 50,
the two children of size 1 as the only asteroids, and no bullet. -/
theorem asteroid_bullet_pass (env : MathEnv) (d : ℕ → ℕ → ChildDraws) (m : AsteroidManager)
    (player : Player) :
    (∃ (S : List Asteroid) (R : List (ℕ × Asteroid × Bullet)) (bs' : List Bullet),
      m.checkBulletCollisions env d player
        = ((R.map fun r => r.2.1.points).sum,
           { m with asteroids := S ++ R.flatMap (fun r => r.2.1.break env (d r.1)) },
           { player with bullets := bs' }) ∧
      S.Sublist m.asteroids ∧ (S ++ R.map (fun r => r.2.1)).Perm m.asteroids ∧
      bs'.Sublist player.bullets ∧ (bs' ++ R.map (fun r => r.2.2)).Perm player.bullets ∧
      (∀ r ∈ R, m.asteroids[r.1]? = some r.2.1 ∧
        Utils.circleCollision r.2.1.circle r.2.2.circle = true) ∧
      (R.map fun r => r.1).Pairwise (fun k l => l < k) ∧
      (∀ a ∈ S, ∀ b ∈ bs', Utils.circleCollision a.circle b.circle = false) ∧
      m.asteroids.length = S.length + R.length ∧
      player.bullets.length = bs'.length + R.length) ∧
    (∀ (speed rotation spin angle vx vy : ℚ) (color : String),
      ({ m with asteroids := [⟨100, 101, 2, speed, rotation, spin, angle, vx, vy⟩] }
          : AsteroidManager).checkBulletCollisions env d
          { player with bullets := [⟨100, 100, 3, color⟩] }
        = (50,
           { m with asteroids :=
              [Asteroid.breakChild env (d 0 0) ⟨100, 101, 2, speed, rotation, spin, angle, vx, vy⟩,
               Asteroid.breakChild env (d 0 1)
                ⟨100, 101, 2, speed, rotation, spin, angle, vx, vy⟩] },
           { player with bullets := [] }) ∧
      (Asteroid.breakChild env (d 0 0)
          ⟨100, 101, 2, speed, rotation, spin, angle, vx, vy⟩).size = 1 ∧
      (Asteroid.breakChild env (d 0 1)
          ⟨100, 101, 2, speed, rotation, spin, angle, vx, vy⟩).size = 1) := by
  constructor
  · obtain ⟨S, R, bs', heq, hS, hP, hB, hBP, hR, hSurv, hDec⟩ :=
      AsteroidManager.asteroidLoop_spec env d m.asteroids.length m.asteroids [] player.bullets 0 rfl
    rw [List.append_nil] at heq
    refine ⟨S, R, bs', ?_, hS, hP, hB, hBP, hR, hDec, hSurv, ?_, ?_⟩
    · simp only [AsteroidManager.checkBulletCollisions, heq]
      simp
    · have := hP.length_eq
      simp only [List.length_append, List.length_map] at this
      omega
    · have := hBP.length_eq
      simp only [List.length_append, List.length_map] at this
      omega
  · intro speed rotation spin angle vx vy color
    have hlit : Utils.circleCollision ⟨100, 101, 30⟩ ⟨100, 100, 3⟩ = true := by decide!
    have hc : Asteroid.circle ⟨100, 101, 2, speed, rotation, spin, angle, vx, vy⟩
        = ⟨100, 101, 30⟩ := by
      simp [Asteroid.circle, Asteroid.radius]
    have hhit : Utils.circleCollision
        (Asteroid.circle ⟨100, 101, 2, speed, rotation, spin, angle, vx, vy⟩)
        (Bullet.circle ⟨100, 100, 3, color⟩) = true := by
      rw [hc]
      exact hlit
    have hpoints : Asteroid.points ⟨100, 101, 2, speed, rotation, spin, angle, vx, vy⟩ = 50 := by
      simp [Asteroid.points]
    refine ⟨?_, rfl, rfl⟩
    rw [AsteroidManager.checkBulletCollisions_single env d m player _ _ hhit (by norm_num),
      hpoints]

theorem Enemy.takeDamage_one (e : Enemy) :
    (e.takeDamage 1).1 = decide (e.health - 1 ≤ 0) ∧
    (e.takeDamage 1).2.points = e.points ∧
    (e.health - 1 ≤ 0 → (e.takeDamage 1).2 = { e with health := e.health - 1, active := false }) ∧
    (¬ e.health - 1 ≤ 0 → (e.takeDamage 1).2 = { e with health := e.health - 1 }) := by
  by_cases h : e.health - 1 ≤ 0
  · simp [Enemy.takeDamage, h, Enemy.points]
  · simp [Enemy.takeDamage, h, Enemy.points]

/-- The invariant of the outer loop of `EnemyManager.checkBulletCollisions`. With the enemies
still to visit in `pre` and anything behind them in `tail`, the loop ends with what the pass
leaves of each enemy of `pre`, then `tail`; `hits` pairs each enemy of `pre` with the bullet
that hit it, if one did. -/
theorem EnemyManager.enemyLoop_spec (i : ℕ) :
    ∀ (pre tail : List Enemy) (bs : List Bullet) (sc : ℤ), pre.length = i →
      ∃ (hits : List (Enemy × Option Bullet)) (bs' : List Bullet),
        hits.map Prod.fst = pre ∧
        EnemyManager.bulletLoop i (pre ++ tail, bs, sc)
          = (hits.filterMap EnemyManager.afterPass ++ tail, bs',
              sc + (hits.map EnemyManager.award).sum) ∧
        bs'.Sublist bs ∧ (bs' ++ hits.filterMap Prod.snd).Perm bs ∧
        (∀ h ∈ hits, ∀ b, h.2 = some b →
          Utils.circleCollision h.1.circle b.circle = true) ∧
        (∀ h ∈ hits, h.2 = none →
          ∀ b ∈ bs', Utils.circleCollision h.1.circle b.circle = false) := by
  induction i with
  | zero =>
    intro pre tail bs sc hlen
    have hpre : pre = [] := List.length_eq_zero.mp hlen
    subst hpre
    refine ⟨[], bs, rfl, ?_, List.Sublist.refl _, ?_, ?_, ?_⟩
    · simp [EnemyManager.bulletLoop]
    · simp
    · intro h hh; cases hh
    · intro h hh; cases hh
  | succ i ih =>
    intro pre tail bs sc hlen
    obtain ⟨pre', e, rfl⟩ : ∃ pre' e, pre = pre' ++ [e] := by
      have hne : pre ≠ [] := by
        intro h; rw [h] at hlen; cases hlen
      exact ⟨pre.dropLast, pre.getLast hne, (List.dropLast_append_getLast hne).symm⟩
    have hlen' : pre'.length = i := by
      simp only [List.length_append, List.length_singleton] at hlen
      omega
    have hform : pre' ++ [e] ++ tail = pre' ++ e :: tail := by simp
    have hget : (pre' ++ [e] ++ tail)[i]? = some e := by
      rw [hform, ← hlen']
      exact getElem?_append_cons_length pre' e tail
    cases hscan : scanDown (fun bullet => Utils.circleCollision e.circle bullet.circle)
        bs bs.length with
    | none =>
      have hmiss := scanDown_none _ bs hscan
      obtain ⟨hits, bs', hfst, heq, hB, hBP, hHit, hMiss⟩ := ih pre' (e :: tail) bs sc hlen'
      refine ⟨hits ++ [(e, none)], bs', ?_, ?_, hB, ?_, ?_, ?_⟩
      · simp [hfst]
      · rw [EnemyManager.bulletLoop]
        simp only [hget, hscan]
        rw [hform, heq]
        simp [EnemyManager.afterPass, EnemyManager.award]
      · simpa using hBP
      · intro h hh b hb
        rcases List.mem_append.mp hh with hh | hh
        · exact hHit h hh b hb
        · rw [List.mem_singleton.mp hh] at hb; cases hb
      · intro h hh hn b hb
        rcases List.mem_append.mp hh with hh | hh
        · exact hMiss h hh hn b hb
        · rw [List.mem_singleton.mp hh]
          exact hmiss b (hB.subset hb)
    | some j =>
      obtain ⟨bpre, b, bsuf, hbs, hbl, hhit, _, hbj, herase⟩ := scanDown_some _ bs j hscan
      have htd := Enemy.takeDamage_one e
      have hsub : ∀ bs' : List Bullet, bs'.Sublist (bpre ++ bsuf) → bs'.Sublist bs := by
        intro bs' h
        rw [hbs]
        exact h.trans (List.Sublist.append (List.Sublist.refl _) (List.sublist_cons_self _ _))
      have hperm : ∀ (bs' : List Bullet) (hits : List (Enemy × Option Bullet)),
          (bs' ++ hits.filterMap Prod.snd).Perm (bpre ++ bsuf) →
          (bs' ++ (hits ++ [(e, some b)]).filterMap Prod.snd).Perm bs := by
        intro bs' hits h
        rw [hbs]
        simp only [List.filterMap_append, List.filterMap_cons, List.filterMap_nil]
        rw [← List.append_assoc]
        exact (List.perm_append_singleton b _).trans
          ((List.Perm.cons b h).trans List.perm_middle.symm)
      by_cases hd : e.health - 1 ≤ 0
      · obtain ⟨hits, bs', hfst, heq, hB, hBP, hHit, hMiss⟩ :=
          ih pre' tail (bpre ++ bsuf) (sc + e.points) hlen'
        refine ⟨hits ++ [(e, some b)], bs', ?_, ?_, hsub bs' hB, hperm bs' hits hBP, ?_, ?_⟩
        · simp [hfst]
        · rw [EnemyManager.bulletLoop]
          simp only [hget, hscan]
          have h1 : (e.takeDamage 1).1 = true := by rw [htd.1]; simpa using hd
          simp only [h1, if_true, htd.2.1]
          have : (pre' ++ [e] ++ tail).eraseIdx i = pre' ++ tail := by
            rw [hform, ← hlen']
            exact eraseIdx_append_cons_length pre' e tail
          rw [this, herase, heq]
          simp [EnemyManager.afterPass, EnemyManager.award, hd, add_assoc]
          ring
        · intro h hh b' hb'
          rcases List.mem_append.mp hh with hh | hh
          · exact hHit h hh b' hb'
          · rw [List.mem_singleton.mp hh] at hb' ⊢
            cases hb'
            exact hhit
        · intro h hh hn b' hb'
          rcases List.mem_append.mp hh with hh | hh
          · exact hMiss h hh hn b' hb'
          · rw [List.mem_singleton.mp hh] at hn; cases hn
      · obtain ⟨hits, bs', hfst, heq, hB, hBP, hHit, hMiss⟩ :=
          ih pre' ({ e with health := e.health - 1 } :: tail) (bpre ++ bsuf) sc hlen'
        refine ⟨hits ++ [(e, some b)], bs', ?_, ?_, hsub bs' hB, hperm bs' hits hBP, ?_, ?_⟩
        · simp [hfst]
        · rw [EnemyManager.bulletLoop]
          simp only [hget, hscan]
          have h1 : (e.takeDamage 1).1 = false := by rw [htd.1]; simpa using hd
          simp only [h1, htd.2.2.2 hd]
          have : (pre' ++ [e] ++ tail).set i { e with health := e.health - 1 }
              = pre' ++ { e with health := e.health - 1 } :: tail := by
            rw [hform, ← hlen']
            exact set_append_cons_length pre' e _ tail
          simp only [Bool.false_eq_true, if_false]
          rw [this, herase, heq]
          simp [EnemyManager.afterPass, EnemyManager.award, hd]
        · intro h hh b' hb'
          rcases List.mem_append.mp hh with hh | hh
          · exact hHit h hh b' hb'
          · rw [List.mem_singleton.mp hh] at hb' ⊢
            cases hb'
            exact hhit
        · intro h hh hn b' hb'
          rcases List.mem_append.mp hh with hh | hh
          · exact hMiss h hh hn b' hb'
          · rw [List.mem_singleton.mp hh] at hn; cases hn

/-- C7. `EnemyManager.checkBulletCollisions(player)`, for every enemy list and bullet list.
There is a list `hits` pairing each enemy, in order, with the bullet that hit it, if one did
(so an enemy is hit by at most one bullet), such that: each hit enemy overlapped its bullet,
and the remaining bullets with the bullets of `hits` are the original bullets up to order, so
every hit removes exactly its bullet; an enemy that was not hit stays unchanged and overlaps
no remaining bullet; a hit enemy whose health minus 1 is 0 or below is removed and its points
are awarded; a hit enemy with health left stays, in place, with exactly 1 health less and
awards nothing; the returned score is the sum of the awards. -/
theorem enemy_bullet_pass (m : EnemyManager) (player : Player) :
    ∃ (hits : List (Enemy × Option Bullet)) (bs' : List Bullet),
      hits.map Prod.fst = m.enemies ∧
      m.checkBulletCollisions player
        = ((hits.map EnemyManager.award).sum,
           { m with enemies := hits.filterMap EnemyManager.afterPass },
           { player with bullets := bs' }) ∧
      bs'.Sublist player.bullets ∧ (bs' ++ hits.filterMap Prod.snd).Perm player.bullets ∧
      player.bullets.length = bs'.length + (hits.filterMap Prod.snd).length ∧
      (∀ h ∈ hits, ∀ b, h.2 = some b → Utils.circleCollision h.1.circle b.circle = true) ∧
      (∀ h ∈ hits, h.2 = none →
        ∀ b ∈ bs', Utils.circleCollision h.1.circle b.circle = false) ∧
      (∀ h ∈ hits,
        (h.2 = none → EnemyManager.afterPass h = some h.1 ∧ EnemyManager.award h = 0) ∧
        (h.2 ≠ none → h.1.health - 1 ≤ 0 →
          EnemyManager.afterPass h = none ∧ EnemyManager.award h = h.1.points) ∧
        (h.2 ≠ none → 0 < h.1.health - 1 →
          EnemyManager.afterPass h = some { h.1 with health := h.1.health - 1 } ∧
          EnemyManager.award h = 0)) := by
  obtain ⟨hits, bs', hfst, heq, hB, hBP, hHit, hMiss⟩ :=
    EnemyManager.enemyLoop_spec m.enemies.length m.enemies [] player.bullets 0 rfl
  rw [List.append_nil] at heq
  refine ⟨hits, bs', hfst, ?_, hB, hBP, ?_, hHit, hMiss, ?_⟩
  · simp only [EnemyManager.checkBulletCollisions, heq]
    simp
  · have := hBP.length_eq
    simp only [List.length_append] at this
    omega
  · intro h _
    refine ⟨?_, ?_, ?_⟩
    · intro hn
      simp [EnemyManager.afterPass, EnemyManager.award, hn]
    · intro hs hd
      cases h2 : h.2 with
      | none => exact absurd h2 hs
      | some b => simp [EnemyManager.afterPass, EnemyManager.award, h2, hd]
    · intro hs hd
      have hd' : ¬ h.1.health - 1 ≤ 0 := not_le.mpr hd
      cases h2 : h.2 with
      | none => exact absurd h2 hs
      | some b => simp [EnemyManager.afterPass, EnemyManager.award, h2, hd']

/-- C7, at one tracker (health 2) and one basic enemy (health 1), each under one bullet: the
tracker stays with health 1, the basic enemy is removed for 150 points, no bullet is left. -/
theorem enemy_bullet_pass_example :
    ({ EnemyManager.new 800 600 with
        enemies := [⟨100, 100, EnemyType.tracker, 800, true, 2, 0, [], 0, 0, 0, 0⟩,
                    ⟨300, 100, EnemyType.basic, 800, true, 1, 0, [], 300, 30, 0, 0⟩] }
        : EnemyManager).checkBulletCollisions
        { Player.new 400 500 40 40 with
          bullets := [⟨100, 101, 3, "#4a90e2"⟩, ⟨300, 101, 3, "#4a90e2"⟩] }
      = (150,
         { EnemyManager.new 800 600 with
            enemies := [⟨100, 100, EnemyType.tracker, 800, true, 1, 0, [], 0, 0, 0, 0⟩] },
         Player.new 400 500 40 40) := by
  decide!

/-! ## Theorems on the collision pass -/

theorem PowerUpManager.checkCollisions_circle (pm : PowerUpManager) (p q : Player)
    (h : p.circle = q.circle) : pm.checkCollisions p = pm.checkCollisions q := by
  have : (fun powerUp : PowerUp => powerUp.checkCollision p)
      = (fun powerUp : PowerUp => powerUp.checkCollision q) := by
    funext u
    simp only [PowerUp.checkCollision, h]
  simp only [PowerUpManager.checkCollisions, this]

theorem Player.takeDamage_circle (p : Player) : p.takeDamage.2.circle = p.circle := by
  cases h : p.isInvulnerable <;> simp [Player.takeDamage, h, Player.circle, Player.radius]

theorem Player.applyPowerUp_fields (t : PowerUpType) (p : Player) :
    (p.applyPowerUp t).powerUpType = some t ∧ (p.applyPowerUp t).powerUpTime = 0 ∧
    (p.applyPowerUp t).lives = p.lives ∧ (p.applyPowerUp t).circle = p.circle := by
  cases t <;> exact ⟨rfl, rfl, rfl, rfl⟩

/-- What `PowerUpManager.checkCollisions` does: nothing if no power-up overlaps the player;
otherwise it splices out the overlapping power-up that comes last in the list and returns
its type. -/
theorem PowerUpManager.checkCollisions_spec (pm : PowerUpManager) (player : Player) :
    ((∀ u ∈ pm.powerUps, u.checkCollision player = false) →
      pm.checkCollisions player = (none, pm)) ∧
    ((∃ u ∈ pm.powerUps, u.checkCollision player = true) →
      ∃ pre u suf, pm.powerUps = pre ++ u :: suf ∧ u.checkCollision player = true ∧
        (∀ v ∈ suf, v.checkCollision player = false) ∧
        pm.checkCollisions player = (some u.type, { pm with powerUps := pre ++ suf })) := by
  constructor
  · intro h
    have := scanDown_eq_none_of_forall (fun powerUp : PowerUp => powerUp.checkCollision player)
      pm.powerUps pm.powerUps.length h
    simp only [PowerUpManager.checkCollisions, this]
  · rintro ⟨u, hu, hhit⟩
    cases hscan : scanDown (fun powerUp : PowerUp => powerUp.checkCollision player)
        pm.powerUps pm.powerUps.length with
    | none =>
      have := scanDown_none _ pm.powerUps hscan u hu
      simp only at this
      rw [hhit] at this
      cases this
    | some j =>
      obtain ⟨pre, x, suf, hsplit, _, hx, hsuf, hget, herase⟩ :=
        scanDown_some _ pm.powerUps j hscan
      refine ⟨pre, x, suf, hsplit, hx, hsuf, ?_⟩
      simp only [PowerUpManager.checkCollisions, hscan, hget, herase]

theorem Enemy.checkBulletCollision_fst (player : Player) (e : Enemy)
    (hinv : player.isInvulnerable = false) :
    (e.checkBulletCollision player).1 = true ↔
      ∃ b ∈ e.bullets, Utils.circleCollision b.circle player.circle = true := by
  simp only [Enemy.checkBulletCollision, hinv]
  cases hscan : scanDown (fun bullet : EnemyBullet =>
      Utils.circleCollision bullet.circle player.circle) e.bullets e.bullets.length with
  | none =>
    have := scanDown_none _ e.bullets hscan
    simp only at this
    constructor
    · intro h; simp at h
    · rintro ⟨b, hb, hhit⟩
      rw [this b hb] at hhit
      cases hhit
  | some j =>
    obtain ⟨pre, x, suf, hsplit, _, hx, _, _, _⟩ := scanDown_some _ e.bullets j hscan
    constructor
    · intro _
      exact ⟨x, by rw [hsplit]; simp, hx⟩
    · intro _; simp

theorem EnemyManager.playerLoop_fst (player : Player) (n : ℕ) (es : List Enemy) :
    (EnemyManager.playerLoop player n es).1 = true ↔
      ∃ k, k < n ∧ ∃ e, es[k]? = some e ∧
        (Utils.circleCollision e.circle player.circle = true ∨
          (e.type = EnemyType.shooter ∧ (e.checkBulletCollision player).1 = true)) := by
  induction n with
  | zero => simp [EnemyManager.playerLoop]
  | succ i ih =>
    cases hi : es[i]? with
    | none =>
      have : EnemyManager.playerLoop player (i + 1) es = EnemyManager.playerLoop player i es := by
        simp [EnemyManager.playerLoop, hi]
      rw [this, ih]
      constructor
      · rintro ⟨k, hk, h⟩
        exact ⟨k, by omega, h⟩
      · rintro ⟨k, hk, e, he, h⟩
        rcases Nat.lt_succ_iff_lt_or_eq.mp hk with hlt | heq
        · exact ⟨k, hlt, e, he, h⟩
        · subst heq; rw [hi] at he; cases he
    | some x =>
      by_cases hc : Utils.circleCollision x.circle player.circle = true ∨
          (x.type = EnemyType.shooter ∧ (x.checkBulletCollision player).1 = true)
      · have : (EnemyManager.playerLoop player (i + 1) es).1 = true := by
          rw [EnemyManager.playerLoop]
          simp only [hi]
          rcases hc with hc | hc
          · simp [hc]
          · by_cases hb : Utils.circleCollision x.circle player.circle = true
            · simp [hb]
            · simp [hb, hc]
        simp only [this, true_iff]
        exact ⟨i, Nat.lt_succ_self _, x, hi, hc⟩
      · have : EnemyManager.playerLoop player (i + 1) es = EnemyManager.playerLoop player i es := by
          rw [EnemyManager.playerLoop]
          simp only [hi]
          push_neg at hc
          have h1 : ¬ Utils.circleCollision x.circle player.circle = true := hc.1
          have h2 : ¬ (x.type = EnemyType.shooter ∧ (x.checkBulletCollision player).1 = true) :=
            fun h => hc.2 h.1 h.2
          simp [h1, h2]
        rw [this, ih]
        constructor
        · rintro ⟨k, hk, h⟩
          exact ⟨k, by omega, h⟩
        · rintro ⟨k, hk, e, he, h⟩
          rcases Nat.lt_succ_iff_lt_or_eq.mp hk with hlt | heq
          · exact ⟨k, hlt, e, he, h⟩
          · subst heq; rw [hi] at he; cases he; exact absurd h hc

/-- `EnemyManager.checkPlayerCollision` returns `true` exactly when the player is not
invulnerable and overlaps the body of an enemy or a bullet of a shooter. -/
theorem EnemyManager.checkPlayerCollision_fst (em : EnemyManager) (player : Player) :
    (em.checkPlayerCollision player).1 = true ↔
      player.isInvulnerable = false ∧
      ∃ e ∈ em.enemies, Utils.circleCollision e.circle player.circle = true ∨
        (e.type = EnemyType.shooter ∧
          ∃ b ∈ e.bullets, Utils.circleCollision b.circle player.circle = true) := by
  cases hinv : player.isInvulnerable with
  | true => simp [EnemyManager.checkPlayerCollision, hinv]
  | false =>
    simp only [EnemyManager.checkPlayerCollision, hinv, Bool.false_eq_true, if_false, true_and]
    rw [EnemyManager.playerLoop_fst]
    constructor
    · rintro ⟨k, _, e, he, h⟩
      refine ⟨e, List.getElem?_mem he, ?_⟩
      rcases h with h | ⟨h1, h2⟩
      · exact Or.inl h
      · exact Or.inr ⟨h1, (Enemy.checkBulletCollision_fst player e hinv).mp h2⟩
    · rintro ⟨e, he, h⟩
      obtain ⟨k, hk⟩ := List.mem_iff_getElem?.mp he
      have hlt : k < em.enemies.length := by
        rcases List.getElem?_eq_some.mp hk with ⟨h, _⟩
        exact h
      refine ⟨k, hlt, e, hk, ?_⟩
      rcases h with h | ⟨h1, h2⟩
      · exact Or.inl h
      · exact Or.inr ⟨h1, (Enemy.checkBulletCollision_fst player e hinv).mpr h2⟩

/-- `AsteroidManager.checkPlayerCollision` returns `true` exactly when the player is not
invulnerable and overlaps an asteroid. -/
theorem AsteroidManager.checkPlayerCollision_iff (am : AsteroidManager) (player : Player) :
    am.checkPlayerCollision player = true ↔
      player.isInvulnerable = false ∧
      ∃ a ∈ am.asteroids, Utils.circleCollision a.circle player.circle = true := by
  cases hinv : player.isInvulnerable <;>
    simp [AsteroidManager.checkPlayerCollision, hinv]

/-- The player handed to the power-up step of `CollisionManager.checkCollisions`, and the
flag `playerDamaged`, in terms of the lists left by the two bullet passes. -/
theorem CollisionManager.checkCollisions_damage (env : MathEnv) (d : ℕ → ℕ → ChildDraws)
    (w : World) :
    ((CollisionManager.checkCollisions env d w).1.playerDamaged = true ↔
      w.player.isInvulnerable = false ∧
      ((∃ a ∈ (w.asteroidManager.checkBulletCollisions env d w.player).2.1.asteroids,
          Utils.circleCollision a.circle w.player.circle = true) ∨
        (∃ e ∈ (w.enemyManager.checkBulletCollisions
            (w.asteroidManager.checkBulletCollisions env d w.player).2.2).2.1.enemies,
          Utils.circleCollision e.circle w.player.circle = true ∨
          (e.type = EnemyType.shooter ∧
            ∃ b ∈ e.bullets, Utils.circleCollision b.circle w.player.circle = true)))) ∧
    (CollisionManager.checkCollisions env d w).2.player.lives
      = (if (CollisionManager.checkCollisions env d w).1.playerDamaged then w.player.lives - 1
         else w.player.lives) ∧
    (CollisionManager.checkCollisions env d w).2.player.circle = w.player.circle ∧
    (CollisionManager.checkCollisions env d w).1.powerUpCollected
      = (w.powerUpManager.checkCollisions w.player).1 ∧
    (CollisionManager.checkCollisions env d w).2.powerUpManager
      = (w.powerUpManager.checkCollisions w.player).2 ∧
    (∀ t, (CollisionManager.checkCollisions env d w).1.powerUpCollected = some t →
      (CollisionManager.checkCollisions env d w).2.player.powerUpType = some t ∧
      (CollisionManager.checkCollisions env d w).2.player.powerUpTime = 0) := by
  rcases h1 : w.asteroidManager.checkBulletCollisions env d w.player with ⟨s1, am1, p1⟩
  rcases h2 : w.enemyManager.checkBulletCollisions p1 with ⟨s2, em2, p2⟩
  have hp1 : p1.isInvulnerable = w.player.isInvulnerable ∧ p1.lives = w.player.lives ∧
      p1.circle = w.player.circle := by
    have := congrArg (fun r => r.2.2) h1
    simp only at this
    rw [← this]
    exact ⟨rfl, rfl, rfl⟩
  have hp2 : p2.isInvulnerable = w.player.isInvulnerable ∧ p2.lives = w.player.lives ∧
      p2.circle = w.player.circle := by
    have := congrArg (fun r => r.2.2) h2
    simp only at this
    rw [← this, ← hp1.1, ← hp1.2.1, ← hp1.2.2]
    exact ⟨rfl, rfl, rfl⟩
  -- the player and the flag before the power-up step
  have key : ∃ (flag : Bool) (p5 : Player),
      (flag = true ↔ w.player.isInvulnerable = false ∧
        ((∃ a ∈ am1.asteroids, Utils.circleCollision a.circle w.player.circle = true) ∨
          (∃ e ∈ em2.enemies, Utils.circleCollision e.circle w.player.circle = true ∨
            (e.type = EnemyType.shooter ∧
              ∃ b ∈ e.bullets, Utils.circleCollision b.circle w.player.circle = true)))) ∧
      p5.lives = (if flag then w.player.lives - 1 else w.player.lives) ∧
      p5.circle = w.player.circle ∧
      CollisionManager.checkCollisions env d w
        = ({ score := s1 + s2, playerDamaged := flag,
             powerUpCollected := (w.powerUpManager.checkCollisions p5).1 },
           { player := match (w.powerUpManager.checkCollisions p5).1 with
               | some powerUpType => p5.applyPowerUp powerUpType
               | none => p5
             asteroidManager := am1
             enemyManager := (em2.checkPlayerCollision
               (if am1.checkPlayerCollision p2 then p2.takeDamage else (false, p2)).2).2
             powerUpManager := (w.powerUpManager.checkCollisions p5).2 }) := by
    have hA := AsteroidManager.checkPlayerCollision_iff am1 p2
    rw [hp2.1, hp2.2.2] at hA
    by_cases hhitA : am1.checkPlayerCollision p2 = true
    · -- an asteroid overlaps: the player is damaged and the enemy check is skipped
      have hinv := (hA.mp hhitA).1
      have hinv2 : p2.isInvulnerable = false := by rw [hp2.1]; exact hinv
      have htd : p2.takeDamage = (true, p2.takeDamage.2) := by
        simp [Player.takeDamage, hinv2]
      have htdinv : p2.takeDamage.2.isInvulnerable = true := by
        simp [Player.takeDamage, hinv2]
      have hE : (em2.checkPlayerCollision p2.takeDamage.2).1 = false := by
        simp [EnemyManager.checkPlayerCollision, htdinv]
      refine ⟨true, p2.takeDamage.2, ?_, ?_, ?_, ?_⟩
      · simp only [true_iff]
        exact ⟨hinv, Or.inl (hA.mp hhitA).2⟩
      · simp [Player.takeDamage, hinv2, hp2.2.1]
      · rw [Player.takeDamage_circle, hp2.2.2]
      · simp only [CollisionManager.checkCollisions, h1, h2, hhitA, if_true, hE]
        rw [htd]
        all_goals rfl
    · have hA' : am1.checkPlayerCollision p2 = false := by
        cases h : am1.checkPlayerCollision p2
        · rfl
        · exact absurd h hhitA
      have hE := EnemyManager.checkPlayerCollision_fst em2 p2
      rw [hp2.1, hp2.2.2] at hE
      by_cases hhitE : (em2.checkPlayerCollision p2).1 = true
      · have hinv := (hE.mp hhitE).1
        have hinv2 : p2.isInvulnerable = false := by rw [hp2.1]; exact hinv
        have htd : p2.takeDamage = (true, p2.takeDamage.2) := by
          simp [Player.takeDamage, hinv2]
        refine ⟨true, p2.takeDamage.2, ?_, ?_, ?_, ?_⟩
        · simp only [true_iff]
          exact ⟨hinv, Or.inr (hE.mp hhitE).2⟩
        · simp [Player.takeDamage, hinv2, hp2.2.1]
        · rw [Player.takeDamage_circle, hp2.2.2]
        · simp only [CollisionManager.checkCollisions, h1, h2, hA', Bool.false_eq_true,
            if_false, hhitE, if_true]
          rw [htd]
          try rfl
      · have hE' : (em2.checkPlayerCollision p2).1 = false := by
          cases h : (em2.checkPlayerCollision p2).1
          · rfl
          · exact absurd h hhitE
        refine ⟨false, p2, ?_, ?_, hp2.2.2, ?_⟩
        · simp only [Bool.false_eq_true, false_iff]
          rintro ⟨hinv, h | h⟩
          · exact hhitA (hA.mpr ⟨hinv, h⟩)
          · exact hhitE (hE.mpr ⟨hinv, h⟩)
        · simp [hp2.2.1]
        · simp only [CollisionManager.checkCollisions, h1, h2, hA', Bool.false_eq_true,
            if_false, hE']
          try rfl
  obtain ⟨flag, p5, hflag, hlives, hcircle, heq⟩ := key
  have hpu := PowerUpManager.checkCollisions_circle w.powerUpManager p5 w.player hcircle
  rw [heq]
  refine ⟨hflag, ?_, ?_, ?_, ?_, ?_⟩
  · simp only
    cases hc : (w.powerUpManager.checkCollisions p5).1 with
    | none => simpa using hlives
    | some t => simp only; rw [(Player.applyPowerUp_fields t p5).2.2.1]; exact hlives
  · simp only
    cases hc : (w.powerUpManager.checkCollisions p5).1 with
    | none => simpa using hcircle
    | some t => simp only; rw [(Player.applyPowerUp_fields t p5).2.2.2]; exact hcircle
  · simp only [hpu]
  · simp only [hpu]
  · intro t ht
    simp only at ht
    simp only [ht]
    exact ⟨(Player.applyPowerUp_fields t p5).1, (Player.applyPowerUp_fields t p5).2.1⟩

/-! ## Theorems on the collision pass and the game loop -/

/-- C8. `CollisionManager.checkCollisions` sets `playerDamaged` exactly when the player was
not invulnerable on entry and overlaps, in the lists left by the two bullet passes, an
asteroid, the body of an enemy, or a bullet of a shooter enemy. Lives drops by exactly 1 when
`playerDamaged` is set and is unchanged otherwise, so never by more than 1 in one call; for a
player invulnerable on entry, `playerDamaged` is `false` and lives is unchanged. -/
theorem collision_player_damage (env : MathEnv) (d : ℕ → ℕ → ChildDraws) (w : World) :
    ((CollisionManager.checkCollisions env d w).1.playerDamaged = true ↔
      w.player.isInvulnerable = false ∧
      ((∃ a ∈ (w.asteroidManager.checkBulletCollisions env d w.player).2.1.asteroids,
          Utils.circleCollision a.circle w.player.circle = true) ∨
        (∃ e ∈ (w.enemyManager.checkBulletCollisions
            (w.asteroidManager.checkBulletCollisions env d w.player).2.2).2.1.enemies,
          Utils.circleCollision e.circle w.player.circle = true ∨
          (e.type = EnemyType.shooter ∧
            ∃ b ∈ e.bullets, Utils.circleCollision b.circle w.player.circle = true)))) ∧
    (CollisionManager.checkCollisions env d w).2.player.lives
      = (if (CollisionManager.checkCollisions env d w).1.playerDamaged then w.player.lives - 1
         else w.player.lives) ∧
    (w.player.isInvulnerable = true →
      (CollisionManager.checkCollisions env d w).1.playerDamaged = false ∧
      (CollisionManager.checkCollisions env d w).2.player.lives = w.player.lives) := by
  have h := CollisionManager.checkCollisions_damage env d w
  refine ⟨h.1, h.2.1, ?_⟩
  intro hinv
  have hf : (CollisionManager.checkCollisions env d w).1.playerDamaged = false := by
    cases hc : (CollisionManager.checkCollisions env d w).1.playerDamaged
    · rfl
    · have := (h.1.mp hc).1
      rw [hinv] at this
      cases this
  refine ⟨hf, ?_⟩
  rw [h.2.1, hf]
  simp

/-- C8, at a player that overlaps both an asteroid and an enemy: one life is lost, not two. -/
theorem collision_player_damage_example :
    (CollisionManager.checkCollisions Examples.env Examples.tick.breaks
      { player := Examples.player
        asteroidManager :=
          { AsteroidManager.new 800 600 with asteroids := [⟨400, 470, 1, 1, 0, 0, 0, 0, 0⟩] }
        enemyManager :=
          { EnemyManager.new 800 600 with
            enemies := [⟨400, 510, EnemyType.basic, 800, true, 1, 0, [], 400, 30, 0, 0⟩] }
        powerUpManager := PowerUpManager.new 800 600 }).1.playerDamaged = true ∧
    (CollisionManager.checkCollisions Examples.env Examples.tick.breaks
      { player := Examples.player
        asteroidManager :=
          { AsteroidManager.new 800 600 with asteroids := [⟨400, 470, 1, 1, 0, 0, 0, 0, 0⟩] }
        enemyManager :=
          { EnemyManager.new 800 600 with
            enemies := [⟨400, 510, EnemyType.basic, 800, true, 1, 0, [], 400, 30, 0, 0⟩] }
        powerUpManager := PowerUpManager.new 800 600 }).2.player.lives = 2 := by
  decide!

/-- C8, at an invulnerable player on top of an asteroid: no damage is reported. -/
theorem collision_player_damage_witness :
    (CollisionManager.checkCollisions Examples.env Examples.tick.breaks
      { player := { Examples.player with isInvulnerable := true }
        asteroidManager :=
          { AsteroidManager.new 800 600 with asteroids := [⟨400, 470, 1, 1, 0, 0, 0, 0, 0⟩] }
        enemyManager := EnemyManager.new 800 600
        powerUpManager := PowerUpManager.new 800 600 }).1.playerDamaged = false :=
  ((collision_player_damage Examples.env Examples.tick.breaks
      { player := { Examples.player with isInvulnerable := true }
        asteroidManager :=
          { AsteroidManager.new 800 600 with asteroids := [⟨400, 470, 1, 1, 0, 0, 0, 0, 0⟩] }
        enemyManager := EnemyManager.new 800 600
        powerUpManager := PowerUpManager.new 800 600 }).2.2 rfl).1

/-- C9, counterexample: with a `rapidFire` and a `shield` power-up both on the player, in
that list order, the first overlapping power-up in list order is the `rapidFire`, but
`checkCollisions` returns `shield` and leaves the `rapidFire` in the list. -/
theorem powerUp_collection_takes_last :
    Examples.twoPowerUps.powerUps.find? (fun u => u.checkCollision Examples.player)
      = some ⟨400, 500, PowerUpType.rapidFire, true, 0⟩ ∧
    (Examples.twoPowerUps.checkCollisions Examples.player).1 = some PowerUpType.shield ∧
    (Examples.twoPowerUps.checkCollisions Examples.player).2.powerUps
      = [⟨400, 500, PowerUpType.rapidFire, true, 0⟩] := by
  decide!

/-- C9, amended. `PowerUpManager.checkCollisions`: if no power-up overlaps the player, the
list is unchanged and `null` is returned; otherwise exactly one power-up is removed, the
overlapping one that comes last in the list (the loop scans from the end), and its type is
returned. In `CollisionManager.checkCollisions` the returned type is `powerUpCollected` and is
applied to the player: the active power-up is that type with elapsed time 0. -/
theorem powerUp_collection (env : MathEnv) (d : ℕ → ℕ → ChildDraws) (w : World) :
    ((∀ u ∈ w.powerUpManager.powerUps, u.checkCollision w.player = false) →
      w.powerUpManager.checkCollisions w.player = (none, w.powerUpManager)) ∧
    ((∃ u ∈ w.powerUpManager.powerUps, u.checkCollision w.player = true) →
      ∃ pre u suf, w.powerUpManager.powerUps = pre ++ u :: suf ∧
        u.checkCollision w.player = true ∧
        (∀ v ∈ suf, v.checkCollision w.player = false) ∧
        w.powerUpManager.checkCollisions w.player
          = (some u.type, { w.powerUpManager with powerUps := pre ++ suf })) ∧
    (CollisionManager.checkCollisions env d w).1.powerUpCollected
      = (w.powerUpManager.checkCollisions w.player).1 ∧
    (CollisionManager.checkCollisions env d w).2.powerUpManager
      = (w.powerUpManager.checkCollisions w.player).2 ∧
    (∀ t, (CollisionManager.checkCollisions env d w).1.powerUpCollected = some t →
      (CollisionManager.checkCollisions env d w).2.player.powerUpType = some t ∧
      (CollisionManager.checkCollisions env d w).2.player.powerUpTime = 0) := by
  have h := CollisionManager.checkCollisions_damage env d w
  have hs := PowerUpManager.checkCollisions_spec w.powerUpManager w.player
  exact ⟨hs.1, hs.2, h.2.2.2.1, h.2.2.2.2.1, h.2.2.2.2.2⟩

/-- C9 amended, at the two power-ups of the counterexample: the `shield` is collected and
applied. -/
theorem powerUp_collection_witness :
    (CollisionManager.checkCollisions Examples.env Examples.tick.breaks
      ⟨Examples.player, AsteroidManager.new 800 600, EnemyManager.new 800 600,
        Examples.twoPowerUps⟩).2.player.powerUpType = some PowerUpType.shield :=
  ((powerUp_collection Examples.env Examples.tick.breaks
    ⟨Examples.player, AsteroidManager.new 800 600, EnemyManager.new 800 600,
      Examples.twoPowerUps⟩).2.2.2.2 PowerUpType.shield (by decide!)).1

/-- The two properties of the game after `Game.update` that the game-over rule concerns. -/
theorem Game.update_running (env : MathEnv) (d : TickDraws) (dt : ℚ) (g : Game) :
    (g.update env d dt).isRunning
      = (g.isRunning && !((g.collide env d dt).1.playerDamaged &&
          decide ((g.collide env d dt).2.player.lives ≤ 0))) ∧
    (g.update env d dt).player.lives = (g.collide env d dt).2.player.lives := by
  have h0 : (g.updateObjects env d dt).isRunning = g.isRunning := rfl
  rw [← h0]
  unfold Game.update
  generalize g.collide env d dt = r
  generalize g.updateObjects env d dt = g0
  simp only [Game.gameOver, Game.increaseDifficulty]
  cases hd : r.1.playerDamaged <;> by_cases hl : r.2.player.lives ≤ 0 <;>
    split_ifs <;> simp_all

/-- C10, counterexample: in the game `lastLifeShooting` the player has one life, is not
invulnerable and, after the tick's movement, overlaps the only asteroid; but the player's
bullet overlaps that asteroid too and destroys it in the bullet pass, before the player is
tested. The tick reports no damage, lives stays 1, the game keeps running and 100 points are
scored. -/
theorem overlap_after_movement_without_game_over :
    Examples.lastLifeShooting.player.lives = 1 ∧
    Examples.lastLifeShooting.player.isInvulnerable = false ∧
    (Examples.lastLifeShooting.updateObjects Examples.env Examples.tick 16).asteroidManager.asteroids.length
      = 1 ∧
    (∃ a ∈ (Examples.lastLifeShooting.updateObjects Examples.env Examples.tick
        16).asteroidManager.asteroids,
      Utils.circleCollision a.circle
        (Examples.lastLifeShooting.updateObjects Examples.env Examples.tick 16).player.circle
        = true) ∧
    (Examples.lastLifeShooting.collide Examples.env Examples.tick 16).1.playerDamaged = false ∧
    (Examples.lastLifeShooting.update Examples.env Examples.tick 16).player.lives = 1 ∧
    (Examples.lastLifeShooting.update Examples.env Examples.tick 16).player.score = 100 ∧
    (Examples.lastLifeShooting.update Examples.env Examples.tick 16).isRunning = true := by
  decide!

/-- C10, amended. A running game enters the terminal state (`isRunning = false`) in a tick
exactly when the tick's collision pass reports `playerDamaged` and lives is 0 or below
afterwards. In particular, a player with one life who is not invulnerable and who overlaps,
after the tick's movement and the asteroid bullet pass, an asteroid still in the list, gives
`playerDamaged = true`, lives 0 and game over in that one call. -/
theorem game_over_transition (env : MathEnv) (d : TickDraws) (dt : ℚ) (g : Game) :
    (g.isRunning = true →
      ((g.update env d dt).isRunning = false ↔
        (g.collide env d dt).1.playerDamaged = true ∧
        (g.collide env d dt).2.player.lives ≤ 0)) ∧
    (g.update env d dt).player.lives = (g.collide env d dt).2.player.lives ∧
    (g.player.lives = 1 → g.player.isInvulnerable = false →
      (∃ a ∈ ((g.updateObjects env d dt).asteroidManager.checkBulletCollisions env d.breaks
          (g.updateObjects env d dt).player).2.1.asteroids,
        Utils.circleCollision a.circle (g.updateObjects env d dt).player.circle = true) →
      (g.collide env d dt).1.playerDamaged = true ∧
      (g.update env d dt).player.lives = 0 ∧
      (g.update env d dt).isRunning = false) := by
  have hrun := Game.update_running env d dt g
  refine ⟨?_, hrun.2, ?_⟩
  · intro hr
    rw [hrun.1, hr]
    cases hd : (g.collide env d dt).1.playerDamaged <;>
      by_cases hl : (g.collide env d dt).2.player.lives ≤ 0 <;> simp [hl]
  · intro hlives hinv hover
    have hdmg := CollisionManager.checkCollisions_damage env d.breaks
      (g.updateObjects env d dt).world
    have hp : (g.updateObjects env d dt).world.player = g.player.update dt g.canvasWidth := rfl
    have hinv' : (g.updateObjects env d dt).world.player.isInvulnerable = false := by
      rw [hp]; exact Player.update_not_invulnerable dt g.canvasWidth g.player hinv
    have hlives' : (g.updateObjects env d dt).world.player.lives = 1 := by
      rw [hp, Player.update_lives]; exact hlives
    have hflag : (g.collide env d dt).1.playerDamaged = true :=
      hdmg.1.mpr ⟨hinv', Or.inl hover⟩
    have hl : (g.collide env d dt).2.player.lives = 0 := by
      have := hdmg.2.1
      rw [hlives'] at this
      simp only [Game.collide] at hflag ⊢
      rw [this, hflag]
      simp
    refine ⟨hflag, by rw [hrun.2, hl], ?_⟩
    rw [hrun.1, hflag, hl]
    simp

/-- C10 amended, at the game `lastLife`: the last life is lost and the game is over. -/
theorem game_over_transition_witness :
    (Examples.lastLife.collide Examples.env Examples.tick 16).1.playerDamaged = true ∧
    (Examples.lastLife.update Examples.env Examples.tick 16).player.lives = 0 ∧
    (Examples.lastLife.update Examples.env Examples.tick 16).isRunning = false :=
  (game_over_transition Examples.env Examples.tick 16 Examples.lastLife).2.2
    (by decide!) (by decide!) (by decide!)

/-! ## Theorems on shooting, reset and construction -/

/-- C21. `Player.shoot()` with the shoot cooldown at 0 or below appends exactly one bullet at
`(x, y - height / 2)` of radius 3, or, when `tripleShot` is active, exactly three bullets at
the horizontal offsets -10, 0 and +10 and the same `y`; it sets the cooldown to 100 when
`rapidFire` is active and to `shootCooldownTime` otherwise. With the cooldown above 0 it
appends no bullet and changes no field. -/
theorem shoot_contract (p : Player) :
    (p.shootCooldown ≤ 0 → p.powerUpType ≠ some PowerUpType.tripleShot →
      p.shoot.bullets = p.bullets ++ [⟨p.x, p.y - p.height / 2, 3, p.bulletColor⟩]) ∧
    (p.shootCooldown ≤ 0 → p.powerUpType = some PowerUpType.tripleShot →
      p.shoot.bullets = p.bullets ++
        [⟨p.x - 10, p.y - p.height / 2, 3, "#9900ff"⟩,
         ⟨p.x, p.y - p.height / 2, 3, "#9900ff"⟩,
         ⟨p.x + 10, p.y - p.height / 2, 3, "#9900ff"⟩]) ∧
    (p.shootCooldown ≤ 0 → p.powerUpType = some PowerUpType.rapidFire →
      p.shoot.shootCooldown = 100) ∧
    (p.shootCooldown ≤ 0 → p.powerUpType ≠ some PowerUpType.rapidFire →
      p.shoot.shootCooldown = p.shootCooldownTime) ∧
    (0 < p.shootCooldown → p.shoot = p) := by
  refine ⟨?_, ?_, ?_, ?_, ?_⟩
  · intro hc ht
    simp [Player.shoot, hc, ht, Player.bulletSize]
  · intro hc ht
    simp [Player.shoot, hc, ht, Player.bulletSize]
  · intro hc ht
    simp [Player.shoot, hc, ht]
  · intro hc ht
    simp [Player.shoot, hc, ht]
  · intro hc
    simp [Player.shoot, not_le.mpr hc]

/-- C21, at a fresh player with `tripleShot`: three bullets. -/
theorem shoot_contract_witness :
    ((Player.new 400 500 40 40).applyPowerUp PowerUpType.tripleShot).shoot.bullets
      = [⟨390, 480, 3, "#9900ff"⟩, ⟨400, 480, 3, "#9900ff"⟩, ⟨410, 480, 3, "#9900ff"⟩] :=
  ((shoot_contract ((Player.new 400 500 40 40).applyPowerUp PowerUpType.tripleShot)).2.1
    (by decide!) rfl).trans (by decide!)

/-- C23, the code at the failing input, with what `reset` does in general. `Player.reset(x, y)`
gives the freshly constructed player except that `shootCooldownTime` and `bulletColor` keep
their old values; a fresh player that takes `rapidFire` and is then reset has no power-up, but
still a cooldown time of 100 and the orange bullet colour, and differs from a fresh player. -/
theorem reset_keeps_cooldown_time_and_colour :
    (∀ (p : Player) (x y : ℚ),
      p.reset x y = { Player.new x y p.width p.height with
        shootCooldownTime := p.shootCooldownTime, bulletColor := p.bulletColor }) ∧
    (((Player.new 400 500 40 40).applyPowerUp PowerUpType.rapidFire).reset 400 500).powerUpType
      = none ∧
    (((Player.new 400 500 40 40).applyPowerUp PowerUpType.rapidFire).reset
      400 500).shootCooldownTime = 100 ∧
    (((Player.new 400 500 40 40).applyPowerUp PowerUpType.rapidFire).reset 400 500).bulletColor
      = "#ff9900" ∧
    ((Player.new 400 500 40 40).applyPowerUp PowerUpType.rapidFire).reset 400 500
      ≠ Player.new 400 500 40 40 ∧
    (((Player.new 400 500 40 40).applyPowerUp PowerUpType.rapidFire).reset
      400 500).shoot.shootCooldown = 100 := by
  refine ⟨fun p x y => rfl, ?_, ?_, ?_, ?_, ?_⟩ <;> decide!

/-- C24, counterexample: constructing an enemy with the type string `boss` gives an active
enemy with the stats of a basic enemy. -/
theorem unknown_enemy_type_gets_basic_stats :
    (Enemy.new Examples.env ⟨Examples.zero, Examples.zero, Examples.zero⟩ 400 (-50)
      (EnemyType.other "boss") 800).active = true ∧
    (Enemy.new Examples.env ⟨Examples.zero, Examples.zero, Examples.zero⟩ 400 (-50)
      (EnemyType.other "boss") 800).health
      = (Enemy.new Examples.env ⟨Examples.zero, Examples.zero, Examples.zero⟩ 400 (-50)
          EnemyType.basic 800).health ∧
    (Enemy.new Examples.env ⟨Examples.zero, Examples.zero, Examples.zero⟩ 400 (-50)
      (EnemyType.other "boss") 800).points
      = (Enemy.new Examples.env ⟨Examples.zero, Examples.zero, Examples.zero⟩ 400 (-50)
          EnemyType.basic 800).points ∧
    (Enemy.new Examples.env ⟨Examples.zero, Examples.zero, Examples.zero⟩ 400 (-50)
      (EnemyType.other "boss") 800).speed
      = (Enemy.new Examples.env ⟨Examples.zero, Examples.zero, Examples.zero⟩ 400 (-50)
          EnemyType.basic 800).speed ∧
    (Enemy.new Examples.env ⟨Examples.zero, Examples.zero, Examples.zero⟩ 400 (-50)
      (EnemyType.other "boss") 800).radius
      = (Enemy.new Examples.env ⟨Examples.zero, Examples.zero, Examples.zero⟩ 400 (-50)
          EnemyType.basic 800).radius := by
  decide!

/-- C24, amended. Constructing an enemy with a type string outside basic, tracker and shooter
raises no error: it gives an active enemy at the given position that keeps the type string
and has the stats of a basic enemy (width 30, height 30, speed 2, health 1, 150 points,
radius 15). -/
theorem unknown_enemy_type_defaults (env : MathEnv) (d : EnemyDraws) (x y canvasWidth : ℚ)
    (name : String) :
    (Enemy.new env d x y (EnemyType.other name) canvasWidth).type = EnemyType.other name ∧
    (Enemy.new env d x y (EnemyType.other name) canvasWidth).active = true ∧
    (Enemy.new env d x y (EnemyType.other name) canvasWidth).x = x ∧
    (Enemy.new env d x y (EnemyType.other name) canvasWidth).y = y ∧
    (Enemy.new env d x y (EnemyType.other name) canvasWidth).width = 30 ∧
    (Enemy.new env d x y (EnemyType.other name) canvasWidth).height = 30 ∧
    (Enemy.new env d x y (EnemyType.other name) canvasWidth).speed = 2 ∧
    (Enemy.new env d x y (EnemyType.other name) canvasWidth).health = 1 ∧
    (Enemy.new env d x y (EnemyType.other name) canvasWidth).points = 150 ∧
    (Enemy.new env d x y (EnemyType.other name) canvasWidth).radius = 15 := by
  refine ⟨rfl, rfl, rfl, rfl, rfl, rfl, rfl, rfl, rfl, ?_⟩
  simp only [Enemy.radius, Enemy.width, Enemy.height, Enemy.new]
  norm_num

/-- C25. `PowerUp.update(dt, canvasHeight)` moves the power-up down by 2 whatever `dt` is and
adds `dt` to its age; the returned flag is the `active` property afterwards, and it is `false`
exactly when the power-up was already inactive, or the new `y` is above `canvasHeight + 15`,
or the new age is above 10000; an age of exactly 10000 is still active; an inactive power-up
stays inactive. -/
theorem powerUp_update_contract (dt H : ℚ) (u : PowerUp) :
    (u.update dt H).2.y = u.y + 2 ∧
    (u.update dt H).2.age = u.age + dt ∧
    (u.update dt H).2.x = u.x ∧
    (u.update dt H).2.type = u.type ∧
    (u.update dt H).1 = (u.update dt H).2.active ∧
    ((u.update dt H).1 = false ↔
      u.active = false ∨ u.y + 2 > H + 15 ∨ u.age + dt > 10000) ∧
    (u.active = true → u.y + 2 ≤ H + 15 → u.age + dt = 10000 → (u.update dt H).1 = true) ∧
    (u.active = false → (u.update dt H).2.active = false) := by
  have hiff : (u.update dt H).1 = false ↔
      u.active = false ∨ u.y + 2 > H + 15 ∨ u.age + dt > 10000 := by
    by_cases hc : u.y + 2 > H + 15 ∨ u.age + dt > 10000
    · have hf : (u.update dt H).1 = false := by
        simp only [PowerUp.update, PowerUp.speed, PowerUp.radius, PowerUp.lifespan, hc, if_true]
      exact ⟨fun _ => Or.inr hc, fun _ => hf⟩
    · have hf : (u.update dt H).1 = u.active := by
        simp only [PowerUp.update, PowerUp.speed, PowerUp.radius, PowerUp.lifespan, hc, if_false]
      rw [hf]
      constructor
      · intro h; exact Or.inl h
      · rintro (h | h)
        · exact h
        · exact absurd h hc
  refine ⟨?_, ?_, ?_, ?_, rfl, hiff, ?_, ?_⟩
  · simp only [PowerUp.update, PowerUp.speed]; split_ifs <;> rfl
  · simp only [PowerUp.update]; split_ifs <;> rfl
  · simp only [PowerUp.update]; split_ifs <;> rfl
  · simp only [PowerUp.update]; split_ifs <;> rfl
  · intro ha hy hage
    cases hr : (u.update dt H).1
    · rcases hiff.mp hr with h | h | h
      · rw [ha] at h; cases h
      · exact absurd hy (not_le.mpr h)
      · rw [hage] at h; exact absurd h (lt_irrefl _)
    · rfl
  · intro ha
    have := hiff.mpr (Or.inl ha)
    exact this

/-- C25, at a power-up of age 9984 updated with 16 ms: age 10000, still active. -/
theorem powerUp_update_contract_witness :
    ((⟨400, 100, PowerUpType.shield, true, 9984⟩ : PowerUp).update 16 600).1 = true :=
  (powerUp_update_contract 16 600 ⟨400, 100, PowerUpType.shield, true, 9984⟩).2.2.2.2.2.2.1
    rfl (by decide!) (by decide!)

/-! ## Theorems on random ranges, culling and spawning -/

/-- The value of `Utils.randomRange` between two integers is the lower one plus an integer
between 0 and their difference. -/
theorem Utils.randomRange_eq (min max : ℤ) (h : min ≤ max) (r : Draw) :
    Utils.randomRange r min max = ((⌊r.val * ((max : ℚ) - min + 1)⌋ + min : ℤ) : ℚ) ∧
    0 ≤ ⌊r.val * ((max : ℚ) - min + 1)⌋ ∧
    ⌊r.val * ((max : ℚ) - min + 1)⌋ ≤ max - min := by
  have h0 := r.property.1
  have h1 := r.property.2
  have hk : (0 : ℚ) < (max : ℚ) - min + 1 := by
    have : (min : ℚ) ≤ max := by exact_mod_cast h
    linarith
  refine ⟨?_, ?_, ?_⟩
  · simp only [Utils.randomRange]
    push_cast
    ring
  · exact Int.floor_nonneg.mpr (mul_nonneg h0 (le_of_lt hk))
  · have hlt : r.val * ((max : ℚ) - min + 1) < (((max - min + 1 : ℤ)) : ℚ) := by
      push_cast
      nlinarith
    have := Int.floor_lt.mpr hlt
    omega

/-- C26. `Utils.randomRange(min, max)` for integers `min ≤ max` and a draw in the half-open
interval from 0 to 1 returns an integer between `min` and `max`, and both ends are returned
for suitable draws. So `randomRange(0, types.length - 1)` is an index inside the array of the
three power-up types, and `spawnPowerUp` without a forced type appends a power-up of one of
these types. -/
theorem randomRange_bounds (min max : ℤ) (h : min ≤ max) (r : Draw) :
    (∃ n : ℤ, Utils.randomRange r min max = n ∧ min ≤ n ∧ n ≤ max) ∧
    (∃ r0 : Draw, Utils.randomRange r0 min max = min) ∧
    (∃ r1 : Draw, Utils.randomRange r1 min max = max) ∧
    ⌊Utils.randomRange r 0 ((PowerUpManager.types.length : ℚ) - 1)⌋₊
      < PowerUpManager.types.length ∧
    PowerUpManager.randomType r ∈ PowerUpManager.types ∧
    (∀ (d : PowerUpSpawnDraws) (m : PowerUpManager),
      ∃ u, (m.spawnPowerUp d none).powerUps = m.powerUps ++ [u] ∧
        u.type ∈ PowerUpManager.types) := by
  refine ⟨?_, ?_, ?_, ?_, ?_, ?_⟩
  · obtain ⟨heq, hlo, hhi⟩ := Utils.randomRange_eq min max h r
    exact ⟨_, heq, by omega, by omega⟩
  · refine ⟨⟨0, by norm_num⟩, ?_⟩
    simp [Utils.randomRange]
  · have hk : (0 : ℚ) < (max : ℚ) - min + 1 := by
      have : (min : ℚ) ≤ max := by exact_mod_cast h
      linarith
    have hd : (0 : ℚ) ≤ (max : ℚ) - min := by
      have : (min : ℚ) ≤ max := by exact_mod_cast h
      linarith
    refine ⟨⟨((max : ℚ) - min) / ((max : ℚ) - min + 1),
      div_nonneg hd (le_of_lt hk), by rw [div_lt_one hk]; linarith⟩, ?_⟩
    simp only [Utils.randomRange]
    rw [div_mul_cancel₀ _ (ne_of_gt hk)]
    have : ⌊(max : ℚ) - min⌋ = max - min := by
      have : (max : ℚ) - min = ((max - min : ℤ) : ℚ) := by push_cast; ring
      rw [this, Int.floor_intCast]
    rw [this]
    push_cast
    ring
  · have hlen : PowerUpManager.types.length = 3 := rfl
    obtain ⟨heq, hlo, hhi⟩ := Utils.randomRange_eq 0 2 (by norm_num) r
    have harg : ((PowerUpManager.types.length : ℚ) - 1) = ((2 : ℤ) : ℚ) := by
      rw [hlen]; norm_num
    have h0 : (0 : ℚ) = ((0 : ℤ) : ℚ) := by norm_num
    rw [harg, h0, heq, hlen]
    apply (Nat.floor_lt' (by norm_num)).mpr
    have hz : ⌊r.val * (((2 : ℤ) : ℚ) - ((0 : ℤ) : ℚ) + 1)⌋ + 0 < 3 := by omega
    exact_mod_cast hz
  · exact List.get_mem _ _ _
  · intro d m
    exact ⟨_, rfl, List.get_mem _ _ _⟩

/-- C26, at the range from 50 to 750 and the draw 1/2. -/
theorem randomRange_bounds_witness :
    ∃ n : ℤ, Utils.randomRange ⟨1 / 2, by norm_num⟩ ((50 : ℤ) : ℚ) ((750 : ℤ) : ℚ) = n ∧
      50 ≤ n ∧ n ≤ 750 :=
  (randomRange_bounds 50 750 (by decide) ⟨1 / 2, by norm_num⟩).1

theorem Enemy.shoot_fields (e : Enemy) :
    e.shoot.active = e.active ∧ e.shoot.y = e.y ∧ e.shoot.shootCooldown = e.shootCooldown ∧
    e.shoot.type = e.type ∧ e.shoot.x = e.x := by
  unfold Enemy.shoot
  split_ifs <;> exact ⟨rfl, rfl, rfl, rfl, rfl⟩

theorem Enemy.move_active (env : MathEnv) (dt : ℚ) (player : Player) (gameTime : ℚ)
    (e : Enemy) : (e.move env dt player gameTime).active = e.active := by
  unfold Enemy.move
  split
  · rfl
  · simp only
    split_ifs <;> rfl
  · simp only
    split_ifs
    · rfl
    · exact (Enemy.shoot_fields _).1
  · rfl

/-- An enemy whose `update` returns `true` is active afterwards and within 100 units below
the player; one whose `update` returns `false` is inactive afterwards; and `update` returns
`false` exactly for an enemy that was inactive or that its move took beyond the margin. -/
theorem Enemy.update_flag (env : MathEnv) (dt : ℚ) (player : Player) (gameTime : ℚ)
    (e : Enemy) :
    ((e.update env dt player gameTime).1 = true →
      (e.update env dt player gameTime).2.active = true ∧
      (e.update env dt player gameTime).2.y ≤ player.y + 100) ∧
    ((e.update env dt player gameTime).1 = false →
      (e.update env dt player gameTime).2.active = false) ∧
    ((e.update env dt player gameTime).1 = false ↔
      e.active = false ∨ (e.move env dt player gameTime).y > player.y + 100) := by
  have hmove := Enemy.move_active env dt player gameTime e
  cases ha : e.active
  · simp [Enemy.update, ha]
  · by_cases hy : (e.move env dt player gameTime).y > player.y + 100
    · simp [Enemy.update, ha, hy]
    · have hact : (e.move env dt player gameTime).active = true := by rw [hmove, ha]
      simp only [Enemy.update, ha, hy, if_false, Bool.not_true, Bool.false_eq_true, hact]
      simp only [not_lt] at hy
      simp [hy]

/-- C27. After `EnemyManager.update(dt, player)` every enemy left in the list is active and
has `y ≤ player.y + 100`. The list is obtained from the list left by the spawn step, the
enemy spawned in this tick included, by updating each enemy exactly once, in order, and
removing exactly those whose `update` returned `false`: the enemies that were inactive or
that moved beyond the margin, all of which are inactive afterwards. -/
theorem enemy_update_cull (env : MathEnv) (d : EnemySpawnDraws) (dt : ℚ) (player : Player)
    (m : EnemyManager) :
    (m.update env d dt player).enemies
      = (((m.updateSpawn env d dt).enemies.map
            (Enemy.update env dt player (m.gameTime + dt))).filter fun r => r.1).map
          (fun r => r.2) ∧
    (∀ e ∈ (m.update env d dt player).enemies, e.active = true ∧ e.y ≤ player.y + 100) ∧
    (∀ e ∈ (m.updateSpawn env d dt).enemies,
      ((e.update env dt player (m.gameTime + dt)).1 = false ↔
        e.active = false ∨ (e.move env dt player (m.gameTime + dt)).y > player.y + 100) ∧
      ((e.update env dt player (m.gameTime + dt)).1 = false →
        (e.update env dt player (m.gameTime + dt)).2.active = false)) := by
  have hgt : (m.updateSpawn env d dt).gameTime = m.gameTime + dt := by
    simp only [EnemyManager.updateSpawn, EnemyManager.spawnEnemy]
    split_ifs <;> rfl
  have hlist := EnemyManager.update_enemies env d dt player m
  rw [hgt] at hlist
  refine ⟨hlist, ?_, ?_⟩
  · intro e he
    rw [hlist] at he
    obtain ⟨r, hr, rfl⟩ := List.mem_map.mp he
    obtain ⟨hr1, hr2⟩ := List.mem_filter.mp hr
    obtain ⟨e0, _, rfl⟩ := List.mem_map.mp hr1
    exact (Enemy.update_flag env dt player (m.gameTime + dt) e0).1 hr2
  · intro e _
    exact ⟨(Enemy.update_flag env dt player (m.gameTime + dt) e).2.2,
      (Enemy.update_flag env dt player (m.gameTime + dt) e).2.1⟩

/-- C28. `AsteroidManager.spawnAsteroid` picks the size from the difficulty multiplier `m`
and the draw `r`: 1 if `r < 0.3 m`, 2 if `0.3 m ≤ r < 0.6 m`, 3 otherwise. Raising `m` never
makes the size for the same `r` larger; from `m = 5/3` on no asteroid of size 3 is spawned,
and from `m = 10/3` on only size 1. The asteroid that `spawnAsteroid` appends has that
size. -/
theorem spawnAsteroid_size (env : MathEnv) (d : AsteroidSpawnDraws) (am : AsteroidManager)
    (m m' : ℚ) (r : Draw) :
    (r.val < 0.3 * m → AsteroidManager.spawnSize m r = 1) ∧
    (0.3 * m ≤ r.val → r.val < 0.6 * m → AsteroidManager.spawnSize m r = 2) ∧
    (0.3 * m ≤ r.val → 0.6 * m ≤ r.val → AsteroidManager.spawnSize m r = 3) ∧
    (m ≤ m' → AsteroidManager.spawnSize m' r ≤ AsteroidManager.spawnSize m r) ∧
    (5 / 3 ≤ m → AsteroidManager.spawnSize m r ≠ 3) ∧
    (10 / 3 ≤ m → AsteroidManager.spawnSize m r = 1) ∧
    (∃ a, (am.spawnAsteroid env d).asteroids = am.asteroids ++ [a] ∧
      a.size = AsteroidManager.spawnSize am.difficultyMultiplier d.size) := by
  have h0 := r.property.1
  have h1 := r.property.2
  refine ⟨?_, ?_, ?_, ?_, ?_, ?_, ⟨_, rfl, rfl⟩⟩
  · intro h
    simp only [AsteroidManager.spawnSize, h, if_true]
  · intro ha hb
    simp only [AsteroidManager.spawnSize, not_lt.mpr ha, hb, if_true, if_false]
  · intro ha hb
    simp only [AsteroidManager.spawnSize, not_lt.mpr ha, not_lt.mpr hb, if_false]
  · intro hm
    have e3 : (0.3 : ℚ) = 3 / 10 := by norm_num
    have e6 : (0.6 : ℚ) = 6 / 10 := by norm_num
    simp only [AsteroidManager.spawnSize, e3, e6]
    split_ifs <;> first | (exfalso; linarith) | norm_num
  · intro hm
    have e3 : (0.3 : ℚ) = 3 / 10 := by norm_num
    have e6 : (0.6 : ℚ) = 6 / 10 := by norm_num
    simp only [AsteroidManager.spawnSize, e3, e6]
    split_ifs <;> first | (exfalso; linarith) | norm_num
  · intro hm
    have e3 : (0.3 : ℚ) = 3 / 10 := by norm_num
    have e6 : (0.6 : ℚ) = 6 / 10 := by norm_num
    simp only [AsteroidManager.spawnSize, e3, e6]
    split_ifs <;> first | (exfalso; linarith) | rfl

/-- C28, at multiplier 2 and draw 0.9: size 2, not 3. -/
theorem spawnAsteroid_size_witness :
    AsteroidManager.spawnSize 2 ⟨0.9, by norm_num⟩ ≠ 3 :=
  (spawnAsteroid_size Examples.env Examples.tick.asteroidSpawn (AsteroidManager.new 800 600)
    2 2 ⟨0.9, by norm_num⟩).2.2.2.2.1 (by norm_num)

/-- C29. Directly after construction or `reset()` of an `EnemyManager`, the first
`update(dt, player)` with `dt ≥ 0` spawns exactly one enemy: the list left by the spawn step
holds just that enemy, active and at `y = -50`, and the spawn timer is reset to 0; the
movement step then updates that one enemy. -/
theorem first_update_spawns (env : MathEnv) (d : EnemySpawnDraws) (dt : ℚ) (hdt : 0 ≤ dt)
    (player : Player) (W H : ℚ) (m0 : EnemyManager) :
    ∀ m ∈ [EnemyManager.new W H, m0.reset],
      ∃ e, (m.updateSpawn env d dt).enemies = [e] ∧ e.active = true ∧ e.y = -50 ∧
        (m.updateSpawn env d dt).spawnTimer = 0 ∧
        (m.update env d dt player).spawnTimer = 0 ∧
        (m.update env d dt player).enemies
          = (if (e.update env dt player dt).1 then [(e.update env dt player dt).2] else []) := by
  have key : ∀ m : EnemyManager, m.enemies = [] → m.spawnTimer = 10000 → m.spawnRate = 5000 →
      m.maxEnemies = 5 → m.gameTime = 0 →
      ∃ e, (m.updateSpawn env d dt).enemies = [e] ∧ e.active = true ∧ e.y = -50 ∧
        (m.updateSpawn env d dt).spawnTimer = 0 ∧
        (m.update env d dt player).spawnTimer = 0 ∧
        (m.update env d dt player).enemies
          = (if (e.update env dt player dt).1 then [(e.update env dt player dt).2] else []) := by
    intro m he ht hr hc hg
    have hcond : m.spawnTimer + dt ≥ m.spawnRate ∧ ((m.enemies.length : ℤ) < m.maxEnemies) := by
      rw [ht, hr, he, hc]
      constructor
      · linarith
      · norm_num
    have hsp : (m.updateSpawn env d dt).enemies
        = [Enemy.new env d.ctor (Utils.randomRange d.x 50 (m.canvasWidth - 50)) (-50)
            (EnemyManager.chooseType m.difficultyMultiplier d.type) m.canvasWidth] ∧
        (m.updateSpawn env d dt).spawnTimer = 0 ∧
        (m.updateSpawn env d dt).gameTime = dt := by
      simp only [EnemyManager.updateSpawn, EnemyManager.spawnEnemy, hcond, and_self, if_true]
      simp [he, hg]
    refine ⟨_, hsp.1, rfl, rfl, hsp.2.1, ?_, ?_⟩
    · exact ((EnemyManager.enemies_length_after_update env d dt player m).2.1).trans hsp.2.1
    · rw [EnemyManager.update_enemies, hsp.1, hsp.2.2]
      by_cases hu : (Enemy.update env dt player dt
          (Enemy.new env d.ctor (Utils.randomRange d.x 50 (m.canvasWidth - 50)) (-50)
            (EnemyManager.chooseType m.difficultyMultiplier d.type) m.canvasWidth)).1 = true
      · simp [hu]
      · simp [hu]
  intro m hm
  simp only [List.mem_cons, List.mem_singleton, List.not_mem_nil, or_false] at hm
  rcases hm with rfl | rfl
  · exact key _ rfl rfl rfl rfl rfl
  · exact key _ rfl rfl rfl rfl rfl

/-- C29, at the constructed manager of an 800 by 600 canvas and a first tick of 16 ms. -/
theorem first_update_spawns_witness :
    ((EnemyManager.new 800 600).updateSpawn Examples.env Examples.tick.enemySpawn 16).enemies.length
      = 1 := by
  obtain ⟨e, he, _⟩ := first_update_spawns Examples.env Examples.tick.enemySpawn 16
    (by norm_num) Examples.player 800 600 (EnemyManager.new 800 600)
    (EnemyManager.new 800 600) (List.mem_cons_self _ _)
  rw [he]
  rfl

/-! ## Theorems on the shooter -/

/-- One update of an active shooter that stays within the margin: with the cooldown above 0
it only counts down and no bullet is added; with the cooldown at 0 or below it shoots and the
cooldown is set to 2000. -/
theorem Enemy.shooter_step (env : MathEnv) (dt : ℚ) (player : Player) (gameTime : ℚ)
    (e : Enemy) (hs : e.type = EnemyType.shooter) (ha : e.active = true)
    (hy : e.y + 1 ≤ player.y + 100) :
    (e.update env dt player gameTime).2.type = EnemyType.shooter ∧
    (e.update env dt player gameTime).2.active = true ∧
    (e.update env dt player gameTime).2.y = e.y + 1 ∧
    (0 < e.shootCooldown →
      (e.update env dt player gameTime).2.shootCooldown = e.shootCooldown - dt ∧
      (e.update env dt player gameTime).2.bullets.length ≤ e.bullets.length) ∧
    (e.shootCooldown ≤ 0 →
      (e.update env dt player gameTime).2.shootCooldown = 2000) := by
  have hny : ¬ (e.y + 1 > player.y + 100) := not_lt.mpr hy
  have hmove : e.move env dt player gameTime
      = { (if e.shootCooldown > 0 then
            ({ e with y := e.y + 1, shootCooldown := e.shootCooldown - dt } : Enemy)
          else { ({ e with y := e.y + 1 } : Enemy).shoot with
                 shootCooldown := Enemy.shootCooldownTime }) with
          bullets := ((if e.shootCooldown > 0 then
              ({ e with y := e.y + 1, shootCooldown := e.shootCooldown - dt } : Enemy)
            else { ({ e with y := e.y + 1 } : Enemy).shoot with
                   shootCooldown := Enemy.shootCooldownTime }).bullets.map
              fun b => { b with y := b.y + Enemy.bulletSpeed }).filter
              fun b => !decide (b.y > player.y + 100) } := by
    unfold Enemy.move
    split
    · rename_i h; rw [hs] at h; cases h
    · rename_i h; rw [hs] at h; cases h
    · simp only [Enemy.speed, hs]
    · rename_i h; rw [hs] at h; cases h
  have hupd : e.update env dt player gameTime
      = (if (e.move env dt player gameTime).y > player.y + 100 then
          (false, { e.move env dt player gameTime with active := false })
         else ((e.move env dt player gameTime).active, e.move env dt player gameTime)) := by
    simp only [Enemy.update, ha, Bool.not_true, Bool.false_eq_true, if_false]
    split_ifs <;> rfl
  by_cases hc : e.shootCooldown > 0
  · have hm : e.move env dt player gameTime
        = { e with y := e.y + 1, shootCooldown := e.shootCooldown - dt,
                   bullets := (e.bullets.map
                     fun b => { b with y := b.y + Enemy.bulletSpeed }).filter
                     fun b => !decide (b.y > player.y + 100) } := by
      rw [hmove]; simp only [hc, if_true]
    rw [hupd, hm]
    rw [if_neg hny]
    refine ⟨hs, ha, rfl, ?_, ?_⟩
    · intro _
      refine ⟨rfl, ?_⟩
      exact le_trans (List.length_filter_le _ _) (by simp)
    · intro h; exact absurd hc (not_lt.mpr h)
  · have hsh := Enemy.shoot_fields ({ e with y := e.y + 1 } : Enemy)
    have hm1 : (e.move env dt player gameTime).y = e.y + 1 ∧
        (e.move env dt player gameTime).type = EnemyType.shooter ∧
        (e.move env dt player gameTime).active = true ∧
        (e.move env dt player gameTime).shootCooldown = 2000 := by
      rw [hmove]; simp only [hc, if_false]
      exact ⟨hsh.2.1, hsh.2.2.2.1.trans hs, hsh.1.trans ha, rfl⟩
    rw [hupd]
    have hny' : ¬ ((e.move env dt player gameTime).y > player.y + 100) := by
      rw [hm1.1]; exact hny
    rw [if_neg hny']
    refine ⟨hm1.2.1, hm1.2.2.1, hm1.1, ?_, ?_⟩
    · intro h; exact absurd h hc
    · intro _; exact hm1.2.2.2

theorem Enemy.runUpdates_succ (env : MathEnv) (dt : ℚ) (player : Player) (gameTime : ℚ)
    (n : ℕ) : ∀ e : Enemy,
      Enemy.runUpdates env dt player gameTime (n + 1) e
        = ((Enemy.runUpdates env dt player gameTime n e).update env dt player gameTime).2 := by
  induction n with
  | zero => intro e; rfl
  | succ n ih =>
    intro e
    rw [Enemy.runUpdates, ih]
    rfl

/-- After a shot the cooldown of a shooter counts down from 2000 by `d` per update, and no
bullet is added, for the first `k = 2000 / d` updates. -/
theorem Enemy.shooter_countdown (env : MathEnv) (d : ℚ) (player : Player) (gameTime : ℚ)
    (k : ℕ) (hk : (k : ℚ) * d = 2000) (e : Enemy)
    (hs : e.type = EnemyType.shooter) (ha : e.active = true) (hc : e.shootCooldown = 2000)
    (j : ℕ) :
    e.y + j ≤ player.y + 100 → j ≤ k →
      (Enemy.runUpdates env d player gameTime j e).type = EnemyType.shooter ∧
      (Enemy.runUpdates env d player gameTime j e).active = true ∧
      (Enemy.runUpdates env d player gameTime j e).y = e.y + j ∧
      (Enemy.runUpdates env d player gameTime j e).shootCooldown = 2000 - j * d ∧
      (Enemy.runUpdates env d player gameTime j e).bullets.length ≤ e.bullets.length := by
  induction j with
  | zero =>
    intro _ _
    simp [Enemy.runUpdates, hs, ha, hc]
  | succ j ih =>
    intro hy hj
    have hy' : e.y + (j : ℚ) ≤ player.y + 100 := by
      push_cast at hy; linarith
    obtain ⟨h1, h2, h3, h4, h5⟩ := ih hy' (by omega)
    have hjk : (j : ℚ) + 1 ≤ k := by exact_mod_cast hj
    have hpos : 0 < (Enemy.runUpdates env d player gameTime j e).shootCooldown := by
      rw [h4]; nlinarith
    have hstep := Enemy.shooter_step env d player gameTime
      (Enemy.runUpdates env d player gameTime j e) h1 h2
      (by rw [h3]; push_cast at hy; linarith)
    rw [Enemy.runUpdates_succ]
    refine ⟨hstep.1, hstep.2.1, ?_, ?_, ?_⟩
    · rw [hstep.2.2.1, h3]; push_cast; ring
    · rw [(hstep.2.2.2.1 hpos).1, h4]; push_cast; ring
    · exact le_trans (hstep.2.2.2.1 hpos).2 h5

/-- C22, the code in general and at the failing input. For a time step `d > 0` with
`k · d = 2000`, an active shooter that has just shot (cooldown 2000) and stays within the
margin has cooldown `2000 - j · d` after `j ≤ k` further updates, none of which adds a bullet,
and cooldown 2000 again after update `k + 1`, which is the next one that shoots: consecutive
shots are `k + 1` updates, not `k`, apart. At `d = 1000` a fresh shooter has 1 bullet after
each of the updates 1, 2 and 3 and 2 bullets after update 4: the two shots are 3 updates
(3000 ms) apart. -/
theorem shooter_period_one_update_longer :
    (∀ (env : MathEnv) (d : ℚ) (player : Player) (gameTime : ℚ) (k : ℕ) (e : Enemy),
      0 < d → (k : ℚ) * d = 2000 → e.type = EnemyType.shooter → e.active = true →
      e.shootCooldown = 2000 → e.y + (k + 1 : ℕ) ≤ player.y + 100 →
      (∀ j, j ≤ k →
        (Enemy.runUpdates env d player gameTime j e).shootCooldown = 2000 - j * d ∧
        (Enemy.runUpdates env d player gameTime j e).bullets.length ≤ e.bullets.length) ∧
      (Enemy.runUpdates env d player gameTime (k + 1) e).shootCooldown = 2000) ∧
    (Enemy.runUpdates Examples.env 1000 Examples.player 0 1 Examples.shooter).bullets.length
      = 1 ∧
    (Enemy.runUpdates Examples.env 1000 Examples.player 0 1 Examples.shooter).shootCooldown
      = 2000 ∧
    (Enemy.runUpdates Examples.env 1000 Examples.player 0 2 Examples.shooter).bullets.length
      = 1 ∧
    (Enemy.runUpdates Examples.env 1000 Examples.player 0 3 Examples.shooter).bullets.length
      = 1 ∧
    (Enemy.runUpdates Examples.env 1000 Examples.player 0 3 Examples.shooter).shootCooldown
      = 0 ∧
    (Enemy.runUpdates Examples.env 1000 Examples.player 0 4 Examples.shooter).bullets.length
      = 2 := by
  refine ⟨?_, ?_, ?_, ?_, ?_, ?_, ?_⟩
  · intro env d player gameTime k e hd hk hs ha hc hy
    constructor
    · intro j hj
      have hyj : e.y + (j : ℚ) ≤ player.y + 100 := by
        have : (j : ℚ) ≤ ((k + 1 : ℕ) : ℚ) := by exact_mod_cast (by omega : j ≤ k + 1)
        linarith
      have h := Enemy.shooter_countdown env d player gameTime k hk e hs ha hc j hyj hj
      exact ⟨h.2.2.2.1, h.2.2.2.2⟩
    · have hyk : e.y + (k : ℚ) ≤ player.y + 100 := by
        push_cast at hy; linarith
      have h := Enemy.shooter_countdown env d player gameTime k hk e hs ha hc k hyk
        (le_refl _)
      have hzero : (Enemy.runUpdates env d player gameTime k e).shootCooldown ≤ 0 := by
        rw [h.2.2.2.1, hk]; norm_num
      have hstep := Enemy.shooter_step env d player gameTime
        (Enemy.runUpdates env d player gameTime k e) h.1 h.2.1
        (by rw [h.2.2.1]; push_cast at hy; linarith)
      rw [Enemy.runUpdates_succ]
      exact hstep.2.2.2.2 hzero
  all_goals decide!

/-! ## Theorems on the leaderboard -/

/-- In a list sorted by descending score, the last entry has the lowest score. -/
theorem LeaderboardManager.last_lowest (l : List ScoreEntry) (last : ScoreEntry)
    (hs : l.Sorted fun a b => a.score ≥ b.score) (hl : l[l.length - 1]? = some last) :
    last ∈ l ∧ ∀ a ∈ l, last.score ≤ a.score := by
  rw [← List.getLast?_eq_getElem?] at hl
  obtain ⟨ys, rfl⟩ := List.getLast?_eq_some_iff.mp hl
  refine ⟨by simp, ?_⟩
  intro a ha
  rcases List.mem_append.mp ha with h | h
  · have := (List.pairwise_append.mp hs).2.2 a h last (by simp)
    exact this
  · rw [List.mem_singleton.mp h]

/-- The list after `addScore` is sorted by descending score and has at most 10 entries,
whatever the list before. -/
theorem LeaderboardManager.addScore_sorted (lm : LeaderboardManager) (name : String)
    (score : ℤ) (date : String) :
    ((lm.addScore name score date).scores.Sorted fun a b => a.score ≥ b.score) ∧
    (lm.addScore name score date).scores.length ≤ 10 := by
  haveI : IsTotal ScoreEntry (fun a b => a.score ≥ b.score) :=
    ⟨fun a b => le_total b.score a.score⟩
  haveI : IsTrans ScoreEntry (fun a b => a.score ≥ b.score) :=
    ⟨fun a b c hab hbc => le_trans hbc hab⟩
  have hsorted : (LeaderboardManager.sortScores
      (lm.scores ++ [⟨name, score, date, lm.isConferenceMode⟩])).Sorted
      (fun a b => a.score ≥ b.score) := List.sorted_insertionSort _ _
  simp only [LeaderboardManager.addScore]
  split_ifs with h
  · exact ⟨hsorted.sublist (List.take_sublist _ _), by simp⟩
  · exact ⟨hsorted, by omega⟩

/-- C30. `LeaderboardManager.addScore` keeps the top-10 invariant. For a list sorted by
descending score with at most 10 entries: the list after `addScore(name, score)` is again
sorted descending with at most 10 entries; `isHighScore(score)` is `true` exactly when there
are fewer than 10 entries or the score is strictly above the lowest stored score; when it is
`true` the new entry occurs in the list once more than before, and when it is `false` the
list is unchanged; so a new entry that was not in the list is in it afterwards exactly when
`isHighScore(score)` was `true`. -/
theorem addScore_top10 (lm : LeaderboardManager) (name : String) (score : ℤ) (date : String)
    (hs : lm.scores.Sorted fun a b => a.score ≥ b.score) (hl : lm.scores.length ≤ 10) :
    ((lm.addScore name score date).scores.Sorted fun a b => a.score ≥ b.score) ∧
    (lm.addScore name score date).scores.length ≤ 10 ∧
    (lm.isHighScore score = true ↔
      lm.scores.length < 10 ∨
      ∃ low ∈ lm.scores, (∀ a ∈ lm.scores, low.score ≤ a.score) ∧ low.score < score) ∧
    (lm.isHighScore score = true →
      (lm.addScore name score date).scores.count ⟨name, score, date, lm.isConferenceMode⟩
        = lm.scores.count ⟨name, score, date, lm.isConferenceMode⟩ + 1) ∧
    (lm.isHighScore score = false → lm.addScore name score date = lm) ∧
    ((⟨name, score, date, lm.isConferenceMode⟩ : ScoreEntry) ∉ lm.scores →
      ((⟨name, score, date, lm.isConferenceMode⟩ : ScoreEntry)
          ∈ (lm.addScore name score date).scores ↔ lm.isHighScore score = true)) := by
  haveI : IsTotal ScoreEntry (fun a b => a.score ≥ b.score) :=
    ⟨fun a b => le_total b.score a.score⟩
  haveI : IsTrans ScoreEntry (fun a b => a.score ≥ b.score) :=
    ⟨fun a b c hab hbc => le_trans hbc hab⟩
  have hafter := LeaderboardManager.addScore_sorted lm name score date
  -- when the list is full, its last entry exists and is the lowest
  have hfull : ¬ lm.scores.length < 10 →
      ∃ last, lm.scores[lm.scores.length - 1]? = some last ∧ last ∈ lm.scores ∧
        (∀ a ∈ lm.scores, last.score ≤ a.score) ∧
        lm.isHighScore score = decide (score > last.score) := by
    intro hlen
    have hlt : lm.scores.length - 1 < lm.scores.length := by omega
    refine ⟨lm.scores[lm.scores.length - 1], List.getElem?_eq_getElem hlt, ?_, ?_, ?_⟩
    · exact List.getElem_mem _
    · exact (LeaderboardManager.last_lowest lm.scores _ hs (List.getElem?_eq_getElem hlt)).2
    · simp only [LeaderboardManager.isHighScore, hlen, if_false,
        List.getElem?_eq_getElem hlt]
  have hhigh : lm.isHighScore score = true ↔
      lm.scores.length < 10 ∨
      ∃ low ∈ lm.scores, (∀ a ∈ lm.scores, low.score ≤ a.score) ∧ low.score < score := by
    by_cases hlen : lm.scores.length < 10
    · simp [LeaderboardManager.isHighScore, hlen]
    · obtain ⟨last, _, hmem, hlow, heq⟩ := hfull hlen
      rw [heq]
      simp only [decide_eq_true_eq, hlen, false_or]
      constructor
      · intro h
        exact ⟨last, hmem, hlow, h⟩
      · rintro ⟨low, hlowmem, _, hlt⟩
        have := hlow low hlowmem
        omega
  have hperm : (LeaderboardManager.sortScores
      (lm.scores ++ [⟨name, score, date, lm.isConferenceMode⟩])).Perm
      (lm.scores ++ [⟨name, score, date, lm.isConferenceMode⟩]) := List.perm_insertionSort _ _
  have hsorted : (LeaderboardManager.sortScores
      (lm.scores ++ [⟨name, score, date, lm.isConferenceMode⟩])).Sorted
      (fun a b => a.score ≥ b.score) := List.sorted_insertionSort _ _
  have hlen' : (LeaderboardManager.sortScores
      (lm.scores ++ [⟨name, score, date, lm.isConferenceMode⟩])).length
      = lm.scores.length + 1 := by
    rw [hperm.length_eq]; simp
  have hcount : lm.isHighScore score = true →
      (lm.addScore name score date).scores.count ⟨name, score, date, lm.isConferenceMode⟩
        = lm.scores.count ⟨name, score, date, lm.isConferenceMode⟩ + 1 := by
    intro hh
    by_cases hlen : lm.scores.length < 10
    · have hno : ¬ (LeaderboardManager.sortScores
          (lm.scores ++ [⟨name, score, date, lm.isConferenceMode⟩])).length > 10 := by
        rw [hlen']; omega
      simp only [LeaderboardManager.addScore, hno, if_false]
      rw [hperm.count_eq]
      simp
    · obtain ⟨last, _, hmem, hlow, heq⟩ := hfull hlen
      rw [heq] at hh
      have hgt : score > last.score := by simpa using hh
      have hten : lm.scores.length = 10 := by omega
      have hyes : (LeaderboardManager.sortScores
          (lm.scores ++ [⟨name, score, date, lm.isConferenceMode⟩])).length > 10 := by
        rw [hlen']; omega
      simp only [LeaderboardManager.addScore, hyes, if_true]
      -- the sorted list of 11 entries is its first 10 entries followed by its last entry
      have hne : LeaderboardManager.sortScores
          (lm.scores ++ [⟨name, score, date, lm.isConferenceMode⟩]) ≠ [] := by
        intro h; rw [h] at hlen'; simp at hlen'
      have hsplit := List.dropLast_append_getLast hne
      have htake : (LeaderboardManager.sortScores
          (lm.scores ++ [⟨name, score, date, lm.isConferenceMode⟩])).take 10
          = (LeaderboardManager.sortScores
              (lm.scores ++ [⟨name, score, date, lm.isConferenceMode⟩])).dropLast := by
        rw [List.dropLast_eq_take, hlen', hten]
      rw [htake]
      -- the last entry of the sorted list has a score of at most `last.score`
      have hlastmem : last ∈ LeaderboardManager.sortScores
          (lm.scores ++ [⟨name, score, date, lm.isConferenceMode⟩]) :=
        hperm.symm.subset (List.mem_append_left _ hmem)
      have hx : ((LeaderboardManager.sortScores
          (lm.scores ++ [⟨name, score, date, lm.isConferenceMode⟩])).getLast hne).score
          ≤ last.score := by
        rw [← hsplit] at hsorted hlastmem
        rcases List.mem_append.mp hlastmem with h | h
        · exact (List.pairwise_append.mp hsorted).2.2 last h _ (by simp)
        · rw [List.mem_singleton.mp h]
      have hneq : (LeaderboardManager.sortScores
          (lm.scores ++ [⟨name, score, date, lm.isConferenceMode⟩])).getLast hne
          ≠ ⟨name, score, date, lm.isConferenceMode⟩ := by
        intro h
        rw [h] at hx
        simp only at hx
        omega
      have hc := hperm.count_eq (⟨name, score, date, lm.isConferenceMode⟩ : ScoreEntry)
      rw [← hsplit, List.count_append, List.count_singleton] at hc
      simp only [beq_iff_eq, hneq, if_false, add_zero] at hc
      rw [hc]
      simp
  have hsame : lm.isHighScore score = false → lm.addScore name score date = lm := by
    intro hh
    have hlen : ¬ lm.scores.length < 10 := by
      intro h
      simp [LeaderboardManager.isHighScore, h] at hh
    obtain ⟨last, _, hmem, hlow, heq⟩ := hfull hlen
    rw [heq] at hh
    have hle : score ≤ last.score := by simpa using hh
    have hten : lm.scores.length = 10 := by omega
    have hsortedIn :
        (lm.scores ++ [(⟨name, score, date, lm.isConferenceMode⟩ : ScoreEntry)]).Sorted
        (fun a b : ScoreEntry => a.score ≥ b.score) := by
      apply List.pairwise_append.mpr
      refine ⟨hs, List.pairwise_singleton _ _, ?_⟩
      intro a ha b hb
      rw [List.mem_singleton.mp hb]
      have := hlow a ha
      simp only
      omega
    have hid : LeaderboardManager.sortScores
        (lm.scores ++ [⟨name, score, date, lm.isConferenceMode⟩])
        = lm.scores ++ [⟨name, score, date, lm.isConferenceMode⟩] :=
      List.Sorted.insertionSort_eq hsortedIn
    simp only [LeaderboardManager.addScore, hid, List.length_append, List.length_singleton,
      hten]
    simp only [gt_iff_lt, Nat.lt_add_one, if_true]
    have : (lm.scores ++ [(⟨name, score, date, lm.isConferenceMode⟩ : ScoreEntry)]).take 10
        = lm.scores := by
      rw [← hten]; exact List.take_left' rfl
    rw [this]
  refine ⟨hafter.1, hafter.2, hhigh, hcount, hsame, ?_⟩
  intro hnot
  constructor
  · intro hin
    cases hh : lm.isHighScore score
    · rw [hsame hh] at hin
      exact absurd hin hnot
    · rfl
  · intro hh
    have := hcount hh
    exact List.count_pos_iff.mp (by omega)

/-- C30, at a full board with scores from 100 down to 10: a score of 10 ties with the lowest
entry, is not a high score, and leaves the board unchanged. -/
theorem addScore_top10_witness :
    Examples.fullBoard.addScore "K" 10 "2025-01-02" = Examples.fullBoard :=
  (addScore_top10 Examples.fullBoard "K" 10 "2025-01-02" (by decide!) (by decide!)).2.2.2.2.1
    (by decide!)

/-- C30, at the same board and a score of 55: the new entry takes the sixth place and the
entry with score 10 drops out. -/
theorem addScore_top10_example :
    (Examples.fullBoard.addScore "K" 55 "2025-01-02").scores.map (fun s => s.score)
      = [100, 90, 80, 70, 60, 55, 50, 40, 30, 20] := by
  decide!

end AIDefender
